import Mathlib

/-!
Verification development for the BPNeuralNetwork repository.

Shallow embedding of the node/topology engine:
- `Neurode.py` (MultiLinkNode / Neurode): neighbor bookkeeping, the bitmask
  check-in protocol, weight map;
- `FFNeurode.py`: forward propagation;
- `BPNeurode.py`: backward propagation with eager weight update;
- `DoublyLinkedList.py`: cursor-based doubly linked list;
- `LayerList.py`: layered topology built on the list.

Machine real numbers (Python floats) are modelled as rationals `ℚ`; the
logistic sigmoid is transcendental, so the activation is carried as an
explicit function parameter `sigma : ℚ → ℚ` wherever a value is computed.
Python object identities are modelled as natural-number ids; the global
object heap is a total function from ids to node records.  Python's
`random.random()` stream is modelled as an explicit stream `rand : ℕ → ℚ`
together with a counter that advances once per draw.
-/

/-- Side enumeration from `MultiLinkNode.Side` (`Neurode.py`):
UPSTREAM are input connections, DOWNSTREAM output connections. -/
inductive Side where
  | UPSTREAM : Side
  | DOWNSTREAM : Side
deriving DecidableEq, Repr

/-- Record of one node's mutable state, combining the fields of
`MultiLinkNode.__init__` (`_reporting_nodes`, `_reference_value`,
`_neighbors`), `Neurode.__init__` (`_value`, `_weights`) and
`BPNeurode.__init__` (`_delta`).  The two sides of each per-side dict are
stored as separate fields. -/
structure NodeRec where
  value : ℚ
  delta : ℚ
  weights : List (ℕ × ℚ)
  upstream : List ℕ
  downstream : List ℕ
  reportingUp : ℕ
  reportingDown : ℕ
  referenceUp : ℕ
  referenceDown : ℕ
deriving DecidableEq, Repr

/-- Freshly constructed node: `MultiLinkNode.__init__` zeroes the reporting
and reference dicts and empties the neighbor lists; `Neurode.__init__` sets
`_value = 0` and `_weights = {}`; `BPNeurode.__init__` sets `_delta = 0.0`. -/
def NodeRec.init : NodeRec :=
  { value := 0, delta := 0, weights := [], upstream := [], downstream := []
    reportingUp := 0, reportingDown := 0, referenceUp := 0, referenceDown := 0 }

/-- Lookup in the `_weights` dict (assoc-list model of the Python dict). -/
def wlookup : List (ℕ × ℚ) → ℕ → Option ℚ
  | [], _ => none
  | p :: rest, k => if p.1 = k then some p.2 else wlookup rest k

/-- Insertion / overwrite in the `_weights` dict. -/
def winsert : List (ℕ × ℚ) → ℕ → ℚ → List (ℕ × ℚ)
  | [], k, v => [(k, v)]
  | p :: rest, k, v => if p.1 = k then (k, v) :: rest else p :: winsert rest k v

/-- Accessor for `self._neighbors[side]`. -/
def NodeRec.neighbors (r : NodeRec) : Side → List ℕ
  | .UPSTREAM => r.upstream
  | .DOWNSTREAM => r.downstream

/-- Accessor for `self._reporting_nodes[side]`. -/
def NodeRec.reporting (r : NodeRec) : Side → ℕ
  | .UPSTREAM => r.reportingUp
  | .DOWNSTREAM => r.reportingDown

/-- Accessor for `self._reference_value[side]`. -/
def NodeRec.reference (r : NodeRec) : Side → ℕ
  | .UPSTREAM => r.referenceUp
  | .DOWNSTREAM => r.referenceDown

/-- Assignment `self._neighbors[side] = l`. -/
def NodeRec.setNeighbors (r : NodeRec) : Side → List ℕ → NodeRec
  | .UPSTREAM, l => { r with upstream := l }
  | .DOWNSTREAM, l => { r with downstream := l }

/-- Assignment `self._reporting_nodes[side] = m`. -/
def NodeRec.setReporting (r : NodeRec) : Side → ℕ → NodeRec
  | .UPSTREAM, m => { r with reportingUp := m }
  | .DOWNSTREAM, m => { r with reportingDown := m }

/-- Assignment `self._reference_value[side] = m`. -/
def NodeRec.setReference (r : NodeRec) : Side → ℕ → NodeRec
  | .UPSTREAM, m => { r with referenceUp := m }
  | .DOWNSTREAM, m => { r with referenceDown := m }

/-- Embedding of `Neurode._process_new_neighbor`: on the UPSTREAM side the
new neighbor is given a fresh pseudo-random weight (`random.random()`
modelled as the stream value `rand k`, advancing the counter); DOWNSTREAM
additions have no effect. -/
def processNewNeighbor (r : NodeRec) (node : ℕ) (side : Side)
    (rand : ℕ → ℚ) (k : ℕ) : NodeRec × ℕ :=
  match side with
  | .UPSTREAM => ({ r with weights := winsert r.weights node (rand k) }, k + 1)
  | .DOWNSTREAM => (r, k)

/-- Embedding of `MultiLinkNode.reset_neighbors`: copy the node list into
`_neighbors[side]`, run `_process_new_neighbor` on each, then set
`_reference_value[side] = 2 ** len(nodes) - 1`. -/
def resetNeighbors (r : NodeRec) (nodes : List ℕ) (side : Side)
    (rand : ℕ → ℚ) (k : ℕ) : NodeRec × ℕ :=
  let start : NodeRec × ℕ := (r.setNeighbors side nodes, k)
  let folded := nodes.foldl (fun acc node => processNewNeighbor acc.1 node side rand acc.2) start
  (folded.1.setReference side (2 ^ nodes.length - 1), folded.2)

/-- Embedding of `Neurode._check_in`: locate the reporting node's first
index in `_neighbors[side]` (Python `list.index`; `none` models the
ValueError raised when absent), OR the corresponding bit into
`_reporting_nodes[side]`, and on equality with `_reference_value[side]`
reset the bitmask to zero and return `true`. -/
def checkIn (r : NodeRec) (node : ℕ) (side : Side) : Option (NodeRec × Bool) :=
  match (r.neighbors side).findIdx? (fun x => x = node) with
  | none => none
  | some i =>
    let m := r.reporting side ||| (1 <<< i)
    if m = r.reference side then some (r.setReporting side 0, true)
    else some (r.setReporting side m, false)

/-- Embedding of `Neurode.get_weight`: dict `.get` with default 0. -/
def getWeight (r : NodeRec) (node : ℕ) : ℚ :=
  (wlookup r.weights node).getD 0

/-- Default value of the class-wide attribute `Neurode._learning_rate`. -/
def learningRateDefault : ℚ := 1 / 20

/-- Global object heap: node id to node record. -/
def Net : Type := ℕ → NodeRec

/-- Replacement of one node's record in the heap. -/
def setNode (net : Net) (i : ℕ) (r : NodeRec) : Net :=
  fun j => if j = i then r else net j

/-!  Forward propagation (`FFNeurode.py`).  The logistic sigmoid is carried
as the parameter `sigma`; recursion through the graph is bounded by an
explicit fuel argument (`none` = fuel exhausted or a check-in fault), which
is irrelevant on the layered networks the repository builds because the
recursion depth there is the number of layers. -/

/-- Embedding of `FFNeurode._calculate_value`: the weighted sum of
upstream values through `get_weight`, passed through the activation. -/
def calculateValue (sigma : ℚ → ℚ) (net : Net) (selfId : ℕ) : NodeRec :=
  let r := net selfId
  let weightedSum := (r.upstream.map (fun u => getWeight r u * (net u).value)).sum
  { r with value := sigma weightedSum }

/-- Embedding of `FFNeurode.data_ready_upstream` (receiver `recv`, reporting
node `sender`): check in the sender on UPSTREAM; when that completes the
mask, compute the value and fire `data_ready_upstream` on every DOWNSTREAM
neighbor in list order (`_fire_downstream`). -/
def dataReadyUpstreamF (sigma : ℚ → ℚ) (ih : Net → ℕ → ℕ → Option Net)
    (net : Net) (recv sender : ℕ) : Option Net :=
  match checkIn (net recv) sender Side.UPSTREAM with
  | none => none
  | some (r, false) => some (setNode net recv r)
  | some (r, true) =>
    let net1 := setNode net recv r
    let net2 := setNode net1 recv (calculateValue sigma net1 recv)
    (net2 recv).downstream.foldlM (fun acc d => ih acc d recv) net2

def dataReadyUpstream (sigma : ℚ → ℚ) (fuel : ℕ) : Net → ℕ → ℕ → Option Net :=
  Nat.rec (motive := fun _ => Net → ℕ → ℕ → Option Net)
    (fun _ _ _ => none)
    (fun _ ih => dataReadyUpstreamF sigma ih)
    fuel

/-- Embedding of `FFNeurode.set_input`: assign the value directly, then
fire `data_ready_upstream(self)` on every DOWNSTREAM neighbor. -/
def setInput (sigma : ℚ → ℚ) (fuel : ℕ) (net : Net) (selfId : ℕ) (v : ℚ) :
    Option Net :=
  let net1 := setNode net selfId { net selfId with value := v }
  (net1 selfId).downstream.foldlM
    (fun acc d => dataReadyUpstream sigma fuel acc d selfId) net1

/-- Modelled from the spec: the repository ships no driver source; §6 of the
spec states `feed_forward(sample)` maps to one `set_input` call per input
node, in input order.  `pairs` zips the input nodes with the sample. -/
def feedForward (sigma : ℚ → ℚ) (fuel : ℕ) (net : Net)
    (pairs : List (ℕ × ℚ)) : Option Net :=
  pairs.foldlM (fun acc p => setInput sigma fuel acc p.1 p.2) net

/-!  Backward propagation (`BPNeurode.py`).  Besides the resulting heap, the
semantics records a trace of weight-update events so that the exactly-once
update contract can be stated: `adjust_weights(node, adjustment)` called on
holder `h` with key `node` appends the event `(h, node, adjustment)`. -/

/-- Weight-update event: (holder of the weight, upstream key, adjustment). -/
structure WEvent where
  holder : ℕ
  key : ℕ
  adjustment : ℚ
deriving DecidableEq, Repr

/-- Embedding of `BPNeurode._sigmoid_derivative`. -/
def sigmoidDerivative (value : ℚ) : ℚ := value * (1 - value)

/-- Embedding of `BPNeurode._calculate_delta` with a target (output node):
`delta = (target - value) * value * (1 - value)`. -/
def calculateDeltaOutput (r : NodeRec) (target : ℚ) : NodeRec :=
  { r with delta := (target - r.value) * sigmoidDerivative r.value }

/-- Embedding of `BPNeurode._calculate_delta` without a target (hidden
node): the weighted sum of downstream deltas through the weight each
downstream node holds for `self`.  The source reads `node._weights[self]`,
a dict subscript that raises `KeyError` when the key is absent; the lookup
is therefore an `Option` and the whole call returns `none` on a missing
edge weight. -/
def calculateDeltaHidden (net : Net) (selfId : ℕ) : Option NodeRec :=
  let r := net selfId
  (r.downstream.mapM (fun d => (wlookup (net d).weights selfId).map (fun w => (net d).delta * w))).map
    (fun terms => { r with delta := sigmoidDerivative r.value * terms.sum })

/-- Embedding of `BPNeurode.adjust_weights`: `self._weights[node] += adjustment`.
The `+=` subscript raises `KeyError` when `node` has no stored weight, so
the update returns `none` in that case. -/
def adjustWeights (r : NodeRec) (node : ℕ) (adjustment : ℚ) : Option NodeRec :=
  (wlookup r.weights node).map
    (fun w => { r with weights := winsert r.weights node (w + adjustment) })

/-- Embedding of `BPNeurode._update_weights`.  Note the local binding
`learning_rate = 0.05` in the source, which shadows the class-wide settable
`Neurode.learning_rate` property: the update always uses the literal 0.05.
For each DOWNSTREAM neighbor: `adjustment = learning_rate * node.delta *
self._value`, then `node.adjust_weights(self, adjustment)`; each call is
recorded as one `WEvent`. -/
def updateWeights (net : Net) (selfId : ℕ) : Option (Net × List WEvent) :=
  let learning_rate : ℚ := 1 / 20
  (net selfId).downstream.foldlM
    (fun acc d =>
      let adjustment := learning_rate * (acc.1 d).delta * (acc.1 selfId).value
      (adjustWeights (acc.1 d) selfId adjustment).map
        (fun r => (setNode acc.1 d r, acc.2 ++ [⟨d, selfId, adjustment⟩])))
    (net, [])

/-- Embedding of `BPNeurode.data_ready_downstream` (receiver `recv`,
reporting node `sender`): check in the sender on DOWNSTREAM; when complete,
calculate the (hidden) delta, fire `data_ready_downstream(self)` on every
UPSTREAM neighbor (`_fire_upstream`), and only then update the weights the
DOWNSTREAM neighbors hold for `self`. -/
def dataReadyDownstreamF (sigma : ℚ → ℚ)
    (ih : Net → ℕ → ℕ → Option (Net × List WEvent))
    (net : Net) (recv sender : ℕ) : Option (Net × List WEvent) :=
  match checkIn (net recv) sender Side.DOWNSTREAM with
  | none => none
  | some (r, false) => some (setNode net recv r, [])
  | some (r, true) =>
    let net1 := setNode net recv r
    match calculateDeltaHidden net1 recv with
    | none => none
    | some r2 =>
      let net2 := setNode net1 recv r2
      match (net2 recv).upstream.foldlM
          (fun acc u =>
            (ih acc.1 u recv).map
              (fun p => (p.1, acc.2 ++ p.2)))
          (net2, ([] : List WEvent)) with
      | none => none
      | some (net3, tr) =>
        match updateWeights net3 recv with
        | none => none
        | some (net4, tr2) => some (net4, tr ++ tr2)

def dataReadyDownstream (sigma : ℚ → ℚ) (fuel : ℕ) : Net → ℕ → ℕ → Option (Net × List WEvent) :=
  Nat.rec (motive := fun _ => Net → ℕ → ℕ → Option (Net × List WEvent))
    (fun _ _ _ => none)
    (fun _ ih => dataReadyDownstreamF sigma ih)
    fuel

/-- Embedding of `BPNeurode.set_expected`: calculate the output delta from
the target, then fire `data_ready_downstream(self)` on every UPSTREAM
neighbor.  No check-in and no weight update happen at the output node. -/
def setExpected (sigma : ℚ → ℚ) (fuel : ℕ) (net : Net) (selfId : ℕ)
    (target : ℚ) : Option (Net × List WEvent) :=
  let net1 := setNode net selfId (calculateDeltaOutput (net selfId) target)
  (net1 selfId).upstream.foldlM
    (fun acc u =>
      (dataReadyDownstream sigma fuel acc.1 u selfId).map
        (fun p => (p.1, acc.2 ++ p.2)))
    (net1, ([] : List WEvent))

/-- Modelled from the spec: §6 states `back_propagate(expected)` maps to one
`set_expected` call per output node, in output order.  `pairs` zips the
output nodes with the expected values; the traces are concatenated. -/
def backPropagate (sigma : ℚ → ℚ) (fuel : ℕ) (net : Net)
    (pairs : List (ℕ × ℚ)) : Option (Net × List WEvent) :=
  pairs.foldlM
    (fun acc p =>
      (setExpected sigma fuel acc.1 p.1 p.2).map
        (fun q => (q.1, acc.2 ++ q.2)))
    (net, ([] : List WEvent))

/-!  Cursor-based doubly linked list (`DoublyLinkedList.py`).  The chain of
`DLLNode` objects is modelled as the list of (node identity, payload) pairs
read off head-to-tail; the cursor is the identity of the current node (or
none).  Python raises `IndexError` at every fault site of this class and
`ValueError` for invalid sizes in `LayerList`; the spec renames these
per-site (NotFoundError, EmptyStructureError, TopologyError,
ConstructionError). -/

/-- Python exception kinds raised by the list and topology code. -/
inductive PyError where
  | valueError : PyError
  | indexError : PyError
deriving DecidableEq, Repr

/-- Doubly linked list state: the head-to-tail sequence of (identity,
payload) pairs, and the identity of the cursor node, when any. -/
structure DLL (α : Type) where
  nodes : List (ℕ × α)
  curr : Option ℕ
deriving DecidableEq, Repr

/-- Embedding of `DoublyLinkedList.__init__`: empty chain, no cursor. -/
def DLL.empty (α : Type) : DLL α := ⟨[], none⟩

/-- Identity of the head node, when the list is nonempty. -/
def headId {α : Type} (l : List (ℕ × α)) : Option ℕ := l.head?.map (fun p => p.1)

/-- Identity of the tail node, when the list is nonempty. -/
def tailId {α : Type} (l : List (ℕ × α)) : Option ℕ := l.getLast?.map (fun p => p.1)

/-- Position of the cursor node within the chain. -/
def DLL.currIdx {α : Type} (st : DLL α) : Option ℕ :=
  st.curr.bind (fun c => st.nodes.findIdx? (fun p => p.1 = c))

/-- Embedding of `DoublyLinkedList.add_to_head`: prepend a fresh node
(whose identity `i` the caller supplies) and park the cursor at the head. -/
def DLL.addToHead {α : Type} (st : DLL α) (i : ℕ) (a : α) : DLL α :=
  ⟨(i, a) :: st.nodes, some i⟩

/-- Embedding of `DoublyLinkedList.add_after_current`: `IndexError` when the
cursor is none, otherwise splice a fresh node (identity `i`) right after the
cursor node; tail advances automatically when splicing at the end.  (A
cursor identity absent from the chain cannot arise from the operations
modelled here; that branch also faults.) -/
def DLL.addAfterCurrent {α : Type} (st : DLL α) (i : ℕ) (a : α) :
    Except PyError (DLL α) :=
  match st.currIdx with
  | none => .error .indexError
  | some j => .ok ⟨st.nodes.take (j + 1) ++ (i, a) :: st.nodes.drop (j + 1), st.curr⟩

/-- Embedding of `DoublyLinkedList.remove_from_head`: `IndexError` on an
empty list; otherwise drop the head, park the cursor at the new head and
return the removed payload. -/
def DLL.removeFromHead {α : Type} (st : DLL α) : Except PyError (DLL α × α) :=
  match st.nodes with
  | [] => .error .indexError
  | p :: rest => .ok (⟨rest, headId rest⟩, p.2)

/-- Embedding of `DoublyLinkedList.remove_after_current`: `IndexError` when
the cursor is none or has no successor; otherwise unlink the successor
(tail retreats automatically when it was the tail) and return its payload. -/
def DLL.removeAfterCurrent {α : Type} (st : DLL α) : Except PyError (DLL α × α) :=
  match st.currIdx with
  | none => .error .indexError
  | some j =>
    match (st.nodes.drop (j + 1)).head? with
    | none => .error .indexError
    | some p => .ok (⟨st.nodes.take (j + 1) ++ st.nodes.drop (j + 2), st.curr⟩, p.2)

/-- Embedding of `DoublyLinkedList.reset_to_head`: cursor to the head
(none when the list is empty, exactly as `self._curr = self._head`). -/
def DLL.resetToHead {α : Type} (st : DLL α) : DLL α := ⟨st.nodes, headId st.nodes⟩

/-- Embedding of `DoublyLinkedList.reset_to_tail`. -/
def DLL.resetToTail {α : Type} (st : DLL α) : DLL α := ⟨st.nodes, tailId st.nodes⟩

/-- Embedding of `DoublyLinkedList.move_forward`: `IndexError` when there is
no cursor or no successor, else step to the successor node. -/
def DLL.moveForward {α : Type} (st : DLL α) : Except PyError (DLL α) :=
  match st.currIdx with
  | none => .error .indexError
  | some j =>
    match (st.nodes.drop (j + 1)).head? with
    | none => .error .indexError
    | some p => .ok ⟨st.nodes, some p.1⟩

/-- Embedding of `DoublyLinkedList.move_backward`: `IndexError` when there
is no cursor or no predecessor, else step to the predecessor node. -/
def DLL.moveBackward {α : Type} (st : DLL α) : Except PyError (DLL α) :=
  match st.currIdx with
  | none => .error .indexError
  | some 0 => .error .indexError
  | some (j + 1) =>
    match st.nodes.get? j with
    | none => .error .indexError
    | some p => .ok ⟨st.nodes, some p.1⟩

/-- Head-to-tail scan of the `while current:` loop in
`DoublyLinkedList.find`: identity of the first node whose payload equals
the searched value. -/
def findAux {α : Type} [DecidableEq α] : List (ℕ × α) → α → Option ℕ
  | [], _ => none
  | p :: rest, v => if p.2 = v then some p.1 else findAux rest v

/-- Embedding of `DoublyLinkedList.find`: linear scan; on a hit the cursor
moves to the found node and the value is returned; on a miss the not-found
`IndexError` is raised (the NotFound fault of the spec). -/
def DLL.find {α : Type} [DecidableEq α] (st : DLL α) (v : α) :
    Except PyError (DLL α × α) :=
  match findAux st.nodes v with
  | some i => .ok (⟨st.nodes, some i⟩, v)
  | none => .error .indexError

/-- Head-to-tail scan of the `while current:` loop in
`DoublyLinkedList.remove`: unlink the first node whose payload equals the
searched value, returning the new chain and the removed node's identity. -/
def removeAux {α : Type} [DecidableEq α] :
    List (ℕ × α) → α → Option (List (ℕ × α) × ℕ)
  | [], _ => none
  | p :: rest, v =>
    if p.2 = v then some (rest, p.1)
    else (removeAux rest v).map (fun q => ((p.1, p.2) :: q.1, q.2))

/-- Embedding of `DoublyLinkedList.remove`: unlink the first node holding
the value (not-found `IndexError` on a miss); when the cursor node is the
removed node, the cursor is re-parked at the (new) head, otherwise it is
untouched. -/
def DLL.remove {α : Type} [DecidableEq α] (st : DLL α) (v : α) :
    Except PyError (DLL α × α) :=
  match removeAux st.nodes v with
  | none => .error .indexError
  | some (l, rid) =>
    .ok (⟨l, if st.curr = some rid then headId l else st.curr⟩, v)

/-- Embedding of the `curr_data` property: `IndexError` when the cursor is
none, else the cursor node's payload. -/
def DLL.currData {α : Type} (st : DLL α) : Except PyError α :=
  match st.currIdx with
  | none => .error .indexError
  | some j =>
    match st.nodes.get? j with
    | none => .error .indexError
    | some p => .ok p.2

/-- Embedding of `DoublyLinkedList.is_empty`. -/
def DLL.isEmpty {α : Type} (st : DLL α) : Bool := st.nodes.isEmpty

/-!  Layered topology (`LayerList.py`).  A `LayerList` combines the list of
layers (each layer a list of neurode ids) with the heap of node records.
`random.random()` draws consumed while wiring upstream weights advance the
counter `rctr` through the stream `rand`; `nctr` and `dctr` supply fresh
identities for newly constructed neurodes and list nodes. -/

/-- Full topology state: the layer list, the node heap, the position in the
random stream, and the fresh-identity counters. -/
structure LL where
  dll : DLL (List ℕ)
  net : Net
  rctr : ℕ
  nctr : ℕ
  dctr : ℕ

/-- Call of `reset_neighbors` on the heap node `i`. -/
def resetNetNeighbors (net : Net) (i : ℕ) (nodes : List ℕ) (side : Side)
    (rand : ℕ → ℚ) (k : ℕ) : Net × ℕ :=
  let rk := resetNeighbors (net i) nodes side rand k
  (setNode net i rk.1, rk.2)

/-- Embedding of `LayerList._link_with_next`: every node of the cursor layer
gets the next layer as its DOWNSTREAM neighbors, and every node of the next
layer gets the cursor layer as its UPSTREAM neighbors (drawing one random
weight per upstream neighbor).  Call sites guarantee the cursor and its
successor exist; the fallback branches are unreachable there. -/
def linkWithNext (rand : ℕ → ℚ) (st : LL) : LL :=
  match st.dll.currIdx with
  | none => st
  | some j =>
    match st.dll.nodes.get? j, st.dll.nodes.get? (j + 1) with
    | some pa, some pb =>
      let A := pa.2
      let B := pb.2
      let nk1 := A.foldl
        (fun acc a => resetNetNeighbors acc.1 a B Side.DOWNSTREAM rand acc.2)
        (st.net, st.rctr)
      let nk2 := B.foldl
        (fun acc b => resetNetNeighbors acc.1 b A Side.UPSTREAM rand acc.2)
        nk1
      { st with net := nk2.1, rctr := nk2.2 }
    | _, _ => st

/-- Embedding of `LayerList.__init__`: `ValueError` (the spec's
ConstructionError) when either count is below 1, so no layer is created;
otherwise build the input layer (ids `0..inputs-1`) and the output layer
(ids `inputs..inputs+outputs-1`) of freshly constructed nodes, place them
as the only two list elements via `add_to_head` and `add_after_current`,
and wire them with `_link_with_next`. -/
def LL.init (inputs outputs : ℤ) (rand : ℕ → ℚ) : Except PyError LL :=
  if inputs < 1 ∨ outputs < 1 then .error .valueError
  else
    let n := inputs.toNat
    let m := outputs.toNat
    let inputIds := List.range n
    let outputIds := List.range' n m
    let st0 : LL :=
      { dll := DLL.empty (List ℕ), net := fun _ => NodeRec.init
        rctr := 0, nctr := n + m, dctr := 2 }
    let st1 : LL := { st0 with dll := st0.dll.addToHead 0 inputIds }
    match st1.dll.addAfterCurrent 1 outputIds with
    | .error e => .error e
    | .ok d2 => .ok (linkWithNext rand { st1 with dll := d2 })

/-- Embedding of `LayerList.add_layer`: `IndexError` (TopologyError) when
the cursor is the tail, `ValueError` (ConstructionError) when the size is
negative; otherwise build a hidden layer of fresh nodes, insert it after
the cursor, link cursor layer to it, step forward, link it to the layer
that used to follow, and step back. -/
def LL.addLayer (rand : ℕ → ℚ) (st : LL) (numNodes : ℤ) : Except PyError LL :=
  if st.dll.curr = tailId st.dll.nodes then .error .indexError
  else if numNodes < 0 then .error .valueError
  else
    let sz := numNodes.toNat
    let hidden := List.range' st.nctr sz
    match st.dll.addAfterCurrent st.dctr hidden with
    | .error e => .error e
    | .ok d2 =>
      let stA : LL := { st with dll := d2, nctr := st.nctr + sz, dctr := st.dctr + 1 }
      let stB := linkWithNext rand stA
      match stB.dll.moveForward with
      | .error e => .error e
      | .ok d3 =>
        let stC := linkWithNext rand { stB with dll := d3 }
        match stC.dll.moveBackward with
        | .error e => .error e
        | .ok d4 => .ok { stC with dll := d4 }

/-- Embedding of `LayerList.remove_layer`: `IndexError` (TopologyError)
when the cursor is the tail or its successor is the tail (the output layer
cannot be removed); otherwise unlink the successor layer and relink the
cursor layer to the layer that followed it. -/
def LL.removeLayer (rand : ℕ → ℚ) (st : LL) : Except PyError LL :=
  match st.dll.currIdx with
  | none => .error .indexError
  | some j =>
    if st.dll.nodes.length ≤ j + 2 then .error .indexError
    else
      match st.dll.removeAfterCurrent with
      | .error e => .error e
      | .ok (d2, _) => .ok (linkWithNext rand { st with dll := d2 })

/-- Embedding of the `input_nodes` property: the head layer's nodes. -/
def LL.inputNodes (st : LL) : Option (List ℕ) := st.dll.nodes.head?.map (fun p => p.2)

/-- Embedding of the `output_nodes` property: the tail layer's nodes. -/
def LL.outputNodes (st : LL) : Option (List ℕ) := st.dll.nodes.getLast?.map (fun p => p.2)

/-!  Derived definitions used to state and prove the theorems below.  They
are not translations of further source code; each is a closed form whose
agreement with the operational embedding above is proved, or a convenient
reformulation of a spec phrase. -/

/-- Sequence of `_weights` insertions with consecutive random draws, the
closed form of the fold inside `reset_neighbors` on the UPSTREAM side. -/
def winsertSeq (w : List (ℕ × ℚ)) : List ℕ → (ℕ → ℚ) → ℕ → List (ℕ × ℚ)
  | [], _, _ => w
  | n :: rest, rand, k => winsertSeq (winsert w n (rand k)) rest rand (k + 1)

/-- End-to-end run of the single-input single-output scenario of the
learning-rate claim: build the 1-1 topology with `LayerList.__init__`, feed
the input value forward (`feed_forward([x])`), back-propagate one expected
value (`back_propagate([t])`), and read the weight the output node (id 1)
holds for the input node (id 0). -/
def runC1 (sigma : ℚ → ℚ) (rand : ℕ → ℚ) (x t : ℚ) : Option ℚ :=
  match LL.init 1 1 rand with
  | .error _ => none
  | .ok st =>
    match feedForward sigma 1 st.net [(0, x)] with
    | none => none
    | some netF =>
      match backPropagate sigma 1 netF [(1, t)] with
      | none => none
      | some res => wlookup (res.1 1).weights 0

/-- The weight-update formula exactly as the C1 claim words it (spec side,
for comparison with the source-derived `runC1`): new weight
`w + lr * (t - y) * y * (1 - y) * x`, with `lr` the claimed shared settable
learning rate. -/
def specC1Weight (lr w y x t : ℚ) : ℚ := w + lr * (t - y) * y * (1 - y) * x

/-!  C5 machinery: index-based bitmask bookkeeping of `check_in` and the
forward presentation. -/

/-- Index `list.index(node)` of a neighbor inside the neighbor list, as
`Neurode._check_in` computes it. -/
def insIdx (ins : List ℕ) (u : ℕ) : ℕ := (ins.findIdx? (fun x => x = u)).getD 0

/-- Reporting bitmask accumulated after the members of `P` have checked in
on a node whose neighbor list is `ins`. -/
def maskOf (ins P : List ℕ) : ℕ := P.foldl (fun m u => m ||| (1 <<< insIdx ins u)) 0

/-!  Named record updates: each is definitionally the corresponding
`{ r with ... }` update; keeping them as named functions keeps rewriting
syntactic. -/

def NodeRec.withValue (r : NodeRec) (v : ℚ) : NodeRec := { r with value := v }

def NodeRec.withDelta (r : NodeRec) (d : ℚ) : NodeRec := { r with delta := d }

def NodeRec.withWeights (r : NodeRec) (w : List (ℕ × ℚ)) : NodeRec := { r with weights := w }

def NodeRec.withReportingUp (r : NodeRec) (m : ℕ) : NodeRec := { r with reportingUp := m }

def NodeRec.withReportingDown (r : NodeRec) (m : ℕ) : NodeRec := { r with reportingDown := m }

-- SPLIT: projection lemmas are theorems

/-- Heap state after the members of `P` (a proper subset of the inputs)
have run `set_input`: those inputs carry their values, every output's
UPSTREAM mask shows exactly the bits of `P`, nothing else moved. -/
def ffMidNet (net : Net) (ins outs : List ℕ) (xs : ℕ → ℚ) (P : List ℕ) : Net :=
  fun j =>
    if j ∈ P then (net j).withValue (xs j)
    else if j ∈ outs then (net j).withReportingUp (maskOf ins P)
    else net j

/-!  C2 machinery: the backward presentation. -/

/-- Output delta as `set_expected` computes it. -/
def bpDelta (net : Net) (ts : ℕ → ℚ) (o : ℕ) : ℚ :=
  (ts o - (net o).value) * sigmoidDerivative (net o).value


/-!  Layered networks of arbitrary depth: the exact class `LayerList`
builds (two layers from the constructor plus any number of `add_layer`
insertions), and the cascade semantics of one forward presentation. -/

/-- First layer of a chain ([] when the chain is exhausted). -/
def headList : List (List ℕ) → List ℕ
  | [] => []
  | X :: _ => X

/-- Chain wiring below a layer `P`: each successive layer is nonempty,
duplicate-free, fully wired to its predecessor on the UPSTREAM side with
the matching reference mask, and to its successor on the DOWNSTREAM side. -/
def chainShape (net : Net) : List ℕ → List (List ℕ) → Prop
  | _, [] => True
  | P, A :: rest =>
    A ≠ [] ∧ A.Nodup ∧
    (∀ a ∈ A, (net a).upstream = P ∧ (net a).referenceUp = 2 ^ P.length - 1 ∧
      (net a).downstream = headList rest) ∧
    chainShape net A rest

/-- One layer of the forward cascade: every node of `A` gets the
activation of the weighted sum of the stored values of `P`, and its
UPSTREAM mask is back to zero. -/
def finalizeVals (sigma : ℚ → ℚ) (net : Net) (P A : List ℕ) : Net :=
  fun j =>
    if j ∈ A then
      ((net j).withReportingUp 0).withValue
        (sigma ((P.map (fun u => getWeight (net j) u * (net u).value)).sum))
    else net j

/-- Denotational forward cascade: finalize the chain layer by layer. -/
def cascadeNet (sigma : ℚ → ℚ) : Net → List ℕ → List (List ℕ) → Net
  | net, _, [] => net
  | net, P, A :: rest => cascadeNet sigma (finalizeVals sigma net P A) A rest

/-- Assignment of the sample values to the input nodes. -/
def setVals (net : Net) (S : List ℕ) (xs : ℕ → ℚ) : Net :=
  fun j => if j ∈ S then (net j).withValue (xs j) else net j

/-- Shape of a full layered network: nonempty duplicate-free input layer
wired to a nonempty `chainShape` chain (`LayerList` always holds an input
and an output layer), all node ids globally distinct, and all UPSTREAM
masks clean. -/
def LayeredFF (net : Net) (ins : List ℕ) (chain : List (List ℕ)) : Prop :=
  ins ≠ [] ∧ chain ≠ [] ∧ (ins ++ chain.flatten).Nodup ∧
  (∀ i ∈ ins, (net i).downstream = headList chain) ∧
  chainShape net ins chain ∧
  (∀ X ∈ chain, ∀ x ∈ X, (net x).reportingUp = 0)

/-- Final heap of one forward presentation on a layered network. -/
def ffFinalNetL (sigma : ℚ → ℚ) (net : Net) (ins : List ℕ) (chain : List (List ℕ))
    (xs : ℕ → ℚ) : Net :=
  cascadeNet sigma (setVals net ins xs) ins chain


/-- A concrete three-layer network (input layer 0 and 1, hidden layer 2,
output layer 3) wired the way `LayerList` wires it, with explicit
weights, used to instantiate the layered theorems. -/
def c5NetL : Net := fun j =>
  if j = 0 then { NodeRec.init with downstream := [2] }
  else if j = 1 then { NodeRec.init with downstream := [2] }
  else if j = 2 then { NodeRec.init with
    weights := [(0, 1/2), (1, 1/3)]
    upstream := [0, 1]
    downstream := [3]
    referenceUp := 3 }
  else if j = 3 then { NodeRec.init with
    weights := [(2, 1/4)]
    upstream := [2]
    referenceUp := 1 }
  else NodeRec.init

/-!  The backward presentation on layered networks of arbitrary depth.
Layers are listed from the OUTPUT side: `outs` is the output layer and
`layers` the successive upstream layers ordered toward the inputs. -/

/-- Backward chain wiring above a layer `Q`: each successive upstream
layer is nonempty, duplicate-free, fully wired to its downstream
predecessor (with the matching DOWNSTREAM reference mask), to its
upstream successor, and every `Q`-node holds a stored weight for every
member of the next layer (so `adjust_weights` and the hidden-delta dict
subscripts cannot raise `KeyError`). -/
def bpChainShape (net : Net) : List ℕ → List (List ℕ) → Prop
  | _, [] => True
  | Q, B :: rest =>
    B ≠ [] ∧ B.Nodup ∧
    (∀ b ∈ B, (net b).downstream = Q ∧ (net b).referenceDown = 2 ^ Q.length - 1 ∧
      (net b).upstream = headList rest ∧
      (∀ d ∈ Q, (wlookup (net d).weights b).isSome = true)) ∧
    bpChainShape net B rest

/-- Shape of a full layered network seen from the output side: nonempty
duplicate-free output layer wired to a nonempty `bpChainShape` chain of
upstream layers, all node ids globally distinct, and all DOWNSTREAM
masks clean. -/
def LayeredBP (net : Net) (outs : List ℕ) (layers : List (List ℕ)) : Prop :=
  outs ≠ [] ∧ layers ≠ [] ∧ (outs ++ layers.flatten).Nodup ∧
  (∀ o ∈ outs, (net o).upstream = headList layers) ∧
  bpChainShape net outs layers ∧
  (∀ X ∈ layers, ∀ x ∈ X, (net x).reportingDown = 0)

/-- One layer of the backward cascade: every node of `B` gets its hidden
delta from the (already final) deltas of its downstream layer `Q` through
the weights the `Q`-nodes hold for it, its DOWNSTREAM mask is reset, and
every `Q`-node's weight dict receives one `+=` per `B`-key with the
adjustment `0.05 * delta_own * value_key`. -/
def bpFinalize (net : Net) (Q B : List ℕ) : Net :=
  fun j =>
    if j ∈ B then
      ((net j).withReportingDown 0).withDelta
        (sigmoidDerivative (net j).value *
          ((Q.map (fun d => (net d).delta * (wlookup (net d).weights j).getD 0)).sum))
    else if j ∈ Q then
      (net j).withWeights
        (B.foldl (fun w k => winsert w k ((wlookup w k).getD 0
          + 1 / 20 * (net j).delta * (net k).value)) (net j).weights)
    else net j

/-- Denotational backward cascade: finalize the upstream chain layer by
layer, starting below the output layer. -/
def bpCascadeNet : Net → List ℕ → List (List ℕ) → Net
  | net, _, [] => net
  | net, Q, B :: rest => bpCascadeNet (bpFinalize net Q B) B rest

/-- Canonical weight-update event list of the backward cascade: one block
per layer (one event per edge, holder downstream, key upstream), computed
on the heap current when that layer completes. -/
def bpCascadeEvents : Net → List ℕ → List (List ℕ) → List WEvent
  | _, _, [] => []
  | net, Q, B :: rest =>
    (B.map (fun b => Q.map (fun d =>
        (⟨d, b, 1 / 20 * (net d).delta * (net b).value⟩ : WEvent)))).flatten
      ++ bpCascadeEvents (bpFinalize net Q B) B rest

/-- Assignment of the output deltas computed by `set_expected`. -/
def setDeltasOut (net : Net) (outs : List ℕ) (ts : ℕ → ℚ) : Net :=
  fun j => if j ∈ outs then (net j).withDelta (bpDelta net ts j) else net j

/-- Final heap of one backward presentation on a layered network. -/
def bpFinalNetL (net : Net) (outs : List ℕ) (layers : List (List ℕ))
    (ts : ℕ → ℚ) : Net :=
  bpCascadeNet (setDeltasOut net outs ts) outs layers

/-- Heap state after the members of `SQ` (a proper subset of the outputs)
have run `set_expected`: those outputs carry their deltas, every node of
the first upstream layer has a DOWNSTREAM mask showing exactly the bits
of `SQ`, nothing else moved. -/
def bpMidNet (net : Net) (outs B1 : List ℕ) (ts : ℕ → ℚ) (SQ : List ℕ) : Net :=
  fun j =>
    if j ∈ SQ then (net j).withDelta (bpDelta net ts j)
    else if j ∈ B1 then (net j).withReportingDown (maskOf outs SQ)
    else net j

/-- A concrete three-layer network (inputs 0 and 1 with values 1/2 and
1/3, hidden node 2, output node 3) wired and weighted the way `LayerList`
wires it, used to instantiate the backward layered theorems. -/
def c2NetL : Net := fun j =>
  if j = 0 then { NodeRec.init with
    value := 1/2
    downstream := [2]
    referenceDown := 1 }
  else if j = 1 then { NodeRec.init with
    value := 1/3
    downstream := [2]
    referenceDown := 1 }
  else if j = 2 then { NodeRec.init with
    value := 1/4
    weights := [(0, 1/2), (1, 1/3)]
    upstream := [0, 1]
    downstream := [3]
    referenceDown := 1 }
  else if j = 3 then { NodeRec.init with
    value := 1/5
    weights := [(2, 1/4)]
    upstream := [2]
    referenceUp := 1 }
  else NodeRec.init

/-!  Theorems.  Small frame lemmas about the record setters and the heap
come first, then the claim theorems. -/

theorem setNode_same (net : Net) (i : ℕ) (r : NodeRec) : setNode net i r i = r := by
  simp [setNode]

theorem setNode_other (net : Net) (i j : ℕ) (r : NodeRec) (h : j ≠ i) :
    setNode net i r j = net j := by
  simp [setNode, h]

theorem setReporting_reporting_same (r : NodeRec) (s : Side) (m : ℕ) :
    (r.setReporting s m).reporting s = m := by
  cases s <;> rfl

theorem setReporting_neighbors (r : NodeRec) (s t : Side) (m : ℕ) :
    (r.setReporting s m).neighbors t = r.neighbors t := by
  cases s <;> cases t <;> rfl

theorem setReporting_reference (r : NodeRec) (s t : Side) (m : ℕ) :
    (r.setReporting s m).reference t = r.reference t := by
  cases s <;> cases t <;> rfl

theorem setReporting_value (r : NodeRec) (s : Side) (m : ℕ) :
    (r.setReporting s m).value = r.value := by
  cases s <;> rfl

theorem setReporting_weights (r : NodeRec) (s : Side) (m : ℕ) :
    (r.setReporting s m).weights = r.weights := by
  cases s <;> rfl

theorem setReporting_delta (r : NodeRec) (s : Side) (m : ℕ) :
    (r.setReporting s m).delta = r.delta := by
  cases s <;> rfl

theorem setReference_reference_same (r : NodeRec) (s : Side) (m : ℕ) :
    (r.setReference s m).reference s = m := by
  cases s <;> rfl

/-- C4: `check_in(node, side)` on a node present in `neighbors[side]` ORs
the bit at the node's (first) index into the reporting bitmask; it returns
true iff the bitmask then equals `reference_value[side]`, resetting the
bitmask to zero exactly in that case and leaving the set bit in place
otherwise; neighbors, reference values, value, weights and delta are
untouched.  On a node not present, the `list.index` not-found fault is
raised (modelled by `none`) before any mutation. -/
theorem claim_C4_check_in (r : NodeRec) (node : ℕ) (side : Side) :
    (node ∉ r.neighbors side → checkIn r node side = none)
  ∧ (∀ i, (r.neighbors side).findIdx? (fun x => x = node) = some i →
      ∃ r2 flag, checkIn r node side = some (r2, flag)
        ∧ ((flag = true) ↔ r.reporting side ||| 2 ^ i = r.reference side)
        ∧ r2.reporting side = (if flag = true then 0 else r.reporting side ||| 2 ^ i)
        ∧ (flag = false → (r2.reporting side).testBit i = true)
        ∧ r2.neighbors side = r.neighbors side
        ∧ r2.reference side = r.reference side
        ∧ r2.value = r.value ∧ r2.weights = r.weights ∧ r2.delta = r.delta) := by
  constructor
  · intro h
    have hidx : (r.neighbors side).findIdx? (fun x => x = node) = none := by
      rw [List.findIdx?_eq_none_iff]
      intro x hx
      simp only [decide_eq_false_iff_not]
      intro hxe
      exact h (hxe ▸ hx)
    simp [checkIn, hidx]
  · intro i hi
    by_cases hm : r.reporting side ||| (1 <<< i) = r.reference side
    · refine ⟨r.setReporting side 0, true, ?_, ?_, ?_, ?_, ?_, ?_, ?_, ?_, ?_⟩
      · simp [checkIn, hi, hm]
      · simpa [Nat.one_shiftLeft] using hm
      · simp [setReporting_reporting_same]
      · simp
      · exact setReporting_neighbors r side side 0
      · exact setReporting_reference r side side 0
      · exact setReporting_value r side 0
      · exact setReporting_weights r side 0
      · exact setReporting_delta r side 0
    · refine ⟨r.setReporting side (r.reporting side ||| (1 <<< i)), false, ?_, ?_, ?_, ?_, ?_, ?_, ?_, ?_, ?_⟩
      · simp [checkIn, hi, hm]
      · simp only [Nat.one_shiftLeft] at hm
        simpa [Nat.one_shiftLeft] using hm
      · simp [setReporting_reporting_same, Nat.one_shiftLeft]
      · intro _
        rw [setReporting_reporting_same, Nat.one_shiftLeft]
        simp [Nat.testBit_lor, Nat.testBit_two_pow_self]
      · exact setReporting_neighbors r side side _
      · exact setReporting_reference r side side _
      · exact setReporting_value r side _
      · exact setReporting_weights r side _
      · exact setReporting_delta r side _

/-- C4 witness: concrete instantiations of both branches, with the node
absent (fault, no mutation) and present (bit set at its index). -/
theorem claim_C4_check_in_witness :
    checkIn { NodeRec.init with upstream := [7, 5] } 9 Side.UPSTREAM = none
  ∧ (∃ r2 flag,
      checkIn { NodeRec.init with upstream := [5], referenceUp := 1 } 5 Side.UPSTREAM
        = some (r2, flag) ∧ flag = true) := by
  constructor
  · exact (claim_C4_check_in { NodeRec.init with upstream := [7, 5] } 9 Side.UPSTREAM).1
      (by decide)
  · obtain ⟨r2, flag, h1, h2, _⟩ :=
      (claim_C4_check_in { NodeRec.init with upstream := [5], referenceUp := 1 } 5
        Side.UPSTREAM).2 0 (by decide)
    exact ⟨r2, flag, h1, h2.mpr (by decide)⟩

/-- C7: after every `reset_neighbors(nodes, side)` the reference value of
that side is `2 ^ |nodes| - 1`; and inside `check_in` the reporting bitmask
is cleared to zero exactly when the accumulated mask reaches the reference
value, which is also exactly when true is returned (so each all-reported
edge is consumed once: the next cycle starts from a zero bitmask). -/
theorem claim_C7_reference_invariant :
    (∀ (r : NodeRec) (nodes : List ℕ) (side : Side) (rand : ℕ → ℚ) (k : ℕ),
      ((resetNeighbors r nodes side rand k).1).reference side = 2 ^ nodes.length - 1)
  ∧ (∀ (r : NodeRec) (node : ℕ) (side : Side) (r2 : NodeRec) (flag : Bool),
      checkIn r node side = some (r2, flag) →
        (r2.reporting side = 0 ↔ flag = true)) := by
  constructor
  · intro r nodes side rand k
    unfold resetNeighbors
    exact setReference_reference_same _ side _
  · intro r node side r2 flag h
    unfold checkIn at h
    rcases hidx : (r.neighbors side).findIdx? (fun x => x = node) with _ | i
    · rw [hidx] at h
      exact absurd h (by simp)
    · rw [hidx] at h
      simp only at h
      by_cases hm : r.reporting side ||| (1 <<< i) = r.reference side
      · rw [if_pos hm] at h
        obtain ⟨hr2, hflag⟩ := Prod.mk.injEq .. ▸ Option.some.injEq .. ▸ h
        constructor
        · intro _
          exact hflag.symm
        · intro _
          rw [← hr2, setReporting_reporting_same]
      · rw [if_neg hm] at h
        obtain ⟨hr2, hflag⟩ := Prod.mk.injEq .. ▸ Option.some.injEq .. ▸ h
        constructor
        · intro h0
          exfalso
          rw [← hr2, setReporting_reporting_same] at h0
          have : (r.reporting side ||| (1 <<< i)).testBit i = true := by
            rw [Nat.one_shiftLeft]
            simp [Nat.testBit_lor, Nat.testBit_two_pow_self]
          rw [h0] at this
          simp [Nat.zero_testBit] at this
        · intro hf
          rw [← hflag] at hf
          exact absurd hf (by simp)

/-- C7 witness: a two-upstream-neighbor node gets reference value 3, and a
concrete check-in that completes the mask resets it to zero. -/
theorem claim_C7_reference_invariant_witness :
    ((resetNeighbors NodeRec.init [4, 6] Side.UPSTREAM (fun _ => 0) 0).1).reference
        Side.UPSTREAM = 2 ^ 2 - 1
  ∧ (({ NodeRec.init with upstream := [4], referenceUp := 1 } : NodeRec).setReporting
        Side.UPSTREAM 0).reporting Side.UPSTREAM = 0 := by
  constructor
  · exact claim_C7_reference_invariant.1 NodeRec.init [4, 6] Side.UPSTREAM (fun _ => 0) 0
  · have h := claim_C7_reference_invariant.2
      { NodeRec.init with upstream := [4], referenceUp := 1 } 4
      Side.UPSTREAM
      (({ NodeRec.init with upstream := [4], referenceUp := 1 } : NodeRec).setReporting
        Side.UPSTREAM 0) true (by decide)
    exact h.mpr rfl

theorem removeAux_spec {α : Type} [DecidableEq α] :
    ∀ (l : List (ℕ × α)) (v : α) (l2 : List (ℕ × α)) (rid : ℕ),
      removeAux l v = some (l2, rid) →
      ∃ pre suf, l = pre ++ (rid, v) :: suf ∧ (∀ q ∈ pre, q.2 ≠ v) ∧ l2 = pre ++ suf := by
  intro l
  induction l with
  | nil =>
    intro v l2 rid h
    exact Option.noConfusion h
  | cons p rest ih =>
    intro v l2 rid h
    by_cases hp : p.2 = v
    · rw [removeAux, if_pos hp] at h
      rw [Option.some.injEq, Prod.mk.injEq] at h
      refine ⟨[], rest, ?_, by simp, by simp [h.1]⟩
      have : p = (rid, v) := by
        rw [← h.2, ← hp]
      simp [this]
    · rw [removeAux, if_neg hp] at h
      cases hr : removeAux rest v with
      | none =>
        rw [hr] at h
        simp at h
      | some q =>
        rw [hr] at h
        simp only [Option.map_some', Option.some.injEq, Prod.mk.injEq] at h
        obtain ⟨pre, suf, e1, e2, e3⟩ := ih v q.1 q.2 (by rw [hr])
        refine ⟨p :: pre, suf, ?_, ?_, ?_⟩
        · simp [← h.2, e1]
        · intro x hx
          rcases List.mem_cons.mp hx with hx | hx
          · rw [hx]; exact hp
          · exact e2 x hx
        · rw [← h.1, e3]
          simp

theorem findAux_eq_none {α : Type} [DecidableEq α] :
    ∀ (l : List (ℕ × α)) (v : α), (∀ q ∈ l, q.2 ≠ v) → findAux l v = none := by
  intro l
  induction l with
  | nil => intro v _; rfl
  | cons p rest ih =>
    intro v h
    rw [findAux, if_neg (h p (List.mem_cons_self p rest))]
    exact ih v (fun q hq => h q (List.mem_cons_of_mem p hq))

/-- C10: a successful `remove(value)` unlinks exactly the first node holding
the value, leaving the rest of the chain (hence head, tail and all other
links) untouched in order; the cursor is re-parked at the new head exactly
when it sat on the removed node, and is untouched otherwise. -/
theorem claim_C10_remove_frame {α : Type} [DecidableEq α] (st : DLL α) (v : α)
    (st2 : DLL α) (y : α) (h : st.remove v = .ok (st2, y)) :
    ∃ pre suf rid, st.nodes = pre ++ (rid, v) :: suf
      ∧ (∀ q ∈ pre, q.2 ≠ v)
      ∧ st2.nodes = pre ++ suf
      ∧ y = v
      ∧ st2.curr = (if st.curr = some rid then headId (pre ++ suf) else st.curr) := by
  unfold DLL.remove at h
  cases hr : removeAux st.nodes v with
  | none =>
    rw [hr] at h
    exact absurd h (by simp)
  | some q =>
    rw [hr] at h
    rw [Except.ok.injEq, Prod.mk.injEq] at h
    obtain ⟨pre, suf, e1, e2, e3⟩ := removeAux_spec st.nodes v q.1 q.2 (by rw [hr])
    refine ⟨pre, suf, q.2, e1, e2, ?_, h.2.symm, ?_⟩
    · rw [← h.1, e3]
    · rw [← h.1]
      rw [e3]

/-- C10 witness: removing the cursor node re-parks the cursor at the new
head. -/
theorem claim_C10_remove_frame_witness :
    ∃ pre suf rid, ([(0, 5), (1, 6)] : List (ℕ × ℕ)) = pre ++ (rid, 6) :: suf
      ∧ (∀ q ∈ pre, q.2 ≠ 6)
      ∧ ([(0, 5)] : List (ℕ × ℕ)) = pre ++ suf
      ∧ (6 : ℕ) = 6
      ∧ (some 0 : Option ℕ)
          = (if (some 1 : Option ℕ) = some rid then headId (pre ++ suf) else some 1) :=
  claim_C10_remove_frame (⟨[(0, 5), (1, 6)], some 1⟩ : DLL ℕ) 6
    (⟨[(0, 5)], some 0⟩ : DLL ℕ) 6 (by rfl)

/-- C8 counterexample: on a list holding the value twice, `find` then
`remove` removes only the first occurrence, so the second `find` succeeds
instead of failing with the not-found fault; the claim is false as stated. -/
theorem claim_C8_counterexample :
    DLL.find (⟨[(0, 1), (1, 1)], none⟩ : DLL ℕ) 1 = .ok (⟨[(0, 1), (1, 1)], some 0⟩, 1)
  ∧ DLL.remove (⟨[(0, 1), (1, 1)], some 0⟩ : DLL ℕ) 1 = .ok (⟨[(1, 1)], some 1⟩, 1)
  ∧ DLL.find (⟨[(1, 1)], some 1⟩ : DLL ℕ) 1 = .ok (⟨[(1, 1)], some 1⟩, 1) :=
  ⟨rfl, rfl, rfl⟩

/-- C8 (amended): when the list holds at most one node with value v, a
successful `find(v)` followed by a successful `remove(v)` leaves no node
with value v, so a second `find(v)` fails with the not-found fault (the
spec's NotFoundError, raised as `IndexError` in the source). -/
theorem claim_C8_find_remove_find {α : Type} [DecidableEq α] (st : DLL α) (v : α)
    (hone : (st.nodes.filter (fun p => p.2 = v)).length ≤ 1)
    (st1 : DLL α) (x : α) (h1 : st.find v = .ok (st1, x))
    (st2 : DLL α) (y : α) (h2 : st1.remove v = .ok (st2, y)) :
    st2.find v = .error .indexError := by
  have hnodes1 : st1.nodes = st.nodes := by
    unfold DLL.find at h1
    cases hf : findAux st.nodes v with
    | none => rw [hf] at h1; exact absurd h1 (by simp)
    | some i =>
      rw [hf] at h1
      rw [Except.ok.injEq, Prod.mk.injEq] at h1
      rw [← h1.1]
  unfold DLL.remove at h2
  cases hr : removeAux st1.nodes v with
  | none => rw [hr] at h2; exact absurd h2 (by simp)
  | some q =>
    rw [hr] at h2
    rw [Except.ok.injEq, Prod.mk.injEq] at h2
    obtain ⟨pre, suf, e1, e2, e3⟩ := removeAux_spec st1.nodes v q.1 q.2 (by rw [hr])
    have hsuf : ∀ q ∈ suf, q.2 ≠ v := by
      rw [← hnodes1, e1] at hone
      rw [List.filter_append] at hone
      have hpre : pre.filter (fun p => decide (p.2 = v)) = [] := by
        rw [List.filter_eq_nil_iff]
        intro a ha
        simp only [decide_eq_true_eq]
        exact e2 a ha
      rw [hpre] at hone
      simp only [List.nil_append, List.filter_cons, decide_eq_true_eq, if_pos,
        List.length_cons] at hone
      intro a ha hav
      have hmem : a ∈ suf.filter (fun p => decide (p.2 = v)) :=
        List.mem_filter.mpr ⟨ha, by simp [hav]⟩
      have hlen : 1 ≤ (suf.filter (fun p => decide (p.2 = v))).length :=
        List.length_pos.mpr (fun hnil => by simp [hnil] at hmem)
      omega
    have hnone : findAux st2.nodes v = none := by
      have : st2.nodes = pre ++ suf := by rw [← h2.1, e3]
      rw [this]
      refine findAux_eq_none (pre ++ suf) v ?_
      intro a ha
      rcases List.mem_append.mp ha with ha | ha
      · exact e2 a ha
      · exact hsuf a ha
    unfold DLL.find
    rw [hnone]

/-- C8 witness: a singleton-occurrence instance of the amended claim. -/
theorem claim_C8_find_remove_find_witness :
    DLL.find (⟨[(1, 4)], some 1⟩ : DLL ℕ) 3 = .error .indexError :=
  claim_C8_find_remove_find (⟨[(0, 3), (1, 4)], none⟩ : DLL ℕ) 3 (by decide)
    (⟨[(0, 3), (1, 4)], some 0⟩ : DLL ℕ) 3 (by rfl)
    (⟨[(1, 4)], some 1⟩ : DLL ℕ) 3 (by rfl)

theorem wlookup_winsert_self (w : List (ℕ × ℚ)) (i : ℕ) (v : ℚ) :
    wlookup (winsert w i v) i = some v := by
  induction w with
  | nil => simp [winsert, wlookup]
  | cons p rest ih =>
    by_cases hp : p.1 = i
    · rw [winsert, if_pos hp, wlookup, if_pos rfl]
    · rw [winsert, if_neg hp, wlookup, if_neg hp]
      exact ih

theorem wlookup_winsert_other (w : List (ℕ × ℚ)) (i j : ℕ) (v : ℚ) (h : j ≠ i) :
    wlookup (winsert w i v) j = wlookup w j := by
  induction w with
  | nil =>
    simp only [winsert, wlookup]
    rw [if_neg (fun he => h he.symm)]
  | cons p rest ih =>
    by_cases hp : p.1 = i
    · rw [winsert, if_pos hp]
      rw [wlookup, if_neg (show ¬((i, v).1 = j) from fun he => h he.symm)]
      rw [wlookup, if_neg (show ¬(p.1 = j) from by rw [hp]; exact fun he => h he.symm)]
    · rw [winsert, if_neg hp]
      by_cases hj : p.1 = j
      · rw [wlookup, if_pos hj, wlookup, if_pos hj]
      · rw [wlookup, if_neg hj, wlookup, if_neg hj]
        exact ih

theorem wlookup_winsertSeq_not_mem (rand : ℕ → ℚ) :
    ∀ (nodes : List ℕ) (w : List (ℕ × ℚ)) (k : ℕ) (i : ℕ), i ∉ nodes →
      wlookup (winsertSeq w nodes rand k) i = wlookup w i := by
  intro nodes
  induction nodes with
  | nil => intro w k i _; rfl
  | cons n rest ih =>
    intro w k i hi
    rw [winsertSeq]
    rw [ih (winsert w n (rand k)) (k + 1) i (fun hm => hi (List.mem_cons_of_mem n hm))]
    exact wlookup_winsert_other w n i (rand k) (fun he => hi (he ▸ List.mem_cons_self n rest))

theorem wlookup_winsertSeq_get (rand : ℕ → ℚ) :
    ∀ (nodes : List ℕ) (w : List (ℕ × ℚ)) (k : ℕ), nodes.Nodup →
      ∀ (ia : ℕ) (hia : ia < nodes.length),
        wlookup (winsertSeq w nodes rand k) (nodes.get ⟨ia, hia⟩) = some (rand (k + ia)) := by
  intro nodes
  induction nodes with
  | nil =>
    intro w k _ ia hia
    exact absurd hia (by simp)
  | cons n rest ih =>
    intro w k hnd ia hia
    rw [winsertSeq]
    rcases List.nodup_cons.mp hnd with ⟨hn, hrest⟩
    cases ia with
    | zero =>
      have hg : (n :: rest).get ⟨0, hia⟩ = n := rfl
      rw [hg]
      rw [wlookup_winsertSeq_not_mem rand rest (winsert w n (rand k)) (k + 1) n hn]
      rw [wlookup_winsert_self, Nat.add_zero]
    | succ ia2 =>
      have hia2 : ia2 < rest.length := by
        simp only [List.length_cons] at hia
        omega
      have hg : (n :: rest).get ⟨ia2 + 1, hia⟩ = rest.get ⟨ia2, hia2⟩ := rfl
      rw [hg, ih (winsert w n (rand k)) (k + 1) hrest ia2 hia2]
      have harith : k + 1 + ia2 = k + (ia2 + 1) := by omega
      rw [harith]

theorem foldl_processNew_down (rand : ℕ → ℚ) :
    ∀ (nodes : List ℕ) (r : NodeRec) (k : ℕ),
      nodes.foldl (fun acc node => processNewNeighbor acc.1 node Side.DOWNSTREAM rand acc.2) (r, k)
        = (r, k) := by
  intro nodes
  induction nodes with
  | nil => intro r k; rfl
  | cons n rest ih => intro r k; exact ih r k

theorem resetNeighbors_down (r : NodeRec) (nodes : List ℕ) (rand : ℕ → ℚ) (k : ℕ) :
    resetNeighbors r nodes Side.DOWNSTREAM rand k
      = ({ r with downstream := nodes, referenceDown := 2 ^ nodes.length - 1 }, k) := by
  simp only [resetNeighbors]
  rw [foldl_processNew_down rand nodes]
  rfl

theorem foldl_processNew_up (rand : ℕ → ℚ) :
    ∀ (nodes : List ℕ) (r : NodeRec) (k : ℕ),
      nodes.foldl (fun acc node => processNewNeighbor acc.1 node Side.UPSTREAM rand acc.2) (r, k)
        = ({ r with weights := winsertSeq r.weights nodes rand k }, k + nodes.length) := by
  intro nodes
  induction nodes with
  | nil => intro r k; rfl
  | cons n rest ih =>
    intro r k
    rw [List.foldl_cons]
    rw [show processNewNeighbor (r, k).1 n Side.UPSTREAM rand (r, k).2
          = ({ r with weights := winsert r.weights n (rand k) }, k + 1) from rfl]
    rw [ih]
    have h2 : k + 1 + rest.length = k + (n :: rest).length := by
      simp only [List.length_cons]
      omega
    rw [h2]
    rfl

theorem resetNeighbors_up (r : NodeRec) (nodes : List ℕ) (rand : ℕ → ℚ) (k : ℕ) :
    resetNeighbors r nodes Side.UPSTREAM rand k
      = ({ r with upstream := nodes, referenceUp := 2 ^ nodes.length - 1, weights := winsertSeq r.weights nodes rand k }, k + nodes.length) := by
  simp only [resetNeighbors]
  rw [foldl_processNew_up rand nodes]
  rfl

theorem downFold_spec (rand : ℕ → ℚ) (B : List ℕ) :
    ∀ (A : List ℕ) (net : Net) (k : ℕ), A.Nodup →
      A.foldl (fun acc a => resetNetNeighbors acc.1 a B Side.DOWNSTREAM rand acc.2) (net, k)
        = (fun i => if i ∈ A then { net i with downstream := B, referenceDown := 2 ^ B.length - 1 } else net i, k) := by
  intro A
  induction A with
  | nil =>
    intro net k _
    refine Prod.ext ?_ rfl
    funext i
    simp
  | cons a rest ih =>
    intro net k hnd
    rcases List.nodup_cons.mp hnd with ⟨ha, hrest⟩
    rw [List.foldl_cons]
    rw [show resetNetNeighbors (net, k).1 a B Side.DOWNSTREAM rand (net, k).2
          = (setNode net a { net a with downstream := B, referenceDown := 2 ^ B.length - 1 }, k) from by
      show resetNetNeighbors net a B Side.DOWNSTREAM rand k = _
      unfold resetNetNeighbors
      rw [resetNeighbors_down]]
    rw [ih (setNode net a { net a with downstream := B, referenceDown := 2 ^ B.length - 1 }) k hrest]
    refine Prod.ext ?_ rfl
    funext i
    dsimp only
    by_cases hir : i ∈ rest
    · have hia : i ≠ a := fun he => ha (he ▸ hir)
      rw [if_pos hir, if_pos (List.mem_cons_of_mem a hir)]
      rw [setNode_other _ _ _ _ hia]
    · by_cases hiae : i = a
      · subst hiae
        rw [if_neg hir, if_pos (List.mem_cons_self i rest), setNode_same]
      · rw [if_neg hir, setNode_other _ _ _ _ hiae,
          if_neg (by simp [hiae, hir] : ¬i ∈ a :: rest)]

theorem upFold_snd (rand : ℕ → ℚ) (A : List ℕ) :
    ∀ (B : List ℕ) (net : Net) (k : ℕ),
      (B.foldl (fun acc b => resetNetNeighbors acc.1 b A Side.UPSTREAM rand acc.2) (net, k)).2
        = k + B.length * A.length := by
  intro B
  induction B with
  | nil => intro net k; simp
  | cons b rest ih =>
    intro net k
    rw [List.foldl_cons]
    rw [show resetNetNeighbors (net, k).1 b A Side.UPSTREAM rand (net, k).2
          = (setNode net b { net b with upstream := A, referenceUp := 2 ^ A.length - 1, weights := winsertSeq (net b).weights A rand k }, k + A.length) from by
      show resetNetNeighbors net b A Side.UPSTREAM rand k = _
      unfold resetNetNeighbors
      rw [resetNeighbors_up]]
    rw [ih]
    rw [List.length_cons, Nat.succ_mul]
    omega

theorem upFold_not_mem (rand : ℕ → ℚ) (A : List ℕ) :
    ∀ (B : List ℕ) (net : Net) (k : ℕ) (i : ℕ), i ∉ B →
      (B.foldl (fun acc b => resetNetNeighbors acc.1 b A Side.UPSTREAM rand acc.2) (net, k)).1 i
        = net i := by
  intro B
  induction B with
  | nil => intro net k i _; rfl
  | cons b rest ih =>
    intro net k i hi
    rw [List.foldl_cons]
    rw [show resetNetNeighbors (net, k).1 b A Side.UPSTREAM rand (net, k).2
          = (setNode net b { net b with upstream := A, referenceUp := 2 ^ A.length - 1, weights := winsertSeq (net b).weights A rand k }, k + A.length) from by
      show resetNetNeighbors net b A Side.UPSTREAM rand k = _
      unfold resetNetNeighbors
      rw [resetNeighbors_up]]
    rw [ih _ _ i (fun hm => hi (List.mem_cons_of_mem b hm))]
    exact setNode_other _ _ _ _ (fun he => hi (he ▸ List.mem_cons_self b rest))

theorem upFold_get (rand : ℕ → ℚ) (A : List ℕ) :
    ∀ (B : List ℕ) (net : Net) (k : ℕ), B.Nodup →
      ∀ (ib : ℕ) (hib : ib < B.length),
        (B.foldl (fun acc b => resetNetNeighbors acc.1 b A Side.UPSTREAM rand acc.2) (net, k)).1 (B.get ⟨ib, hib⟩)
          = { net (B.get ⟨ib, hib⟩) with upstream := A, referenceUp := 2 ^ A.length - 1, weights := winsertSeq ((net (B.get ⟨ib, hib⟩)).weights) A rand (k + ib * A.length) } := by
  intro B
  induction B with
  | nil =>
    intro net k _ ib hib
    exact absurd hib (by simp)
  | cons b rest ih =>
    intro net k hnd ib hib
    rcases List.nodup_cons.mp hnd with ⟨hb, hrest⟩
    rw [List.foldl_cons]
    rw [show resetNetNeighbors (net, k).1 b A Side.UPSTREAM rand (net, k).2
          = (setNode net b { net b with upstream := A, referenceUp := 2 ^ A.length - 1, weights := winsertSeq (net b).weights A rand k }, k + A.length) from by
      show resetNetNeighbors net b A Side.UPSTREAM rand k = _
      unfold resetNetNeighbors
      rw [resetNeighbors_up]]
    cases ib with
    | zero =>
      have hg : (b :: rest).get ⟨0, hib⟩ = b := rfl
      rw [hg]
      rw [upFold_not_mem rand A rest _ _ b hb]
      rw [setNode_same]
      rw [Nat.zero_mul, Nat.add_zero]
    | succ ib2 =>
      have hib2 : ib2 < rest.length := by
        simp only [List.length_cons] at hib
        omega
      have hg : (b :: rest).get ⟨ib2 + 1, hib⟩ = rest.get ⟨ib2, hib2⟩ := rfl
      rw [hg]
      rw [ih _ _ hrest ib2 hib2]
      have hne : rest.get ⟨ib2, hib2⟩ ≠ b :=
        fun he => hb (he ▸ rest.get_mem ib2 hib2)
      rw [setNode_other _ _ _ _ hne]
      have harith : k + A.length + ib2 * A.length = k + (ib2 + 1) * A.length := by
        rw [Nat.succ_mul]
        omega
      rw [harith]

theorem linkWithNext_spec (rand : ℕ → ℚ) (st : LL) (j : ℕ) (pa pb : ℕ × List ℕ)
    (hj : st.dll.currIdx = some j)
    (hpa : st.dll.nodes.get? j = some pa)
    (hpb : st.dll.nodes.get? (j + 1) = some pb)
    (hAnd : pa.2.Nodup) (hBnd : pb.2.Nodup)
    (hdisj : ∀ x ∈ pa.2, x ∉ pb.2) :
    (linkWithNext rand st).dll = st.dll
  ∧ (linkWithNext rand st).nctr = st.nctr
  ∧ (linkWithNext rand st).dctr = st.dctr
  ∧ (linkWithNext rand st).rctr = st.rctr + pb.2.length * pa.2.length
  ∧ (∀ i, i ∉ pa.2 → i ∉ pb.2 → (linkWithNext rand st).net i = st.net i)
  ∧ (∀ a ∈ pa.2, (linkWithNext rand st).net a
      = { st.net a with downstream := pb.2, referenceDown := 2 ^ pb.2.length - 1 })
  ∧ (∀ ib (hib : ib < pb.2.length), (linkWithNext rand st).net (pb.2.get ⟨ib, hib⟩)
      = { st.net (pb.2.get ⟨ib, hib⟩) with upstream := pa.2, referenceUp := 2 ^ pa.2.length - 1, weights := winsertSeq ((st.net (pb.2.get ⟨ib, hib⟩)).weights) pa.2 rand (st.rctr + ib * pa.2.length) }) := by
  have hcompute : linkWithNext rand st
      = { st with
          net := (pb.2.foldl (fun acc b => resetNetNeighbors acc.1 b pa.2 Side.UPSTREAM rand acc.2)
            ((fun i => if i ∈ pa.2 then { st.net i with downstream := pb.2, referenceDown := 2 ^ pb.2.length - 1 } else st.net i), st.rctr)).1
          rctr := (pb.2.foldl (fun acc b => resetNetNeighbors acc.1 b pa.2 Side.UPSTREAM rand acc.2)
            ((fun i => if i ∈ pa.2 then { st.net i with downstream := pb.2, referenceDown := 2 ^ pb.2.length - 1 } else st.net i), st.rctr)).2 } := by
    simp only [linkWithNext, hj, hpa, hpb]
    rw [downFold_spec rand pb.2 pa.2 st.net st.rctr hAnd]
  refine ⟨by rw [hcompute], by rw [hcompute], by rw [hcompute], ?_, ?_, ?_, ?_⟩
  · rw [hcompute]
    exact upFold_snd rand pa.2 pb.2 _ st.rctr
  · intro i hiA hiB
    rw [hcompute]
    dsimp only
    rw [upFold_not_mem rand pa.2 pb.2 _ st.rctr i hiB]
    rw [if_neg hiA]
  · intro a haA
    rw [hcompute]
    dsimp only
    rw [upFold_not_mem rand pa.2 pb.2 _ st.rctr a (hdisj a haA)]
    rw [if_pos haA]
  · intro ib hib
    rw [hcompute]
    dsimp only
    rw [upFold_get rand pa.2 pb.2 _ st.rctr hBnd ib hib]
    have hmem : pb.2.get ⟨ib, hib⟩ ∈ pb.2 := pb.2.get_mem ib hib
    have hnotA : pb.2.get ⟨ib, hib⟩ ∉ pa.2 := fun hA => hdisj _ hA hmem
    rw [if_neg hnotA]

/-- C3: constructing a topology with at least one input and one output node
yields exactly two layers, the input layer at the head and the output layer
at the tail; every input node lists the whole output layer DOWNSTREAM and
every output node lists the whole input layer UPSTREAM; every output node's
weight map assigns each input node a weight drawn from `random.random()`,
hence in [0,1); and a count below 1 on either side fails with the
ConstructionError (`ValueError` in the source), creating no layers. -/
theorem claim_C3_construction (inputs outputs : ℤ) (rand : ℕ → ℚ)
    (hrand : ∀ k, 0 ≤ rand k ∧ rand k < 1) :
    (inputs < 1 ∨ outputs < 1 → LL.init inputs outputs rand = .error .valueError)
  ∧ (1 ≤ inputs → 1 ≤ outputs → ∃ st, LL.init inputs outputs rand = .ok st
      ∧ st.dll.nodes.map (fun p => p.2)
          = [List.range inputs.toNat, List.range' inputs.toNat outputs.toNat]
      ∧ st.inputNodes = some (List.range inputs.toNat)
      ∧ st.outputNodes = some (List.range' inputs.toNat outputs.toNat)
      ∧ (∀ a ∈ List.range inputs.toNat,
          (st.net a).downstream = List.range' inputs.toNat outputs.toNat)
      ∧ (∀ b ∈ List.range' inputs.toNat outputs.toNat,
          (st.net b).upstream = List.range inputs.toNat)
      ∧ (∀ b ∈ List.range' inputs.toNat outputs.toNat, ∀ a ∈ List.range inputs.toNat,
          ∃ w, wlookup (st.net b).weights a = some w ∧ 0 ≤ w ∧ w < 1)) := by
  constructor
  · intro h
    unfold LL.init
    rw [if_pos h]
  · intro hin hout
    have hguard : ¬(inputs < 1 ∨ outputs < 1) := by
      rintro (h | h) <;> omega
    set n := inputs.toNat with hn
    set m := outputs.toNat with hm
    set stC : LL :=
      ⟨⟨[(0, List.range n), (1, List.range' n m)], some 0⟩, fun _ => NodeRec.init, 0, n + m, 2⟩
      with hstC
    have hstep : LL.init inputs outputs rand = .ok (linkWithNext rand stC) := by
      unfold LL.init
      rw [if_neg hguard]
      rfl
    have hAnd : (List.range n).Nodup := List.nodup_range n
    have hBnd : (List.range' n m).Nodup := List.nodup_range' n m 1 Nat.one_pos
    have hdisj : ∀ x ∈ ((0, List.range n) : ℕ × List ℕ).2,
        x ∉ ((1, List.range' n m) : ℕ × List ℕ).2 := by
      intro x hx hx2
      have h1 : x < n := List.mem_range.mp hx
      have h2 : n ≤ x := (List.mem_range'_1.mp hx2).1
      omega
    obtain ⟨hdll, _, _, hrc, _, hdown, hup⟩ :=
      linkWithNext_spec rand stC 0 (0, List.range n) (1, List.range' n m)
        rfl rfl rfl hAnd hBnd hdisj
    refine ⟨linkWithNext rand stC, hstep, ?_, ?_, ?_, ?_, ?_, ?_⟩
    · rw [hdll]
      rfl
    · unfold LL.inputNodes
      rw [hdll]
      rfl
    · unfold LL.outputNodes
      rw [hdll]
      rfl
    · intro a ha
      rw [hdown a ha]
    · intro b hb
      obtain ⟨⟨ib, hib⟩, hgb⟩ := List.mem_iff_get.mp hb
      rw [← hgb, hup ib hib]
    · intro b hb a ha
      obtain ⟨⟨ib, hib⟩, hgb⟩ := List.mem_iff_get.mp hb
      obtain ⟨⟨ia, hia⟩, hga⟩ := List.mem_iff_get.mp ha
      rw [← hgb, hup ib hib]
      show ∃ w, wlookup (winsertSeq (NodeRec.init.weights) (List.range n) rand (stC.rctr + ib * (List.range n).length)) a = some w ∧ 0 ≤ w ∧ w < 1
      rw [← hga]
      rw [wlookup_winsertSeq_get rand (List.range n) NodeRec.init.weights
        (stC.rctr + ib * (List.range n).length) hAnd ia hia]
      exact ⟨rand (stC.rctr + ib * (List.range n).length + ia),
        rfl, (hrand _).1, (hrand _).2⟩

/-- C3 witness: the one-input one-output instance succeeds and the
zero-input instance fails with the construction fault. -/
theorem claim_C3_construction_witness :
    LL.init 0 1 (fun _ => 1 / 2) = .error .valueError
  ∧ ∃ st, LL.init 1 1 (fun _ => 1 / 2) = .ok st := by
  have h0 := claim_C3_construction 0 1 (fun _ => 1 / 2) (fun k => by norm_num)
  have h1 := claim_C3_construction 1 1 (fun _ => 1 / 2) (fun k => by norm_num)
  refine ⟨h0.1 (Or.inl (by norm_num)), ?_⟩
  obtain ⟨st, hst, _⟩ := h1.2 (by norm_num) (by norm_num)
  exact ⟨st, hst⟩

theorem get?_append_cons {α : Type} :
    ∀ (l1 : List α) (x : α) (l2 : List α), (l1 ++ x :: l2).get? l1.length = some x := by
  intro l1
  induction l1 with
  | nil => intro x l2; rfl
  | cons a rest ih => intro x l2; exact ih x l2

theorem take_append_cons {α : Type} :
    ∀ (l1 : List α) (x : α) (l2 : List α), (l1 ++ x :: l2).take (l1.length + 1) = l1 ++ [x] := by
  intro l1
  induction l1 with
  | nil => intro x l2; rfl
  | cons a rest ih =>
    intro x l2
    rw [List.cons_append, List.length_cons]
    rw [show rest.length + 1 + 1 = (rest.length + 1) + 1 from rfl]
    rw [List.take_succ_cons, ih x l2, List.cons_append]

theorem drop_append_cons {α : Type} :
    ∀ (l1 : List α) (x : α) (l2 : List α), (l1 ++ x :: l2).drop (l1.length + 1) = l2 := by
  intro l1
  induction l1 with
  | nil => intro x l2; rfl
  | cons a rest ih =>
    intro x l2
    rw [List.cons_append, List.length_cons]
    rw [show rest.length + 1 + 1 = (rest.length + 1) + 1 from rfl]
    rw [List.drop_succ_cons, ih x l2]

theorem findIdx?_prefix_false {α : Type} (p : α → Bool) :
    ∀ (l1 : List α) (x : α) (l2 : List α), (∀ a ∈ l1, p a = false) → p x = true →
      (l1 ++ x :: l2).findIdx? p = some l1.length := by
  intro l1
  induction l1 with
  | nil =>
    intro x l2 _ hx
    simp [List.findIdx?_cons, hx]
  | cons a rest ih =>
    intro x l2 h1 hx
    rw [List.cons_append]
    have hpa := h1 a (List.mem_cons_self a rest)
    have hrest := ih x l2 (fun b hb => h1 b (List.mem_cons_of_mem a hb)) hx
    simp [List.findIdx?_cons, hpa, hrest, List.length_cons]

theorem nodup_middle {α : Type} (l1 : List α) (a : α) (l2 : List α)
    (h : (l1 ++ a :: l2).Nodup) : (∀ x ∈ l1, x ≠ a) ∧ a ∉ l2 := by
  rcases List.nodup_append.mp h with ⟨h1, h2, hd⟩
  constructor
  · intro x hx he
    exact hd hx (he ▸ List.mem_cons_self a l2)
  · exact (List.nodup_cons.mp h2).1

/-- C9: with the cursor not at the tail, `add_layer(0)` succeeds (only
negative sizes are rejected with ValueError): it inserts an empty hidden
layer right after the cursor layer, leaves the cursor where it was, and
afterwards every cursor-layer node has an empty DOWNSTREAM list with
reference value 0 and every node of the originally-following layer has an
empty UPSTREAM list with reference value 0; consequently `set_input` on a
cursor-layer node only sets that node's value and propagates nowhere. -/
theorem claim_C9_add_empty_layer (st : LL) (rand : ℕ → ℚ)
    (pre : List (ℕ × List ℕ)) (pa pb : ℕ × List ℕ) (post : List (ℕ × List ℕ))
    (hnodes : st.dll.nodes = pre ++ pa :: pb :: post)
    (hcurr : st.dll.curr = some pa.1)
    (hids : (st.dll.nodes.map (fun p => p.1)).Nodup)
    (hne : st.dll.curr ≠ tailId st.dll.nodes)
    (hfresh : ∀ p ∈ st.dll.nodes, p.1 ≠ st.dctr)
    (hAnd : pa.2.Nodup) (hBnd : pb.2.Nodup)
    (hdisjAB : ∀ x ∈ pa.2, x ∉ pb.2) :
    ∃ st2, LL.addLayer rand st 0 = .ok st2
      ∧ st2.dll.nodes = pre ++ pa :: (st.dctr, []) :: pb :: post
      ∧ st2.dll.curr = st.dll.curr
      ∧ (∀ a ∈ pa.2, (st2.net a).downstream = [] ∧ (st2.net a).referenceDown = 0)
      ∧ (∀ b ∈ pb.2, (st2.net b).upstream = [] ∧ (st2.net b).referenceUp = 0)
      ∧ (∀ a ∈ pa.2, ∀ (sigma : ℚ → ℚ) (fuel : ℕ) (v : ℚ),
          setInput sigma fuel st2.net a v
            = some (setNode st2.net a { st2.net a with value := v })) := by
  have hpre_ne : ∀ q ∈ pre, q.1 ≠ pa.1 := by
    have hmap := hnodes ▸ hids
    rw [List.map_append, List.map_cons] at hmap
    have hm := (nodup_middle _ _ _ hmap).1
    intro q hq
    exact hm q.1 (List.mem_map_of_mem _ hq)
  have hcurrIdx : st.dll.currIdx = some pre.length := by
    unfold DLL.currIdx
    rw [hcurr, hnodes]
    show (pre ++ pa :: pb :: post).findIdx? (fun p => p.1 = pa.1) = some pre.length
    exact findIdx?_prefix_false _ pre pa (pb :: post)
      (fun a ha => decide_eq_false (hpre_ne a ha)) (by simp)
  have hAAC : st.dll.addAfterCurrent st.dctr ([] : List ℕ)
      = .ok ⟨pre ++ pa :: (st.dctr, ([] : List ℕ)) :: pb :: post, st.dll.curr⟩ := by
    unfold DLL.addAfterCurrent
    rw [hcurrIdx]
    dsimp only
    rw [hnodes, take_append_cons, drop_append_cons]
    rw [show (pre ++ [pa]) ++ (st.dctr, ([] : List ℕ)) :: pb :: post
          = pre ++ pa :: (st.dctr, ([] : List ℕ)) :: pb :: post from by
      rw [List.append_assoc, List.singleton_append]]
  have hcurrIdxA : (⟨pre ++ pa :: (st.dctr, ([] : List ℕ)) :: pb :: post, st.dll.curr⟩
      : DLL (List ℕ)).currIdx = some pre.length := by
    unfold DLL.currIdx
    rw [hcurr]
    show (pre ++ pa :: (st.dctr, ([] : List ℕ)) :: pb :: post).findIdx?
        (fun p => p.1 = pa.1) = some pre.length
    exact findIdx?_prefix_false _ pre pa ((st.dctr, ([] : List ℕ)) :: pb :: post)
      (fun a ha => decide_eq_false (hpre_ne a ha)) (by simp)
  have hget_pa : (pre ++ pa :: (st.dctr, ([] : List ℕ)) :: pb :: post).get? pre.length
      = some pa := get?_append_cons pre pa _
  have hget_h : (pre ++ pa :: (st.dctr, ([] : List ℕ)) :: pb :: post).get? (pre.length + 1)
      = some (st.dctr, ([] : List ℕ)) := by
    have h := get?_append_cons (pre ++ [pa]) (st.dctr, ([] : List ℕ)) (pb :: post)
    rw [List.length_append, List.length_singleton] at h
    rw [show pre ++ pa :: (st.dctr, ([] : List ℕ)) :: pb :: post
          = (pre ++ [pa]) ++ (st.dctr, ([] : List ℕ)) :: pb :: post from by
      rw [List.append_assoc, List.singleton_append]]
    exact h
  have hget_pb : (pre ++ pa :: (st.dctr, ([] : List ℕ)) :: pb :: post).get? (pre.length + 2)
      = some pb := by
    have h := get?_append_cons (pre ++ [pa, (st.dctr, ([] : List ℕ))]) pb post
    rw [List.length_append] at h
    rw [show ([pa, (st.dctr, ([] : List ℕ))] : List (ℕ × List ℕ)).length = 2 from rfl] at h
    rw [show (pre ++ [pa, (st.dctr, ([] : List ℕ))]) ++ pb :: post
          = pre ++ pa :: (st.dctr, ([] : List ℕ)) :: pb :: post from by
      rw [List.append_assoc]
      rfl] at h
    exact h
  obtain ⟨hl1dll, hl1n, hl1d, hl1r, hl1other, hl1down, hl1up⟩ :=
    linkWithNext_spec rand
      { st with dll := ⟨pre ++ pa :: (st.dctr, ([] : List ℕ)) :: pb :: post, st.dll.curr⟩, nctr := st.nctr + (0 : ℤ).toNat, dctr := st.dctr + 1 }
      pre.length pa (st.dctr, ([] : List ℕ))
      hcurrIdxA hget_pa hget_h hAnd List.nodup_nil (fun x _ hx => by simp at hx)
  have hMF : (linkWithNext rand
        { st with dll := ⟨pre ++ pa :: (st.dctr, ([] : List ℕ)) :: pb :: post, st.dll.curr⟩, nctr := st.nctr + (0 : ℤ).toNat, dctr := st.dctr + 1 }).dll.moveForward
      = .ok ⟨pre ++ pa :: (st.dctr, ([] : List ℕ)) :: pb :: post, some st.dctr⟩ := by
    rw [hl1dll]
    unfold DLL.moveForward
    rw [hcurrIdxA]
    dsimp only
    rw [show (pre ++ pa :: (st.dctr, ([] : List ℕ)) :: pb :: post).drop (pre.length + 1)
          = (st.dctr, ([] : List ℕ)) :: pb :: post from drop_append_cons pre pa _]
    rfl
  have hcurrIdxC : (⟨pre ++ pa :: (st.dctr, ([] : List ℕ)) :: pb :: post, some st.dctr⟩
      : DLL (List ℕ)).currIdx = some (pre.length + 1) := by
    unfold DLL.currIdx
    show (pre ++ pa :: (st.dctr, ([] : List ℕ)) :: pb :: post).findIdx?
        (fun p => p.1 = st.dctr) = some (pre.length + 1)
    have h := findIdx?_prefix_false (fun p : ℕ × List ℕ => p.1 = st.dctr)
      (pre ++ [pa]) (st.dctr, ([] : List ℕ)) (pb :: post)
      (fun a ha => by
        rcases List.mem_append.mp ha with ha2 | ha2
        · exact decide_eq_false (hfresh a (hnodes ▸ List.mem_append_left _ ha2))
        · rw [List.mem_singleton.mp ha2]
          exact decide_eq_false (hfresh pa (hnodes ▸ List.mem_append_right _
            (List.mem_cons_self pa (pb :: post)))))
      (by simp)
    rw [List.length_append, List.length_singleton] at h
    rw [show pre ++ pa :: (st.dctr, ([] : List ℕ)) :: pb :: post
          = (pre ++ [pa]) ++ (st.dctr, ([] : List ℕ)) :: pb :: post from by
      rw [List.append_assoc, List.singleton_append]]
    exact h
  obtain ⟨hl2dll, hl2n, hl2d, hl2r, hl2other, hl2down, hl2up⟩ :=
    linkWithNext_spec rand
      { linkWithNext rand { st with dll := ⟨pre ++ pa :: (st.dctr, ([] : List ℕ)) :: pb :: post, st.dll.curr⟩, nctr := st.nctr + (0 : ℤ).toNat, dctr := st.dctr + 1 } with dll := ⟨pre ++ pa :: (st.dctr, ([] : List ℕ)) :: pb :: post, some st.dctr⟩ }
      (pre.length + 1) (st.dctr, ([] : List ℕ)) pb
      hcurrIdxC hget_h hget_pb List.nodup_nil hBnd (fun x hx => by simp at hx)
  have hMB : (linkWithNext rand
        { linkWithNext rand { st with dll := ⟨pre ++ pa :: (st.dctr, ([] : List ℕ)) :: pb :: post, st.dll.curr⟩, nctr := st.nctr + (0 : ℤ).toNat, dctr := st.dctr + 1 } with dll := ⟨pre ++ pa :: (st.dctr, ([] : List ℕ)) :: pb :: post, some st.dctr⟩ }).dll.moveBackward
      = .ok ⟨pre ++ pa :: (st.dctr, ([] : List ℕ)) :: pb :: post, some pa.1⟩ := by
    rw [hl2dll]
    unfold DLL.moveBackward
    rw [hcurrIdxC]
    rw [show some (pre.length + 1) = some (Nat.succ pre.length) from rfl]
    dsimp only
    rw [hget_pa]
  refine ⟨{ linkWithNext rand { linkWithNext rand { st with dll := ⟨pre ++ pa :: (st.dctr, ([] : List ℕ)) :: pb :: post, st.dll.curr⟩, nctr := st.nctr + (0 : ℤ).toNat, dctr := st.dctr + 1 } with dll := ⟨pre ++ pa :: (st.dctr, ([] : List ℕ)) :: pb :: post, some st.dctr⟩ } with dll := ⟨pre ++ pa :: (st.dctr, ([] : List ℕ)) :: pb :: post, some pa.1⟩ }, ?_, rfl, hcurr.symm, ?_, ?_, ?_⟩
  · unfold LL.addLayer
    rw [if_neg hne, if_neg (by norm_num : ¬(0 : ℤ) < 0)]
    dsimp only
    rw [show List.range' st.nctr (0 : ℤ).toNat = [] from rfl]
    rw [hAAC]
    dsimp only
    rw [hMF]
    dsimp only
    rw [hMB]
  · intro a ha
    dsimp only
    rw [hl2other a (by simp) (hdisjAB a ha), hl1down a ha]
    refine ⟨rfl, ?_⟩
    show 2 ^ ((st.dctr, ([] : List ℕ)).2).length - 1 = 0
    simp
  · intro b hb
    obtain ⟨⟨ib, hib⟩, hgb⟩ := List.mem_iff_get.mp hb
    have h2 := hl2up ib hib
    rw [hgb] at h2
    dsimp only
    rw [h2]
    refine ⟨rfl, ?_⟩
    show 2 ^ ((st.dctr, ([] : List ℕ)).2).length - 1 = 0
    simp
  · intro a ha sigma fuel v
    have hd : ((linkWithNext rand { linkWithNext rand { st with dll := ⟨pre ++ pa :: (st.dctr, ([] : List ℕ)) :: pb :: post, st.dll.curr⟩, nctr := st.nctr + (0 : ℤ).toNat, dctr := st.dctr + 1 } with dll := ⟨pre ++ pa :: (st.dctr, ([] : List ℕ)) :: pb :: post, some st.dctr⟩ }).net a).downstream = [] := by
      rw [hl2other a (by simp) (hdisjAB a ha), hl1down a ha]
    unfold setInput
    dsimp only
    rw [setNode_same]
    show List.foldlM _ _ _ = _
    rw [show ({ (linkWithNext rand { linkWithNext rand { st with dll := ⟨pre ++ pa :: (st.dctr, ([] : List ℕ)) :: pb :: post, st.dll.curr⟩, nctr := st.nctr + (0 : ℤ).toNat, dctr := st.dctr + 1 } with dll := ⟨pre ++ pa :: (st.dctr, ([] : List ℕ)) :: pb :: post, some st.dctr⟩ }).net a with value := v } : NodeRec).downstream = [] from hd]
    rfl

/-- C9 witness: the two-layer one-node-per-layer topology with fresh
identity 2 for the inserted empty layer. -/
theorem claim_C9_add_empty_layer_witness :
    ∃ st2, LL.addLayer (fun _ => 0) (⟨⟨[(0, [0]), (1, [1])], some 0⟩, fun _ => NodeRec.init, 0, 2, 2⟩ : LL) 0 = .ok st2
      ∧ st2.dll.nodes = [(0, ([0] : List ℕ)), (2, []), (1, [1])]
      ∧ st2.dll.curr = some 0
      ∧ (∀ a ∈ ([0] : List ℕ), (st2.net a).downstream = [] ∧ (st2.net a).referenceDown = 0)
      ∧ (∀ b ∈ ([1] : List ℕ), (st2.net b).upstream = [] ∧ (st2.net b).referenceUp = 0)
      ∧ (∀ a ∈ ([0] : List ℕ), ∀ (sigma : ℚ → ℚ) (fuel : ℕ) (v : ℚ),
          setInput sigma fuel st2.net a v
            = some (setNode st2.net a { st2.net a with value := v })) :=
  claim_C9_add_empty_layer (⟨⟨[(0, [0]), (1, [1])], some 0⟩, fun _ => NodeRec.init, 0, 2, 2⟩ : LL)
    (fun _ => 0) [] (0, [0]) (1, [1]) [] rfl rfl (by decide) (by decide) (by decide)
    (by decide) (by decide) (by decide)

/-- C6: from any topology state in which `add_layer(s)` succeeds (cursor
not at the tail, size nonnegative, fresh identities), running
`remove_layer()` immediately afterwards with the cursor at the same
position succeeds, restores the layer list and the prior adjacency between
the two flanking layers (each cursor-layer node again lists the following
layer DOWNSTREAM and vice versa, equal to their wiring before the pair of
calls), while the weights on the re-created edges are the pseudo-random
draws consumed during the relink, at stream positions at or beyond the
counter value before the pair of calls: fresh values, not the prior ones. -/
theorem claim_C6_add_remove_restores (st : LL) (rand : ℕ → ℚ) (s : ℤ) (hs : 0 ≤ s)
    (pre : List (ℕ × List ℕ)) (pa pb : ℕ × List ℕ) (post : List (ℕ × List ℕ))
    (hnodes : st.dll.nodes = pre ++ pa :: pb :: post)
    (hcurr : st.dll.curr = some pa.1)
    (hids : (st.dll.nodes.map (fun p => p.1)).Nodup)
    (hne : st.dll.curr ≠ tailId st.dll.nodes)
    (hfresh : ∀ p ∈ st.dll.nodes, p.1 ≠ st.dctr)
    (hAnd : pa.2.Nodup) (hBnd : pb.2.Nodup)
    (hdisjAB : ∀ x ∈ pa.2, x ∉ pb.2)
    (hfreshA : ∀ x ∈ pa.2, x < st.nctr) (hfreshB : ∀ x ∈ pb.2, x < st.nctr)
    (hprior_down : ∀ a ∈ pa.2, (st.net a).downstream = pb.2)
    (hprior_up : ∀ b ∈ pb.2, (st.net b).upstream = pa.2) :
    ∃ st2 st3, LL.addLayer rand st s = .ok st2
      ∧ LL.removeLayer rand st2 = .ok st3
      ∧ st3.dll.nodes = st.dll.nodes
      ∧ st3.dll.curr = st.dll.curr
      ∧ (∀ a ∈ pa.2, (st3.net a).downstream = pb.2
          ∧ (st3.net a).downstream = (st.net a).downstream
          ∧ (st3.net a).referenceDown = 2 ^ pb.2.length - 1)
      ∧ (∀ ib (hib : ib < pb.2.length),
          (st3.net (pb.2.get ⟨ib, hib⟩)).upstream = pa.2
          ∧ (st3.net (pb.2.get ⟨ib, hib⟩)).upstream = (st.net (pb.2.get ⟨ib, hib⟩)).upstream
          ∧ (st3.net (pb.2.get ⟨ib, hib⟩)).referenceUp = 2 ^ pa.2.length - 1
          ∧ ∀ ia (hia : ia < pa.2.length),
              wlookup (st3.net (pb.2.get ⟨ib, hib⟩)).weights (pa.2.get ⟨ia, hia⟩)
                = some (rand (st.rctr + s.toNat * pa.2.length + pb.2.length * s.toNat
                    + ib * pa.2.length + ia))) := by
  have hpre_ne : ∀ q ∈ pre, q.1 ≠ pa.1 := by
    have hmap := hnodes ▸ hids
    rw [List.map_append, List.map_cons] at hmap
    have hm := (nodup_middle _ _ _ hmap).1
    intro q hq
    exact hm q.1 (List.mem_map_of_mem _ hq)
  have hHnd : (List.range' st.nctr s.toNat).Nodup := List.nodup_range' st.nctr s.toNat 1 Nat.one_pos
  have hdisjAH : ∀ x ∈ pa.2, x ∉ List.range' st.nctr s.toNat := by
    intro x hx hx2
    have h1 := hfreshA x hx
    have h2 := (List.mem_range'_1.mp hx2).1
    omega
  have hdisjHB : ∀ x ∈ List.range' st.nctr s.toNat, x ∉ pb.2 := by
    intro x hx hx2
    have h1 := hfreshB x hx2
    have h2 := (List.mem_range'_1.mp hx).1
    omega
  have hcurrIdx : st.dll.currIdx = some pre.length := by
    unfold DLL.currIdx
    rw [hcurr, hnodes]
    show (pre ++ pa :: pb :: post).findIdx? (fun p => p.1 = pa.1) = some pre.length
    exact findIdx?_prefix_false _ pre pa (pb :: post)
      (fun a ha => decide_eq_false (hpre_ne a ha)) (by simp)
  have hAAC : st.dll.addAfterCurrent st.dctr (List.range' st.nctr s.toNat)
      = .ok ⟨pre ++ pa :: (st.dctr, List.range' st.nctr s.toNat) :: pb :: post, st.dll.curr⟩ := by
    unfold DLL.addAfterCurrent
    rw [hcurrIdx]
    dsimp only
    rw [hnodes, take_append_cons, drop_append_cons]
    rw [show (pre ++ [pa]) ++ (st.dctr, List.range' st.nctr s.toNat) :: pb :: post
          = pre ++ pa :: (st.dctr, List.range' st.nctr s.toNat) :: pb :: post from by
      rw [List.append_assoc, List.singleton_append]]
  have hcurrIdxA : (⟨pre ++ pa :: (st.dctr, List.range' st.nctr s.toNat) :: pb :: post, st.dll.curr⟩ : DLL (List ℕ)).currIdx = some pre.length := by
    unfold DLL.currIdx
    rw [hcurr]
    show (pre ++ pa :: (st.dctr, List.range' st.nctr s.toNat) :: pb :: post).findIdx? (fun p => p.1 = pa.1) = some pre.length
    exact findIdx?_prefix_false _ pre pa ((st.dctr, List.range' st.nctr s.toNat) :: pb :: post)
      (fun a ha => decide_eq_false (hpre_ne a ha)) (by simp)
  have hget_pa : (pre ++ pa :: (st.dctr, List.range' st.nctr s.toNat) :: pb :: post).get? pre.length = some pa := get?_append_cons pre pa _
  have hget_h : (pre ++ pa :: (st.dctr, List.range' st.nctr s.toNat) :: pb :: post).get? (pre.length + 1) = some (st.dctr, List.range' st.nctr s.toNat) := by
    have h := get?_append_cons (pre ++ [pa]) (st.dctr, List.range' st.nctr s.toNat) (pb :: post)
    rw [List.length_append, List.length_singleton] at h
    rw [show pre ++ pa :: (st.dctr, List.range' st.nctr s.toNat) :: pb :: post = (pre ++ [pa]) ++ (st.dctr, List.range' st.nctr s.toNat) :: pb :: post from by
      rw [List.append_assoc, List.singleton_append]]
    exact h
  have hget_pb : (pre ++ pa :: (st.dctr, List.range' st.nctr s.toNat) :: pb :: post).get? (pre.length + 2) = some pb := by
    have h := get?_append_cons (pre ++ [pa, (st.dctr, List.range' st.nctr s.toNat)]) pb post
    rw [List.length_append] at h
    rw [show ([pa, (st.dctr, List.range' st.nctr s.toNat)] : List (ℕ × List ℕ)).length = 2 from rfl] at h
    rw [show (pre ++ [pa, (st.dctr, List.range' st.nctr s.toNat)]) ++ pb :: post
          = pre ++ pa :: (st.dctr, List.range' st.nctr s.toNat) :: pb :: post from by
      rw [List.append_assoc]
      rfl] at h
    exact h
  obtain ⟨hl1dll, hl1n, hl1d, hl1r, hl1other, hl1down, hl1up⟩ :=
    linkWithNext_spec rand { st with dll := ⟨pre ++ pa :: (st.dctr, List.range' st.nctr s.toNat) :: pb :: post, st.dll.curr⟩, nctr := st.nctr + s.toNat, dctr := st.dctr + 1 }
      pre.length pa (st.dctr, List.range' st.nctr s.toNat)
      hcurrIdxA hget_pa hget_h hAnd hHnd hdisjAH
  have hMF : (linkWithNext rand { st with dll := ⟨pre ++ pa :: (st.dctr, List.range' st.nctr s.toNat) :: pb :: post, st.dll.curr⟩, nctr := st.nctr + s.toNat, dctr := st.dctr + 1 }).dll.moveForward
      = .ok ⟨pre ++ pa :: (st.dctr, List.range' st.nctr s.toNat) :: pb :: post, some st.dctr⟩ := by
    rw [hl1dll]
    unfold DLL.moveForward
    rw [hcurrIdxA]
    dsimp only
    rw [show (pre ++ pa :: (st.dctr, List.range' st.nctr s.toNat) :: pb :: post).drop (pre.length + 1)
          = (st.dctr, List.range' st.nctr s.toNat) :: pb :: post from drop_append_cons pre pa _]
    rfl
  have hcurrIdxC : (⟨pre ++ pa :: (st.dctr, List.range' st.nctr s.toNat) :: pb :: post, some st.dctr⟩ : DLL (List ℕ)).currIdx = some (pre.length + 1) := by
    unfold DLL.currIdx
    show (pre ++ pa :: (st.dctr, List.range' st.nctr s.toNat) :: pb :: post).findIdx? (fun p => p.1 = st.dctr) = some (pre.length + 1)
    have h := findIdx?_prefix_false (fun p : ℕ × List ℕ => p.1 = st.dctr)
      (pre ++ [pa]) (st.dctr, List.range' st.nctr s.toNat) (pb :: post)
      (fun a ha => by
        rcases List.mem_append.mp ha with ha2 | ha2
        · exact decide_eq_false (hfresh a (hnodes ▸ List.mem_append_left _ ha2))
        · rw [List.mem_singleton.mp ha2]
          exact decide_eq_false (hfresh pa (hnodes ▸ List.mem_append_right _
            (List.mem_cons_self pa (pb :: post)))))
      (by simp)
    rw [List.length_append, List.length_singleton] at h
    rw [show pre ++ pa :: (st.dctr, List.range' st.nctr s.toNat) :: pb :: post = (pre ++ [pa]) ++ (st.dctr, List.range' st.nctr s.toNat) :: pb :: post from by
      rw [List.append_assoc, List.singleton_append]]
    exact h
  obtain ⟨hl2dll, hl2n, hl2d, hl2r, hl2other, hl2down, hl2up⟩ :=
    linkWithNext_spec rand { linkWithNext rand { st with dll := ⟨pre ++ pa :: (st.dctr, List.range' st.nctr s.toNat) :: pb :: post, st.dll.curr⟩, nctr := st.nctr + s.toNat, dctr := st.dctr + 1 } with dll := ⟨pre ++ pa :: (st.dctr, List.range' st.nctr s.toNat) :: pb :: post, some st.dctr⟩ }
      (pre.length + 1) (st.dctr, List.range' st.nctr s.toNat) pb
      hcurrIdxC hget_h hget_pb hHnd hBnd hdisjHB
  have hMB : (linkWithNext rand { linkWithNext rand { st with dll := ⟨pre ++ pa :: (st.dctr, List.range' st.nctr s.toNat) :: pb :: post, st.dll.curr⟩, nctr := st.nctr + s.toNat, dctr := st.dctr + 1 } with dll := ⟨pre ++ pa :: (st.dctr, List.range' st.nctr s.toNat) :: pb :: post, some st.dctr⟩ }).dll.moveBackward
      = .ok ⟨pre ++ pa :: (st.dctr, List.range' st.nctr s.toNat) :: pb :: post, some pa.1⟩ := by
    rw [hl2dll]
    unfold DLL.moveBackward
    rw [hcurrIdxC]
    rw [show some (pre.length + 1) = some (Nat.succ pre.length) from rfl]
    dsimp only
    rw [hget_pa]
  have hstep : LL.addLayer rand st s = .ok { linkWithNext rand { linkWithNext rand { st with dll := ⟨pre ++ pa :: (st.dctr, List.range' st.nctr s.toNat) :: pb :: post, st.dll.curr⟩, nctr := st.nctr + s.toNat, dctr := st.dctr + 1 } with dll := ⟨pre ++ pa :: (st.dctr, List.range' st.nctr s.toNat) :: pb :: post, some st.dctr⟩ } with dll := ⟨pre ++ pa :: (st.dctr, List.range' st.nctr s.toNat) :: pb :: post, some pa.1⟩ } := by
    unfold LL.addLayer
    rw [if_neg hne, if_neg (by omega : ¬s < 0)]
    dsimp only
    rw [hAAC]
    dsimp only
    rw [hMF]
    dsimp only
    rw [hMB]
  have hcurrIdx2 : (⟨pre ++ pa :: (st.dctr, List.range' st.nctr s.toNat) :: pb :: post, some pa.1⟩ : DLL (List ℕ)).currIdx = some pre.length := by
    unfold DLL.currIdx
    show (pre ++ pa :: (st.dctr, List.range' st.nctr s.toNat) :: pb :: post).findIdx? (fun p => p.1 = pa.1) = some pre.length
    exact findIdx?_prefix_false _ pre pa ((st.dctr, List.range' st.nctr s.toNat) :: pb :: post)
      (fun a ha => decide_eq_false (hpre_ne a ha)) (by simp)
  have hdrop2 : (pre ++ pa :: (st.dctr, List.range' st.nctr s.toNat) :: pb :: post).drop (pre.length + 2) = pb :: post := by
    have h := drop_append_cons (pre ++ [pa]) (st.dctr, List.range' st.nctr s.toNat) (pb :: post)
    rw [List.length_append, List.length_singleton] at h
    rw [show pre ++ pa :: (st.dctr, List.range' st.nctr s.toNat) :: pb :: post = (pre ++ [pa]) ++ (st.dctr, List.range' st.nctr s.toNat) :: pb :: post from by
      rw [List.append_assoc, List.singleton_append]]
    exact h
  have hRAC : (⟨pre ++ pa :: (st.dctr, List.range' st.nctr s.toNat) :: pb :: post, some pa.1⟩ : DLL (List ℕ)).removeAfterCurrent
      = .ok (⟨pre ++ pa :: pb :: post, some pa.1⟩, List.range' st.nctr s.toNat) := by
    unfold DLL.removeAfterCurrent
    rw [hcurrIdx2]
    dsimp only
    rw [show (pre ++ pa :: (st.dctr, List.range' st.nctr s.toNat) :: pb :: post).drop (pre.length + 1)
          = (st.dctr, List.range' st.nctr s.toNat) :: pb :: post from drop_append_cons pre pa _]
    rw [List.head?_cons]
    dsimp only
    rw [take_append_cons, hdrop2]
    rw [show (pre ++ [pa]) ++ pb :: post = pre ++ pa :: pb :: post from by
      rw [List.append_assoc, List.singleton_append]]
  have hcurrIdx3 : (⟨pre ++ pa :: pb :: post, some pa.1⟩ : DLL (List ℕ)).currIdx = some pre.length := by
    unfold DLL.currIdx
    show (pre ++ pa :: pb :: post).findIdx? (fun p => p.1 = pa.1) = some pre.length
    exact findIdx?_prefix_false _ pre pa (pb :: post)
      (fun a ha => decide_eq_false (hpre_ne a ha)) (by simp)
  have hget3_pa : (pre ++ pa :: pb :: post).get? pre.length = some pa := get?_append_cons pre pa _
  have hget3_pb : (pre ++ pa :: pb :: post).get? (pre.length + 1) = some pb := by
    have h := get?_append_cons (pre ++ [pa]) pb post
    rw [List.length_append, List.length_singleton] at h
    rw [show pre ++ pa :: pb :: post = (pre ++ [pa]) ++ pb :: post from by
      rw [List.append_assoc, List.singleton_append]]
    exact h
  obtain ⟨hl3dll, hl3n, hl3d, hl3r, hl3other, hl3down, hl3up⟩ :=
    linkWithNext_spec rand { { linkWithNext rand { linkWithNext rand { st with dll := ⟨pre ++ pa :: (st.dctr, List.range' st.nctr s.toNat) :: pb :: post, st.dll.curr⟩, nctr := st.nctr + s.toNat, dctr := st.dctr + 1 } with dll := ⟨pre ++ pa :: (st.dctr, List.range' st.nctr s.toNat) :: pb :: post, some st.dctr⟩ } with dll := ⟨pre ++ pa :: (st.dctr, List.range' st.nctr s.toNat) :: pb :: post, some pa.1⟩ } with dll := ⟨pre ++ pa :: pb :: post, some pa.1⟩ }
      pre.length pa pb
      hcurrIdx3 hget3_pa hget3_pb hAnd hBnd hdisjAB
  have hlen2 : ¬(pre ++ pa :: (st.dctr, List.range' st.nctr s.toNat) :: pb :: post : List (ℕ × List ℕ)).length ≤ pre.length + 2 := by
    simp only [List.length_append, List.length_cons]
    omega
  have hremove : LL.removeLayer rand { linkWithNext rand { linkWithNext rand { st with dll := ⟨pre ++ pa :: (st.dctr, List.range' st.nctr s.toNat) :: pb :: post, st.dll.curr⟩, nctr := st.nctr + s.toNat, dctr := st.dctr + 1 } with dll := ⟨pre ++ pa :: (st.dctr, List.range' st.nctr s.toNat) :: pb :: post, some st.dctr⟩ } with dll := ⟨pre ++ pa :: (st.dctr, List.range' st.nctr s.toNat) :: pb :: post, some pa.1⟩ } = .ok (linkWithNext rand { { linkWithNext rand { linkWithNext rand { st with dll := ⟨pre ++ pa :: (st.dctr, List.range' st.nctr s.toNat) :: pb :: post, st.dll.curr⟩, nctr := st.nctr + s.toNat, dctr := st.dctr + 1 } with dll := ⟨pre ++ pa :: (st.dctr, List.range' st.nctr s.toNat) :: pb :: post, some st.dctr⟩ } with dll := ⟨pre ++ pa :: (st.dctr, List.range' st.nctr s.toNat) :: pb :: post, some pa.1⟩ } with dll := ⟨pre ++ pa :: pb :: post, some pa.1⟩ }) := by
    unfold LL.removeLayer
    dsimp only
    rw [hcurrIdx2]
    dsimp only
    rw [if_neg hlen2]
    rw [hRAC]
  have hrctr2 : ({ linkWithNext rand { linkWithNext rand { st with dll := ⟨pre ++ pa :: (st.dctr, List.range' st.nctr s.toNat) :: pb :: post, st.dll.curr⟩, nctr := st.nctr + s.toNat, dctr := st.dctr + 1 } with dll := ⟨pre ++ pa :: (st.dctr, List.range' st.nctr s.toNat) :: pb :: post, some st.dctr⟩ } with dll := ⟨pre ++ pa :: (st.dctr, List.range' st.nctr s.toNat) :: pb :: post, some pa.1⟩ }).rctr
      = st.rctr + s.toNat * pa.2.length + pb.2.length * s.toNat := by
    show (linkWithNext rand { linkWithNext rand { st with dll := ⟨pre ++ pa :: (st.dctr, List.range' st.nctr s.toNat) :: pb :: post, st.dll.curr⟩, nctr := st.nctr + s.toNat, dctr := st.dctr + 1 } with dll := ⟨pre ++ pa :: (st.dctr, List.range' st.nctr s.toNat) :: pb :: post, some st.dctr⟩ }).rctr = _
    rw [hl2r]
    show (linkWithNext rand { st with dll := ⟨pre ++ pa :: (st.dctr, List.range' st.nctr s.toNat) :: pb :: post, st.dll.curr⟩, nctr := st.nctr + s.toNat, dctr := st.dctr + 1 }).rctr + pb.2.length * (List.range' st.nctr s.toNat).length = _
    rw [hl1r]
    simp [List.length_range']
  refine ⟨{ linkWithNext rand { linkWithNext rand { st with dll := ⟨pre ++ pa :: (st.dctr, List.range' st.nctr s.toNat) :: pb :: post, st.dll.curr⟩, nctr := st.nctr + s.toNat, dctr := st.dctr + 1 } with dll := ⟨pre ++ pa :: (st.dctr, List.range' st.nctr s.toNat) :: pb :: post, some st.dctr⟩ } with dll := ⟨pre ++ pa :: (st.dctr, List.range' st.nctr s.toNat) :: pb :: post, some pa.1⟩ }, linkWithNext rand { { linkWithNext rand { linkWithNext rand { st with dll := ⟨pre ++ pa :: (st.dctr, List.range' st.nctr s.toNat) :: pb :: post, st.dll.curr⟩, nctr := st.nctr + s.toNat, dctr := st.dctr + 1 } with dll := ⟨pre ++ pa :: (st.dctr, List.range' st.nctr s.toNat) :: pb :: post, some st.dctr⟩ } with dll := ⟨pre ++ pa :: (st.dctr, List.range' st.nctr s.toNat) :: pb :: post, some pa.1⟩ } with dll := ⟨pre ++ pa :: pb :: post, some pa.1⟩ }, hstep, hremove, ?_, ?_, ?_, ?_⟩
  · rw [hl3dll, hnodes]
  · rw [hl3dll, hcurr]
  · intro a ha
    rw [hl3down a ha]
    exact ⟨rfl, by rw [hprior_down a ha], rfl⟩
  · intro ib hib
    have h2 := hl3up ib hib
    rw [h2]
    refine ⟨rfl, ?_, rfl, ?_⟩
    · rw [hprior_up (pb.2.get ⟨ib, hib⟩) (pb.2.get_mem ib hib)]
    · intro ia hia
      show wlookup (winsertSeq (({ { linkWithNext rand { linkWithNext rand { st with dll := ⟨pre ++ pa :: (st.dctr, List.range' st.nctr s.toNat) :: pb :: post, st.dll.curr⟩, nctr := st.nctr + s.toNat, dctr := st.dctr + 1 } with dll := ⟨pre ++ pa :: (st.dctr, List.range' st.nctr s.toNat) :: pb :: post, some st.dctr⟩ } with dll := ⟨pre ++ pa :: (st.dctr, List.range' st.nctr s.toNat) :: pb :: post, some pa.1⟩ } with dll := ⟨pre ++ pa :: pb :: post, some pa.1⟩ }).net (pb.2.get ⟨ib, hib⟩)).weights pa.2 rand
          (({ { linkWithNext rand { linkWithNext rand { st with dll := ⟨pre ++ pa :: (st.dctr, List.range' st.nctr s.toNat) :: pb :: post, st.dll.curr⟩, nctr := st.nctr + s.toNat, dctr := st.dctr + 1 } with dll := ⟨pre ++ pa :: (st.dctr, List.range' st.nctr s.toNat) :: pb :: post, some st.dctr⟩ } with dll := ⟨pre ++ pa :: (st.dctr, List.range' st.nctr s.toNat) :: pb :: post, some pa.1⟩ } with dll := ⟨pre ++ pa :: pb :: post, some pa.1⟩ }).rctr + ib * pa.2.length)) (pa.2.get ⟨ia, hia⟩) = _
      rw [wlookup_winsertSeq_get rand pa.2 _ _ hAnd ia hia]
      congr 2
      show ({ linkWithNext rand { linkWithNext rand { st with dll := ⟨pre ++ pa :: (st.dctr, List.range' st.nctr s.toNat) :: pb :: post, st.dll.curr⟩, nctr := st.nctr + s.toNat, dctr := st.dctr + 1 } with dll := ⟨pre ++ pa :: (st.dctr, List.range' st.nctr s.toNat) :: pb :: post, some st.dctr⟩ } with dll := ⟨pre ++ pa :: (st.dctr, List.range' st.nctr s.toNat) :: pb :: post, some pa.1⟩ }).rctr + ib * pa.2.length + ia = _
      rw [hrctr2]

/-- C6 witness: a one-input one-output wired topology, inserting and
removing a one-node hidden layer. -/
theorem claim_C6_add_remove_restores_witness :
    ∃ st2 st3,
      LL.addLayer (fun _ => (0 : ℚ)) (⟨⟨[(0, [0]), (1, [1])], some 0⟩, fun i => if i = 0 then { NodeRec.init with downstream := [1] } else { NodeRec.init with upstream := [0] }, 0, 2, 2⟩ : LL) 1 = .ok st2
      ∧ LL.removeLayer (fun _ => (0 : ℚ)) st2 = .ok st3
      ∧ st3.dll.nodes = (⟨⟨[(0, [0]), (1, [1])], some 0⟩, fun i => if i = 0 then { NodeRec.init with downstream := [1] } else { NodeRec.init with upstream := [0] }, 0, 2, 2⟩ : LL).dll.nodes
      ∧ st3.dll.curr = (⟨⟨[(0, [0]), (1, [1])], some 0⟩, fun i => if i = 0 then { NodeRec.init with downstream := [1] } else { NodeRec.init with upstream := [0] }, 0, 2, 2⟩ : LL).dll.curr
      ∧ (∀ a ∈ ((0, ([0] : List ℕ)) : ℕ × List ℕ).2, (st3.net a).downstream = ((1, ([1] : List ℕ)) : ℕ × List ℕ).2
          ∧ (st3.net a).downstream = ((⟨⟨[(0, [0]), (1, [1])], some 0⟩, fun i => if i = 0 then { NodeRec.init with downstream := [1] } else { NodeRec.init with upstream := [0] }, 0, 2, 2⟩ : LL).net a).downstream
          ∧ (st3.net a).referenceDown = 2 ^ ((1, ([1] : List ℕ)) : ℕ × List ℕ).2.length - 1)
      ∧ (∀ ib (hib : ib < ((1, ([1] : List ℕ)) : ℕ × List ℕ).2.length),
          (st3.net (((1, ([1] : List ℕ)) : ℕ × List ℕ).2.get ⟨ib, hib⟩)).upstream = ((0, ([0] : List ℕ)) : ℕ × List ℕ).2
          ∧ (st3.net (((1, ([1] : List ℕ)) : ℕ × List ℕ).2.get ⟨ib, hib⟩)).upstream
              = ((⟨⟨[(0, [0]), (1, [1])], some 0⟩, fun i => if i = 0 then { NodeRec.init with downstream := [1] } else { NodeRec.init with upstream := [0] }, 0, 2, 2⟩ : LL).net (((1, ([1] : List ℕ)) : ℕ × List ℕ).2.get ⟨ib, hib⟩)).upstream
          ∧ (st3.net (((1, ([1] : List ℕ)) : ℕ × List ℕ).2.get ⟨ib, hib⟩)).referenceUp
              = 2 ^ ((0, ([0] : List ℕ)) : ℕ × List ℕ).2.length - 1
          ∧ ∀ ia (hia : ia < ((0, ([0] : List ℕ)) : ℕ × List ℕ).2.length),
              wlookup (st3.net (((1, ([1] : List ℕ)) : ℕ × List ℕ).2.get ⟨ib, hib⟩)).weights
                  (((0, ([0] : List ℕ)) : ℕ × List ℕ).2.get ⟨ia, hia⟩)
                = some ((fun _ => (0 : ℚ)) ((⟨⟨[(0, [0]), (1, [1])], some 0⟩, fun i => if i = 0 then { NodeRec.init with downstream := [1] } else { NodeRec.init with upstream := [0] }, 0, 2, 2⟩ : LL).rctr
                    + (1 : ℤ).toNat * ((0, ([0] : List ℕ)) : ℕ × List ℕ).2.length
                    + ((1, ([1] : List ℕ)) : ℕ × List ℕ).2.length * (1 : ℤ).toNat
                    + ib * ((0, ([0] : List ℕ)) : ℕ × List ℕ).2.length + ia))) :=
  claim_C6_add_remove_restores (⟨⟨[(0, [0]), (1, [1])], some 0⟩, fun i => if i = 0 then { NodeRec.init with downstream := [1] } else { NodeRec.init with upstream := [0] }, 0, 2, 2⟩ : LL) (fun _ => (0 : ℚ)) 1 (by norm_num)
    [] (0, [0]) (1, [1]) [] rfl rfl (by decide) (by decide) (by decide) (by decide)
    (by decide) (by decide) (by decide) (by decide) (by decide) (by decide)


set_option maxRecDepth 100000 in
set_option maxHeartbeats 2000000 in
/-- Closed form of the single-edge run `runC1`: the source's
`_update_weights` binds a local `learning_rate = 0.05`, so the final weight
is the initial random weight plus `0.05 * delta * x` with
`delta = (t - y) * y * (1 - y)` and `y` the forward output. -/
theorem runC1_eq (sigma : ℚ → ℚ) (rand : ℕ → ℚ) (x t : ℚ) :
    runC1 sigma rand x t =
      some (rand 0 + 1 / 20 * ((t - sigma (rand 0 * x + 0)) * sigmoidDerivative (sigma (rand 0 * x + 0))) * x) := by
  with_unfolding_all rfl

/-- C1, counterexample: with the activation held at the constant 1/2, the
initial random weight 1/2, input x = 1, target t = 1 and the shared
learning rate set to 1 by the caller, the claimed update formula gives 5/8,
but the run produces 81/160: `_update_weights` uses its local literal 0.05
and ignores the settable class learning rate. -/
theorem claim_C1_counterexample :
    runC1 (fun _ => 1/2) (fun _ => 1/2) 1 1 ≠
      some (specC1Weight 1 (1/2) (1/2) 1 1) := by
  rw [runC1_eq]
  simp only [specC1Weight, sigmoidDerivative, Option.some.injEq]
  norm_num

/-- C1, amended: for the 1-input 1-output network with input x and target
t, the run changes the weight by exactly `lr * (t - y) * y * (1 - y) * x`
with `y = sigma(w * x)` and `lr` the fixed literal 0.05 — the default value
of the learning rate, not whatever the caller set it to. -/
theorem claim_C1_amended (sigma : ℚ → ℚ) (rand : ℕ → ℚ) (x t : ℚ) :
    runC1 sigma rand x t =
      some (specC1Weight learningRateDefault (rand 0) (sigma (rand 0 * x)) x t) := by
  rw [runC1_eq, add_zero]
  exact congrArg some (by unfold specC1Weight learningRateDefault sigmoidDerivative; ring)

/-!  C5: order-independence of the forward presentation. -/

@[simp] theorem withValue_value (r : NodeRec) (v : ℚ) : (r.withValue v).value = v := rfl

@[simp] theorem withValue_delta (r : NodeRec) (v : ℚ) : (r.withValue v).delta = r.delta := rfl

@[simp] theorem withValue_weights (r : NodeRec) (v : ℚ) : (r.withValue v).weights = r.weights := rfl

@[simp] theorem withValue_upstream (r : NodeRec) (v : ℚ) : (r.withValue v).upstream = r.upstream := rfl

@[simp] theorem withValue_downstream (r : NodeRec) (v : ℚ) : (r.withValue v).downstream = r.downstream := rfl

@[simp] theorem withValue_reportingUp (r : NodeRec) (v : ℚ) : (r.withValue v).reportingUp = r.reportingUp := rfl

@[simp] theorem withValue_reportingDown (r : NodeRec) (v : ℚ) : (r.withValue v).reportingDown = r.reportingDown := rfl

@[simp] theorem withValue_referenceUp (r : NodeRec) (v : ℚ) : (r.withValue v).referenceUp = r.referenceUp := rfl

@[simp] theorem withValue_referenceDown (r : NodeRec) (v : ℚ) : (r.withValue v).referenceDown = r.referenceDown := rfl

@[simp] theorem getWeight_withValue (r : NodeRec) (v : ℚ) (u : ℕ) : getWeight (r.withValue v) u = getWeight r u := rfl

@[simp] theorem withDelta_value (r : NodeRec) (d : ℚ) : (r.withDelta d).value = r.value := rfl

@[simp] theorem withDelta_delta (r : NodeRec) (d : ℚ) : (r.withDelta d).delta = d := rfl

@[simp] theorem withDelta_weights (r : NodeRec) (d : ℚ) : (r.withDelta d).weights = r.weights := rfl

@[simp] theorem withDelta_upstream (r : NodeRec) (d : ℚ) : (r.withDelta d).upstream = r.upstream := rfl

@[simp] theorem withDelta_downstream (r : NodeRec) (d : ℚ) : (r.withDelta d).downstream = r.downstream := rfl

@[simp] theorem withDelta_reportingUp (r : NodeRec) (d : ℚ) : (r.withDelta d).reportingUp = r.reportingUp := rfl

@[simp] theorem withDelta_reportingDown (r : NodeRec) (d : ℚ) : (r.withDelta d).reportingDown = r.reportingDown := rfl

@[simp] theorem withDelta_referenceUp (r : NodeRec) (d : ℚ) : (r.withDelta d).referenceUp = r.referenceUp := rfl

@[simp] theorem withDelta_referenceDown (r : NodeRec) (d : ℚ) : (r.withDelta d).referenceDown = r.referenceDown := rfl

@[simp] theorem getWeight_withDelta (r : NodeRec) (d : ℚ) (u : ℕ) : getWeight (r.withDelta d) u = getWeight r u := rfl

@[simp] theorem withWeights_value (r : NodeRec) (w : List (ℕ × ℚ)) : (r.withWeights w).value = r.value := rfl

@[simp] theorem withWeights_delta (r : NodeRec) (w : List (ℕ × ℚ)) : (r.withWeights w).delta = r.delta := rfl

@[simp] theorem withWeights_weights (r : NodeRec) (w : List (ℕ × ℚ)) : (r.withWeights w).weights = w := rfl

@[simp] theorem withWeights_upstream (r : NodeRec) (w : List (ℕ × ℚ)) : (r.withWeights w).upstream = r.upstream := rfl

@[simp] theorem withWeights_downstream (r : NodeRec) (w : List (ℕ × ℚ)) : (r.withWeights w).downstream = r.downstream := rfl

@[simp] theorem withWeights_reportingUp (r : NodeRec) (w : List (ℕ × ℚ)) : (r.withWeights w).reportingUp = r.reportingUp := rfl

@[simp] theorem withWeights_reportingDown (r : NodeRec) (w : List (ℕ × ℚ)) : (r.withWeights w).reportingDown = r.reportingDown := rfl

@[simp] theorem withWeights_referenceUp (r : NodeRec) (w : List (ℕ × ℚ)) : (r.withWeights w).referenceUp = r.referenceUp := rfl

@[simp] theorem withWeights_referenceDown (r : NodeRec) (w : List (ℕ × ℚ)) : (r.withWeights w).referenceDown = r.referenceDown := rfl

@[simp] theorem getWeight_withWeights (r : NodeRec) (w : List (ℕ × ℚ)) (u : ℕ) : getWeight (r.withWeights w) u = (wlookup w u).getD 0 := rfl

@[simp] theorem withReportingUp_value (r : NodeRec) (m : ℕ) : (r.withReportingUp m).value = r.value := rfl

@[simp] theorem withReportingUp_delta (r : NodeRec) (m : ℕ) : (r.withReportingUp m).delta = r.delta := rfl

@[simp] theorem withReportingUp_weights (r : NodeRec) (m : ℕ) : (r.withReportingUp m).weights = r.weights := rfl

@[simp] theorem withReportingUp_upstream (r : NodeRec) (m : ℕ) : (r.withReportingUp m).upstream = r.upstream := rfl

@[simp] theorem withReportingUp_downstream (r : NodeRec) (m : ℕ) : (r.withReportingUp m).downstream = r.downstream := rfl

@[simp] theorem withReportingUp_reportingUp (r : NodeRec) (m : ℕ) : (r.withReportingUp m).reportingUp = m := rfl

@[simp] theorem withReportingUp_reportingDown (r : NodeRec) (m : ℕ) : (r.withReportingUp m).reportingDown = r.reportingDown := rfl

@[simp] theorem withReportingUp_referenceUp (r : NodeRec) (m : ℕ) : (r.withReportingUp m).referenceUp = r.referenceUp := rfl

@[simp] theorem withReportingUp_referenceDown (r : NodeRec) (m : ℕ) : (r.withReportingUp m).referenceDown = r.referenceDown := rfl

@[simp] theorem getWeight_withReportingUp (r : NodeRec) (m : ℕ) (u : ℕ) : getWeight (r.withReportingUp m) u = getWeight r u := rfl

@[simp] theorem withReportingDown_value (r : NodeRec) (m : ℕ) : (r.withReportingDown m).value = r.value := rfl

@[simp] theorem withReportingDown_delta (r : NodeRec) (m : ℕ) : (r.withReportingDown m).delta = r.delta := rfl

@[simp] theorem withReportingDown_weights (r : NodeRec) (m : ℕ) : (r.withReportingDown m).weights = r.weights := rfl

@[simp] theorem withReportingDown_upstream (r : NodeRec) (m : ℕ) : (r.withReportingDown m).upstream = r.upstream := rfl

@[simp] theorem withReportingDown_downstream (r : NodeRec) (m : ℕ) : (r.withReportingDown m).downstream = r.downstream := rfl

@[simp] theorem withReportingDown_reportingUp (r : NodeRec) (m : ℕ) : (r.withReportingDown m).reportingUp = r.reportingUp := rfl

@[simp] theorem withReportingDown_reportingDown (r : NodeRec) (m : ℕ) : (r.withReportingDown m).reportingDown = m := rfl

@[simp] theorem withReportingDown_referenceUp (r : NodeRec) (m : ℕ) : (r.withReportingDown m).referenceUp = r.referenceUp := rfl

@[simp] theorem withReportingDown_referenceDown (r : NodeRec) (m : ℕ) : (r.withReportingDown m).referenceDown = r.referenceDown := rfl

@[simp] theorem getWeight_withReportingDown (r : NodeRec) (m : ℕ) (u : ℕ) : getWeight (r.withReportingDown m) u = getWeight r u := rfl

theorem setNode_setNode (net : Net) (i : ℕ) (r r' : NodeRec) :
    setNode (setNode net i r) i r' = setNode net i r' := by
  funext j
  by_cases h : j = i <;> simp [setNode, h]

theorem dataReadyUpstream_succ (sigma : ℚ → ℚ) (fuel : ℕ) :
    dataReadyUpstream sigma (fuel + 1) = dataReadyUpstreamF sigma (dataReadyUpstream sigma fuel) := rfl

theorem findIdx_insIdx (ins : List ℕ) (u : ℕ) (hu : u ∈ ins) :
    ins.findIdx? (fun x => x = u) = some (insIdx ins u) := by
  cases h : ins.findIdx? (fun x => x = u) with
  | none =>
    exfalso
    have := List.findIdx?_eq_none_iff.mp h u hu
    simp at this
  | some k => simp [insIdx, h]

theorem insIdx_lt (ins : List ℕ) (u : ℕ) (hu : u ∈ ins) : insIdx ins u < ins.length := by
  obtain ⟨hlt, -, -⟩ := List.findIdx?_eq_some_iff_getElem.mp (findIdx_insIdx ins u hu)
  exact hlt

theorem getElem_insIdx (ins : List ℕ) (u : ℕ) (hu : u ∈ ins) :
    ins.get ⟨insIdx ins u, insIdx_lt ins u hu⟩ = u := by
  obtain ⟨hlt, hp, -⟩ := List.findIdx?_eq_some_iff_getElem.mp (findIdx_insIdx ins u hu)
  simpa [List.get_eq_getElem] using hp

theorem insIdx_inj (ins : List ℕ) (hnd : ins.Nodup) (u v : ℕ) (hu : u ∈ ins) (hv : v ∈ ins)
    (h : insIdx ins u = insIdx ins v) : u = v := by
  have h1 := getElem_insIdx ins u hu
  have h2 := getElem_insIdx ins v hv
  rw [← h1, ← h2]
  simp only [h]

theorem insIdx_getElem (ins : List ℕ) (hnd : ins.Nodup) (b : ℕ) (hb : b < ins.length) :
    insIdx ins (ins.get ⟨b, hb⟩) = b := by
  have hmem : ins.get ⟨b, hb⟩ ∈ ins := List.get_mem ins b hb
  have h1 := getElem_insIdx ins _ hmem
  have h2 := (List.Nodup.get_inj_iff hnd).mp h1
  exact congrArg Fin.val h2

theorem testBit_two_pow_iff (k b : ℕ) : ((2 ^ k : ℕ).testBit b = true) ↔ k = b := by
  rcases eq_or_ne k b with h | h
  · subst h; simp [Nat.testBit_two_pow_self]
  · simp [Nat.testBit_two_pow_of_ne h, h]

theorem testBit_foldmask (ins P : List ℕ) (b : ℕ) :
    ∀ m : ℕ, ((P.foldl (fun m u => m ||| (1 <<< insIdx ins u)) m).testBit b = true ↔
      (m.testBit b = true ∨ ∃ u ∈ P, insIdx ins u = b)) := by
  induction P with
  | nil => intro m; simp
  | cons a P ih =>
    intro m
    rw [List.foldl_cons, ih]
    constructor
    · rintro (h | ⟨u, hu, he⟩)
      · rw [Nat.testBit_lor, Bool.or_eq_true, Nat.one_shiftLeft] at h
        rcases h with h | h
        · exact Or.inl h
        · exact Or.inr ⟨a, List.mem_cons_self a P, (testBit_two_pow_iff _ _).mp h⟩
      · exact Or.inr ⟨u, List.mem_cons_of_mem a hu, he⟩
    · rintro (h | ⟨u, hu, he⟩)
      · exact Or.inl (by rw [Nat.testBit_lor, Bool.or_eq_true]; exact Or.inl h)
      · rcases List.mem_cons.mp hu with rfl | hu2
        · exact Or.inl (by
            rw [Nat.testBit_lor, Bool.or_eq_true, Nat.one_shiftLeft]
            exact Or.inr ((testBit_two_pow_iff _ _).mpr he))
        · exact Or.inr ⟨u, hu2, he⟩

theorem testBit_maskOf (ins P : List ℕ) (b : ℕ) :
    ((maskOf ins P).testBit b = true) ↔ ∃ u ∈ P, insIdx ins u = b := by
  have h := testBit_foldmask ins P b 0
  simpa [maskOf] using h

theorem maskOf_eq_ref (ins P : List ℕ) (hnd : ins.Nodup)
    (hsub : ∀ u ∈ P, u ∈ ins) (hcov : ∀ u ∈ ins, u ∈ P) :
    maskOf ins P = 2 ^ ins.length - 1 := by
  apply Nat.eq_of_testBit_eq
  intro b
  rw [Nat.testBit_two_pow_sub_one]
  rcases lt_or_ge b ins.length with hb | hb
  · have hmem : ins.get ⟨b, hb⟩ ∈ ins := List.get_mem ins b hb
    have ht : (maskOf ins P).testBit b = true :=
      (testBit_maskOf _ _ _).mpr ⟨ins.get ⟨b, hb⟩, hcov _ hmem, insIdx_getElem ins hnd b hb⟩
    simp [ht, hb]
  · have ht : ¬((maskOf ins P).testBit b = true) := by
      intro h
      obtain ⟨u, hu, he⟩ := (testBit_maskOf _ _ _).mp h
      have := insIdx_lt ins u (hsub u hu)
      omega
    simp only [Bool.not_eq_true] at ht
    simp [ht]
    omega

theorem maskOf_ne_ref (ins P : List ℕ) (hnd : ins.Nodup) (hsub : ∀ u ∈ P, u ∈ ins)
    (i₀ : ℕ) (hi₀ : i₀ ∈ ins) (hni : i₀ ∉ P) :
    maskOf ins P ≠ 2 ^ ins.length - 1 := by
  intro h
  have hb : (maskOf ins P).testBit (insIdx ins i₀) = true := by
    rw [h, Nat.testBit_two_pow_sub_one]
    simpa using insIdx_lt ins i₀ hi₀
  obtain ⟨u, hu, he⟩ := (testBit_maskOf _ _ _).mp hb
  exact hni (insIdx_inj ins hnd u i₀ (hsub u hu) hi₀ he ▸ hu)

theorem maskOf_append_one (ins P : List ℕ) (i : ℕ) :
    maskOf ins (P ++ [i]) = maskOf ins P ||| (1 <<< insIdx ins i) := by
  simp [maskOf, List.foldl_append]

theorem checkIn_up_false (r : NodeRec) (ins : List ℕ) (i : ℕ) (hi : i ∈ ins)
    (hup : r.upstream = ins)
    (hne : r.reportingUp ||| (1 <<< insIdx ins i) ≠ r.referenceUp) :
    checkIn r i Side.UPSTREAM =
      some (r.withReportingUp (r.reportingUp ||| (1 <<< insIdx ins i)), false) := by
  unfold checkIn
  have h1 : r.neighbors Side.UPSTREAM = ins := hup
  rw [h1, findIdx_insIdx ins i hi]
  dsimp only
  simp only [NodeRec.reporting, NodeRec.reference, NodeRec.setReporting]
  rw [if_neg hne]
  rfl

theorem checkIn_up_true (r : NodeRec) (ins : List ℕ) (i : ℕ) (hi : i ∈ ins)
    (hup : r.upstream = ins)
    (heq : r.reportingUp ||| (1 <<< insIdx ins i) = r.referenceUp) :
    checkIn r i Side.UPSTREAM = some (r.withReportingUp 0, true) := by
  unfold checkIn
  have h1 : r.neighbors Side.UPSTREAM = ins := hup
  rw [h1, findIdx_insIdx ins i hi]
  dsimp only
  simp only [NodeRec.reporting, NodeRec.reference, NodeRec.setReporting]
  rw [if_pos heq]
  rfl

theorem foldlM_cons_some {α β : Type} (f : β → α → Option β) (H H' : β) (a : α) (l : List α)
    (h : f H a = some H') :
    (a :: l).foldlM f H = l.foldlM f H' := by
  rw [List.foldlM_cons, h]
  rfl

theorem dataReadyUpstream_one_false
    (sigma : ℚ → ℚ) (fuel : ℕ) (H : Net) (o i : ℕ) (ins : List ℕ)
    (hi : i ∈ ins) (hup : (H o).upstream = ins)
    (hne : (H o).reportingUp ||| (1 <<< insIdx ins i) ≠ (H o).referenceUp) :
    dataReadyUpstream sigma (fuel + 1) H o i
      = some (setNode H o ((H o).withReportingUp ((H o).reportingUp ||| (1 <<< insIdx ins i)))) := by
  rw [dataReadyUpstream_succ]
  unfold dataReadyUpstreamF
  rw [checkIn_up_false (H o) ins i hi hup hne]

theorem dataReadyUpstream_one_true
    (sigma : ℚ → ℚ) (fuel : ℕ) (H : Net) (o i : ℕ) (ins : List ℕ)
    (hi : i ∈ ins) (hup : (H o).upstream = ins)
    (heq : (H o).reportingUp ||| (1 <<< insIdx ins i) = (H o).referenceUp)
    (hdown : (H o).downstream = []) (ho : o ∉ ins) :
    dataReadyUpstream sigma (fuel + 1) H o i
      = some (setNode H o
          (((H o).withReportingUp 0).withValue
            (sigma ((ins.map (fun u => getWeight (H o) u * (H u).value)).sum)))) := by
  rw [dataReadyUpstream_succ]
  unfold dataReadyUpstreamF
  rw [checkIn_up_true (H o) ins i hi hup heq]
  dsimp only
  have hcv : calculateValue sigma (setNode H o ((H o).withReportingUp 0)) o
      = ((H o).withReportingUp 0).withValue
          (sigma ((ins.map (fun u => getWeight (H o) u * (H u).value)).sum)) := by
    unfold calculateValue
    rw [setNode_same]
    dsimp only
    rw [withReportingUp_upstream, hup]
    have hmap : List.map (fun u =>
          getWeight ((H o).withReportingUp 0) u *
            ((setNode H o ((H o).withReportingUp 0)) u).value) ins
        = List.map (fun u => getWeight (H o) u * (H u).value) ins := by
      apply List.map_congr_left
      intro u hu
      have hneo : u ≠ o := fun h => ho (h ▸ hu)
      rw [setNode_other _ _ _ _ hneo, getWeight_withReportingUp]
    rw [hmap]
    unfold NodeRec.withValue
    rw [withReportingUp_upstream, hup]
  rw [hcv, setNode_setNode, setNode_same]
  rw [show (((H o).withReportingUp 0).withValue
      (sigma ((ins.map (fun u => getWeight (H o) u * (H u).value)).sum))).downstream
      = (H o).downstream from rfl, hdown]
  rfl

theorem ffFoldOuts_false (sigma : ℚ → ℚ) (fuel : ℕ) (ins : List ℕ) (i : ℕ) (hi : i ∈ ins)
    (M R : ℕ) (hne : M ||| (1 <<< insIdx ins i) ≠ R) :
    ∀ (os : List ℕ), os.Nodup →
    ∀ H : Net, (∀ o ∈ os, (H o).upstream = ins ∧ (H o).reportingUp = M ∧ (H o).referenceUp = R) →
    os.foldlM (fun acc d => dataReadyUpstream sigma (fuel + 1) acc d i) H
      = some (fun j => if j ∈ os then (H j).withReportingUp (M ||| (1 <<< insIdx ins i)) else H j) := by
  intro os
  induction os with
  | nil =>
    intro _ H _
    simp only [List.foldlM_nil]
    exact congrArg some (funext fun j => by simp)
  | cons o os ih =>
    intro hnd H hH
    obtain ⟨hup, hrep, href⟩ := hH o (List.mem_cons_self o os)
    have hstep := dataReadyUpstream_one_false sigma fuel H o i ins hi hup
      (by rw [hrep, href]; exact hne)
    rw [hrep] at hstep
    rw [foldlM_cons_some _ _ _ _ _ hstep]
    have hnos : o ∉ os := (List.nodup_cons.mp hnd).1
    rw [ih (List.nodup_cons.mp hnd).2 _ (fun o' ho' => by
      have hne2 : o' ≠ o := fun h => hnos (h ▸ ho')
      rw [setNode_other _ _ _ _ hne2]
      exact hH o' (List.mem_cons_of_mem o ho'))]
    refine congrArg some (funext fun j => ?_)
    by_cases hj : j = o
    · subst hj
      rw [if_neg hnos, setNode_same, if_pos (List.mem_cons_self j os)]
    · by_cases hjos : j ∈ os
      · rw [if_pos hjos, if_pos (List.mem_cons_of_mem o hjos), setNode_other _ _ _ _ hj]
      · rw [if_neg hjos, if_neg (by simp [hj, hjos]), setNode_other _ _ _ _ hj]

theorem ffFoldOuts_true (sigma : ℚ → ℚ) (fuel : ℕ) (ins : List ℕ) (i : ℕ) (hi : i ∈ ins)
    (xs : ℕ → ℚ) :
    ∀ (os : List ℕ), os.Nodup → (∀ o ∈ os, o ∉ ins) →
    ∀ H : Net,
      (∀ o ∈ os, (H o).upstream = ins ∧ (H o).downstream = [] ∧
        (H o).reportingUp ||| (1 <<< insIdx ins i) = (H o).referenceUp) →
      (∀ u ∈ ins, (H u).value = xs u) →
      os.foldlM (fun acc d => dataReadyUpstream sigma (fuel + 1) acc d i) H
        = some (fun j => if j ∈ os then
            ((H j).withReportingUp 0).withValue
              (sigma ((ins.map (fun u => getWeight (H j) u * xs u)).sum))
            else H j) := by
  intro os
  induction os with
  | nil =>
    intro _ _ H _ _
    simp only [List.foldlM_nil]
    exact congrArg some (funext fun j => by simp)
  | cons o os ih =>
    intro hnd hdisj H hH hval
    obtain ⟨hup, hdown, hmask⟩ := hH o (List.mem_cons_self o os)
    have ho : o ∉ ins := hdisj o (List.mem_cons_self o os)
    have hstep := dataReadyUpstream_one_true sigma fuel H o i ins hi hup hmask hdown ho
    have hmap2 : ins.map (fun u => getWeight (H o) u * (H u).value)
        = ins.map (fun u => getWeight (H o) u * xs u) := by
      apply List.map_congr_left
      intro u hu
      rw [hval u hu]
    rw [hmap2] at hstep
    rw [foldlM_cons_some _ _ _ _ _ hstep]
    have hnos : o ∉ os := (List.nodup_cons.mp hnd).1
    rw [ih (List.nodup_cons.mp hnd).2 (fun o' ho' => hdisj o' (List.mem_cons_of_mem o ho')) _
      (fun o' ho' => by
        have hne2 : o' ≠ o := fun h => hnos (h ▸ ho')
        rw [setNode_other _ _ _ _ hne2]
        exact hH o' (List.mem_cons_of_mem o ho'))
      (fun u hu => by
        have hne2 : u ≠ o := fun h => ho (h ▸ hu)
        rw [setNode_other _ _ _ _ hne2]
        exact hval u hu)]
    refine congrArg some (funext fun j => ?_)
    by_cases hj : j = o
    · subst hj
      rw [if_neg hnos, setNode_same, if_pos (List.mem_cons_self j os)]
    · by_cases hjos : j ∈ os
      · rw [if_pos hjos, if_pos (List.mem_cons_of_mem o hjos), setNode_other _ _ _ _ hj]
      · rw [if_neg hjos, if_neg (by simp [hj, hjos]), setNode_other _ _ _ _ hj]

theorem ffMidNet_i (net : Net) (ins outs : List ℕ) (xs : ℕ → ℚ) (P : List ℕ) (j : ℕ)
    (hjP : j ∉ P) (hjo : j ∉ outs) :
    ffMidNet net ins outs xs P j = net j := by
  unfold ffMidNet
  rw [if_neg hjP, if_neg hjo]

theorem ffMidNet_o (net : Net) (ins outs : List ℕ) (xs : ℕ → ℚ) (P : List ℕ) (j : ℕ)
    (hjP : j ∉ P) (hjo : j ∈ outs) :
    ffMidNet net ins outs xs P j = (net j).withReportingUp (maskOf ins P) := by
  unfold ffMidNet
  rw [if_neg hjP, if_pos hjo]

theorem ffMidNet_p (net : Net) (ins outs : List ℕ) (xs : ℕ → ℚ) (P : List ℕ) (j : ℕ)
    (hjP : j ∈ P) :
    ffMidNet net ins outs xs P j = (net j).withValue (xs j) := by
  unfold ffMidNet
  rw [if_pos hjP]

theorem setInput_unfold (sigma : ℚ → ℚ) (fuel : ℕ) (net : Net) (i : ℕ) (v : ℚ) :
    setInput sigma fuel net i v
      = ((setNode net i ((net i).withValue v)) i).downstream.foldlM
          (fun acc d => dataReadyUpstream sigma fuel acc d i)
          (setNode net i ((net i).withValue v)) := rfl

/-!  C2: the exactly-once weight-update contract of the backward presentation. -/

theorem dataReadyDownstream_succ (sigma : ℚ → ℚ) (fuel : ℕ) :
    dataReadyDownstream sigma (fuel + 1)
      = dataReadyDownstreamF sigma (dataReadyDownstream sigma fuel) := rfl

theorem checkIn_down_false (r : NodeRec) (outs : List ℕ) (o : ℕ) (ho : o ∈ outs)
    (hdown : r.downstream = outs)
    (hne : r.reportingDown ||| (1 <<< insIdx outs o) ≠ r.referenceDown) :
    checkIn r o Side.DOWNSTREAM =
      some (r.withReportingDown (r.reportingDown ||| (1 <<< insIdx outs o)), false) := by
  unfold checkIn
  have h1 : r.neighbors Side.DOWNSTREAM = outs := hdown
  rw [h1, findIdx_insIdx outs o ho]
  dsimp only
  simp only [NodeRec.reporting, NodeRec.reference, NodeRec.setReporting]
  rw [if_neg hne]
  rfl

theorem checkIn_down_true (r : NodeRec) (outs : List ℕ) (o : ℕ) (ho : o ∈ outs)
    (hdown : r.downstream = outs)
    (heq : r.reportingDown ||| (1 <<< insIdx outs o) = r.referenceDown) :
    checkIn r o Side.DOWNSTREAM = some (r.withReportingDown 0, true) := by
  unfold checkIn
  have h1 : r.neighbors Side.DOWNSTREAM = outs := hdown
  rw [h1, findIdx_insIdx outs o ho]
  dsimp only
  simp only [NodeRec.reporting, NodeRec.reference, NodeRec.setReporting]
  rw [if_pos heq]
  rfl

theorem getWeight_eq (r : NodeRec) (u : ℕ) :
    getWeight r u = (wlookup r.weights u).getD 0 := rfl

theorem wlookup_foldWinsert_not_mem (add : ℕ → ℚ) :
    ∀ (S : List ℕ) (w : List (ℕ × ℚ)) (i : ℕ), i ∉ S →
    wlookup (S.foldl (fun w k => winsert w k ((wlookup w k).getD 0 + add k)) w) i
      = wlookup w i := by
  intro S
  induction S with
  | nil => intro w i _; rw [List.foldl_nil]
  | cons a S ih =>
    intro w i hi
    have hia : i ≠ a := fun h => hi (h ▸ List.mem_cons_self a S)
    rw [List.foldl_cons, ih _ i (fun h => hi (List.mem_cons_of_mem a h)),
      wlookup_winsert_other _ _ _ _ hia]

theorem wlookup_foldWinsert_mem (add : ℕ → ℚ) :
    ∀ (S : List ℕ), S.Nodup → ∀ (w : List (ℕ × ℚ)) (i : ℕ), i ∈ S →
    wlookup (S.foldl (fun w k => winsert w k ((wlookup w k).getD 0 + add k)) w) i
      = some ((wlookup w i).getD 0 + add i) := by
  intro S
  induction S with
  | nil => intro _ w i hi; exact absurd hi (List.not_mem_nil i)
  | cons a S ih =>
    intro hnd w i hi
    rw [List.foldl_cons]
    by_cases hia : i = a
    · subst hia
      rw [wlookup_foldWinsert_not_mem add S _ i (List.nodup_cons.mp hnd).1,
        wlookup_winsert_self]
    · have hiS : i ∈ S := by
        rcases List.mem_cons.mp hi with h | h
        · exact absurd h hia
        · exact h
      rw [ih (List.nodup_cons.mp hnd).2 _ i hiS, wlookup_winsert_other _ _ _ _ hia]

theorem sum_map_one_of_nodup (i : ℕ) (f : ℕ → ℕ)
    (hf : f i = 1) (hf0 : ∀ j, j ≠ i → f j = 0) :
    ∀ (S : List ℕ), S.Nodup → i ∈ S → (S.map f).sum = 1 := by
  intro S
  induction S with
  | nil => intro _ hi; exact absurd hi (List.not_mem_nil i)
  | cons a S ih =>
    intro hnd hi
    rw [List.map_cons, List.sum_cons]
    by_cases hia : i = a
    · subst hia
      have hz : (S.map f).sum = 0 := by
        apply List.sum_eq_zero
        intro x hx
        obtain ⟨j, hj, rfl⟩ := List.mem_map.mp hx
        exact hf0 j (fun h => (List.nodup_cons.mp hnd).1 (h ▸ hj))
      rw [hf, hz]
    · have hiS : i ∈ S := by
        rcases List.mem_cons.mp hi with h | h
        · exact absurd h hia
        · exact h
      rw [hf0 a (fun h => hia h.symm), ih (List.nodup_cons.mp hnd).2 hiS]
theorem cascadeNet_nil (sigma : ℚ → ℚ) (net : Net) (P : List ℕ) :
    cascadeNet sigma net P [] = net := rfl

theorem cascadeNet_cons (sigma : ℚ → ℚ) (net : Net) (P A : List ℕ) (rest : List (List ℕ)) :
    cascadeNet sigma net P (A :: rest)
      = cascadeNet sigma (finalizeVals sigma net P A) A rest := rfl

theorem finalizeVals_mem (sigma : ℚ → ℚ) (net : Net) (P A : List ℕ) (j : ℕ) (hj : j ∈ A) :
    finalizeVals sigma net P A j
      = ((net j).withReportingUp 0).withValue
          (sigma ((P.map (fun u => getWeight (net j) u * (net u).value)).sum)) := by
  unfold finalizeVals
  rw [if_pos hj]

theorem finalizeVals_not_mem (sigma : ℚ → ℚ) (net : Net) (P A : List ℕ) (j : ℕ) (hj : j ∉ A) :
    finalizeVals sigma net P A j = net j := by
  unfold finalizeVals
  rw [if_neg hj]

theorem chainShape_mono :
    ∀ (chain : List (List ℕ)) (P : List ℕ) (net1 net2 : Net),
    (∀ x ∈ chain.flatten, (net2 x).upstream = (net1 x).upstream ∧
      (net2 x).referenceUp = (net1 x).referenceUp ∧
      (net2 x).downstream = (net1 x).downstream) →
    chainShape net1 P chain → chainShape net2 P chain := by
  intro chain
  induction chain with
  | nil => intro P net1 net2 _ _; trivial
  | cons A rest ih =>
    intro P net1 net2 hf h
    obtain ⟨hne, hnd, hfields, htail⟩ := h
    refine ⟨hne, hnd, ?_, ?_⟩
    · intro a ha
      have hx := hf a (by simp [ha])
      obtain ⟨h1, h2, h3⟩ := hfields a ha
      exact ⟨hx.1.trans h1, hx.2.1.trans h2, hx.2.2.trans h3⟩
    · exact ih A net1 net2
        (fun x hx => hf x (by rw [List.flatten_cons]; exact List.mem_append_right A hx)) htail

theorem cascadeNet_congr (sigma : ℚ → ℚ) :
    ∀ (chain : List (List ℕ)) (net1 net2 : Net) (P : List ℕ),
    (∀ u ∈ P, (net1 u).value = (net2 u).value) →
    (∀ j, j ∉ chain.flatten → net1 j = net2 j) →
    (∀ j ∈ chain.flatten,
      ((net1 j).withReportingUp 0).withValue 0 = ((net2 j).withReportingUp 0).withValue 0) →
    cascadeNet sigma net1 P chain = cascadeNet sigma net2 P chain := by
  intro chain
  induction chain with
  | nil =>
    intro net1 net2 P _ hoff _
    funext j
    exact hoff j (by simp)
  | cons A rest ih =>
    intro net1 net2 P hv hoff hon
    rw [cascadeNet_cons, cascadeNet_cons]
    have hW : ∀ j ∈ A, (net1 j).weights = (net2 j).weights := by
      intro j hj
      have h := hon j (by simp [hj])
      have h2 := congrArg NodeRec.weights h
      simpa using h2
    have hform : ∀ j ∈ A,
        sigma ((P.map (fun u => getWeight (net1 j) u * (net1 u).value)).sum)
          = sigma ((P.map (fun u => getWeight (net2 j) u * (net2 u).value)).sum) := by
      intro j hj
      have hm : P.map (fun u => getWeight (net1 j) u * (net1 u).value)
          = P.map (fun u => getWeight (net2 j) u * (net2 u).value) := by
        apply List.map_congr_left
        intro u hu
        rw [getWeight_eq, getWeight_eq, hW j hj, hv u hu]
      rw [hm]
    have hAeq : ∀ j ∈ A, finalizeVals sigma net1 P A j = finalizeVals sigma net2 P A j := by
      intro j hj
      rw [finalizeVals_mem _ _ _ _ _ hj, finalizeVals_mem _ _ _ _ _ hj, hform j hj]
      have h := hon j (by simp [hj])
      calc ((net1 j).withReportingUp 0).withValue
              (sigma ((P.map (fun u => getWeight (net2 j) u * (net2 u).value)).sum))
          = (((net1 j).withReportingUp 0).withValue 0).withValue
              (sigma ((P.map (fun u => getWeight (net2 j) u * (net2 u).value)).sum)) := rfl
        _ = (((net2 j).withReportingUp 0).withValue 0).withValue
              (sigma ((P.map (fun u => getWeight (net2 j) u * (net2 u).value)).sum)) := by rw [h]
        _ = ((net2 j).withReportingUp 0).withValue
              (sigma ((P.map (fun u => getWeight (net2 j) u * (net2 u).value)).sum)) := rfl
    apply ih
    · intro u hu
      rw [finalizeVals_mem _ _ _ _ _ hu, finalizeVals_mem _ _ _ _ _ hu]
      rw [withValue_value, withValue_value]
      exact hform u hu
    · intro j hj
      by_cases hjA : j ∈ A
      · exact hAeq j hjA
      · rw [finalizeVals_not_mem _ _ _ _ _ hjA, finalizeVals_not_mem _ _ _ _ _ hjA]
        exact hoff j (by simp [hjA, hj])
    · intro j hj
      by_cases hjA : j ∈ A
      · rw [finalizeVals_mem _ _ _ _ _ hjA, finalizeVals_mem _ _ _ _ _ hjA]
        have h := hon j (by simp [hjA])
        calc ((((net1 j).withReportingUp 0).withValue
                (sigma ((P.map (fun u => getWeight (net1 j) u * (net1 u).value)).sum))).withReportingUp 0).withValue 0
            = ((net1 j).withReportingUp 0).withValue 0 := rfl
          _ = ((net2 j).withReportingUp 0).withValue 0 := h
          _ = ((((net2 j).withReportingUp 0).withValue
                (sigma ((P.map (fun u => getWeight (net2 j) u * (net2 u).value)).sum))).withReportingUp 0).withValue 0 := rfl
      · rw [finalizeVals_not_mem _ _ _ _ _ hjA, finalizeVals_not_mem _ _ _ _ _ hjA]
        exact hon j (by simp [hj])

theorem dataReadyUpstream_one_cascade
    (sigma : ℚ → ℚ) (fuel : ℕ) (G : Net) (a s : ℕ) (P B : List ℕ)
    (hs : s ∈ P) (hup : (G a).upstream = P)
    (hmask : (G a).reportingUp ||| (1 <<< insIdx P s) = (G a).referenceUp)
    (hdown : (G a).downstream = B) (haP : a ∉ P) :
    dataReadyUpstream sigma (fuel + 1) G a s
      = B.foldlM (fun acc d => dataReadyUpstream sigma fuel acc d a)
          (setNode G a (((G a).withReportingUp 0).withValue
            (sigma ((P.map (fun u => getWeight (G a) u * (G u).value)).sum)))) := by
  rw [dataReadyUpstream_succ]
  unfold dataReadyUpstreamF
  rw [checkIn_up_true (G a) P s hs hup hmask]
  dsimp only
  have hcv : calculateValue sigma (setNode G a ((G a).withReportingUp 0)) a
      = ((G a).withReportingUp 0).withValue
          (sigma ((P.map (fun u => getWeight (G a) u * (G u).value)).sum)) := by
    unfold calculateValue
    rw [setNode_same]
    dsimp only
    rw [withReportingUp_upstream, hup]
    have hmap : List.map (fun u =>
          getWeight ((G a).withReportingUp 0) u *
            ((setNode G a ((G a).withReportingUp 0)) u).value) P
        = List.map (fun u => getWeight (G a) u * (G u).value) P := by
      apply List.map_congr_left
      intro u hu
      have hua : u ≠ a := fun h => haP (h ▸ hu)
      rw [setNode_other _ _ _ _ hua, getWeight_withReportingUp]
    rw [hmap]
    unfold NodeRec.withValue
    rw [withReportingUp_upstream, hup]
  rw [hcv, setNode_setNode, setNode_same]
  rw [show (((G a).withReportingUp 0).withValue
      (sigma ((P.map (fun u => getWeight (G a) u * (G u).value)).sum))).downstream
      = (G a).downstream from rfl, hdown]

theorem fireLayer (sigma : ℚ → ℚ) :
    ∀ (rest : List (List ℕ)) (fuel : ℕ), rest.length ≤ fuel →
    ∀ (A P : List ℕ) (s : ℕ) (H : Net),
    s ∈ P →
    ((A :: rest).flatten).Nodup →
    (∀ x ∈ (A :: rest).flatten, x ∉ P) →
    chainShape H P (A :: rest) →
    (∀ a ∈ A, (H a).reportingUp ||| (1 <<< insIdx P s) = (H a).referenceUp) →
    (∀ X ∈ rest, ∀ x ∈ X, (H x).reportingUp = 0) →
    A.foldlM (fun acc d => dataReadyUpstream sigma (fuel + 1) acc d s) H
      = some (cascadeNet sigma H P (A :: rest)) := by
  intro rest
  induction rest with
  | nil =>
    intro fuel _ A P s H hs hnd hdisjP hshape hmask _
    obtain ⟨hAne, hAnd, hfldA, -⟩ := hshape
    rw [cascadeNet_cons, cascadeNet_nil]
    have h := ffFoldOuts_true sigma fuel P s hs (fun u => (H u).value) A hAnd
      (fun a ha haP => hdisjP a (by simp [ha]) haP)
      H
      (fun a ha => ⟨(hfldA a ha).1, (hfldA a ha).2.2, hmask a ha⟩)
      (fun u _ => rfl)
    refine h.trans (congrArg some (funext fun j => ?_))
    unfold finalizeVals
    by_cases hj : j ∈ A
    · rw [if_pos hj]
    · rw [if_neg hj]
  | cons B rest2 ih =>
    intro fuel hfuel A P s H hs hnd hdisjP hshape hmask hmask0
    obtain ⟨hAne, hAnd, hfldA, hshapeB⟩ := hshape
    have hBfacts := hshapeB
    obtain ⟨hBne, hBnd, hfldB, hshape2⟩ := hBfacts
    obtain ⟨f', rfl⟩ : ∃ f', fuel = f' + 1 := ⟨fuel - 1, by simp at hfuel; omega⟩
    have hflat : ((A :: B :: rest2).flatten) = A ++ (B ++ rest2.flatten) := by
      simp [List.flatten_cons]
    rw [hflat] at hnd
    obtain ⟨hAnd2, hndBR, hdisjA⟩ := List.nodup_append.mp hnd
    obtain ⟨hBnd2, hndR, hdisjB⟩ := List.nodup_append.mp hndBR
    have hBnotA : ∀ b ∈ B, b ∉ A := fun b hb ha => hdisjA ha (List.mem_append_left _ hb)
    have hRnotA : ∀ x ∈ rest2.flatten, x ∉ A :=
      fun x hx ha => hdisjA ha (List.mem_append_right _ hx)
    have hRnotB : ∀ x ∈ rest2.flatten, x ∉ B := fun x hx hb => hdisjB hb hx
    have hAP : ∀ a ∈ A, a ∉ P :=
      fun a ha => hdisjP a (by rw [hflat]; exact List.mem_append_left _ ha)
    rw [cascadeNet_cons]
    suffices hinner : ∀ (q SA : List ℕ), A = SA ++ q → q ≠ [] →
        ∀ (G : Net),
        (∀ a ∈ q, (G a).upstream = P ∧
          (G a).reportingUp ||| (1 <<< insIdx P s) = (G a).referenceUp ∧
          (G a).downstream = B) →
        (∀ b ∈ B, (G b).upstream = A ∧ (G b).referenceUp = 2 ^ A.length - 1 ∧
          (G b).reportingUp = maskOf A SA ∧ (G b).downstream = headList rest2) →
        chainShape G A (B :: rest2) →
        (∀ X ∈ rest2, ∀ x ∈ X, (G x).reportingUp = 0) →
        (∀ u ∈ P, (G u).value = (H u).value) →
        (∀ j ∈ q, (G j).weights = (H j).weights) →
        q.foldlM (fun acc d => dataReadyUpstream sigma ((f' + 1) + 1) acc d s) G
          = some (cascadeNet sigma (finalizeVals sigma G P q) A (B :: rest2)) by
      have happ := hinner A [] rfl hAne H
        (fun a ha => ⟨(hfldA a ha).1, hmask a ha, (hfldA a ha).2.2⟩)
        (fun b hb => ⟨(hfldB b hb).1, (hfldB b hb).2.1,
          (hmask0 B (List.mem_cons_self B rest2) b hb).trans rfl, (hfldB b hb).2.2⟩)
        hshapeB
        (fun X hX x hx => hmask0 X (List.mem_cons_of_mem B hX) x hx)
        (fun u _ => rfl) (fun j _ => rfl)
      exact happ
    intro q
    induction q with
    | nil => intro _ _ hq; exact absurd rfl hq
    | cons a q2 ihq =>
      intro SA hA _ G hGq hGB hGchain hGmask0 hGPval hGqw
      have haA : a ∈ A := hA ▸ List.mem_append_right SA (List.mem_cons_self a q2)
      obtain ⟨hupA, hmaskA, hdownA⟩ := hGq a (List.mem_cons_self a q2)
      have hstep := dataReadyUpstream_one_cascade sigma (f' + 1) G a s P B
        hs hupA hmaskA hdownA (hAP a haA)
      have hnodupA := hAnd
      rw [hA] at hnodupA
      have haSA : a ∉ SA := by
        intro h
        have h2 := List.nodup_append.mp hnodupA
        exact h2.2.2 h (List.mem_cons_self a q2)
      have haq2 : a ∉ q2 := by
        have h2 := List.nodup_append.mp hnodupA
        exact (List.nodup_cons.mp h2.2.1).1
      cases q2 with
      | nil =>
        -- a is the last member of A : the whole deeper chain fires
        have hAeq : A = SA ++ [a] := hA
        have hdeep := ih f' (by simp at hfuel; omega) B A a
          (setNode G a (((G a).withReportingUp 0).withValue
            (sigma ((P.map (fun u => getWeight (G a) u * (G u).value)).sum))))
          haA
          (by rw [List.flatten_cons]; exact hndBR)
          (by
            intro x hx
            rw [List.flatten_cons] at hx
            rcases List.mem_append.mp hx with h | h
            · exact hBnotA x h
            · exact hRnotA x h)
          (by
            apply chainShape_mono (B :: rest2) A G
            · intro x hx
              have hxa : x ≠ a := by
                rw [List.flatten_cons] at hx
                rcases List.mem_append.mp hx with h | h
                · exact fun he => hBnotA x h (he ▸ haA)
                · exact fun he => hRnotA x h (he ▸ haA)
              rw [setNode_other _ _ _ _ hxa]
              exact ⟨rfl, rfl, rfl⟩
            · exact hGchain)
          (by
            intro b hb
            have hba : b ≠ a := fun h => hBnotA b hb (h ▸ haA)
            rw [setNode_other _ _ _ _ hba]
            obtain ⟨-, href, hrep, -⟩ := hGB b hb
            rw [hrep, href, ← maskOf_append_one, ← hAeq]
            exact maskOf_eq_ref A A hAnd (fun u hu => hu) (fun u hu => hu))
          (by
            intro X hX x hx
            have hxa : x ≠ a := fun h =>
              hRnotA x (List.mem_flatten.mpr ⟨X, hX, hx⟩) (h ▸ haA)
            rw [setNode_other _ _ _ _ hxa]
            exact hGmask0 X hX x hx)
        have hfa : dataReadyUpstream sigma ((f' + 1) + 1) G a s
            = some (cascadeNet sigma
                (setNode G a (((G a).withReportingUp 0).withValue
                  (sigma ((P.map (fun u => getWeight (G a) u * (G u).value)).sum))))
                A (B :: rest2)) := hstep.trans hdeep
        have hG1 : setNode G a (((G a).withReportingUp 0).withValue
              (sigma ((P.map (fun u => getWeight (G a) u * (G u).value)).sum)))
            = finalizeVals sigma G P [a] := by
          funext j
          by_cases hj : j = a
          · subst hj
            rw [setNode_same, finalizeVals_mem _ _ _ _ _ (List.mem_singleton_self j)]
          · rw [setNode_other _ _ _ _ hj,
              finalizeVals_not_mem _ _ _ _ _ (by simp [hj])]
        rw [hG1] at hfa
        exact (foldlM_cons_some _ _ _ a [] hfa).trans (by rw [List.foldlM_nil]; rfl)
      | cons a0 q3 =>
        -- a is not the last member : only the masks of B advance
        have ha0A : a0 ∈ A := hA ▸ List.mem_append_right SA
          (List.mem_cons_of_mem a (List.mem_cons_self a0 q3))
        have ha0n : a0 ∉ SA ++ [a] := by
          intro h
          rcases List.mem_append.mp h with h | h
          · have h2 := List.nodup_append.mp hnodupA
            exact h2.2.2 h (List.mem_cons_of_mem a (List.mem_cons_self a0 q3))
          · exact haq2 ((List.mem_singleton.mp h) ▸ List.mem_cons_self a0 q3)
        have hpart := ffFoldOuts_false sigma f' A a haA (maskOf A SA) (2 ^ A.length - 1)
          (by
            rw [← maskOf_append_one]
            exact maskOf_ne_ref A (SA ++ [a]) hAnd
              (by
                intro u hu
                rcases List.mem_append.mp hu with h | h
                · exact hA ▸ List.mem_append_left _ h
                · rw [List.mem_singleton.mp h]; exact haA)
              a0 ha0A ha0n)
          B hBnd
          (setNode G a (((G a).withReportingUp 0).withValue
            (sigma ((P.map (fun u => getWeight (G a) u * (G u).value)).sum))))
          (by
            intro b hb
            have hba : b ≠ a := fun h => hBnotA b hb (h ▸ haA)
            rw [setNode_other _ _ _ _ hba]
            obtain ⟨hu, href, hrep, -⟩ := hGB b hb
            exact ⟨hu, hrep, href⟩)
        have hfa : dataReadyUpstream sigma ((f' + 1) + 1) G a s
            = some (fun j => if j ∈ B then
                ((setNode G a (((G a).withReportingUp 0).withValue
                  (sigma ((P.map (fun u => getWeight (G a) u * (G u).value)).sum))) j).withReportingUp
                  (maskOf A SA ||| (1 <<< insIdx A a)))
                else setNode G a (((G a).withReportingUp 0).withValue
                  (sigma ((P.map (fun u => getWeight (G a) u * (G u).value)).sum))) j) :=
          hstep.trans hpart
        set K := ((G a).withReportingUp 0).withValue
          (sigma ((P.map (fun u => getWeight (G a) u * (G u).value)).sum)) with hK
        set G2 : Net := fun j => if j ∈ B then
            ((setNode G a K j).withReportingUp (maskOf A SA ||| (1 <<< insIdx A a)))
            else setNode G a K j with hG2
        rw [foldlM_cons_some _ _ _ a (a0 :: q3) hfa]
        have haB : a ∉ B := fun h => hBnotA a h haA
        have hG2B : ∀ b ∈ B, G2 b = (G b).withReportingUp (maskOf A (SA ++ [a])) := by
          intro b hb
          rw [hG2]
          dsimp only
          rw [if_pos hb, setNode_other _ _ _ _ (fun (h : b = a) => hBnotA b hb (h ▸ haA)),
            maskOf_append_one]
        have hG2x : ∀ j, j ∉ B → j ≠ a → G2 j = G j := by
          intro j hjB hja
          rw [hG2]
          dsimp only
          rw [if_neg hjB, setNode_other _ _ _ _ hja]
        have hG2a : G2 a = K := by
          rw [hG2]
          dsimp only
          rw [if_neg haB, setNode_same]
        have hPsame : ∀ u ∈ P, G2 u = G u := fun u hu =>
          hG2x u
            (fun h => hdisjP u
              (by rw [hflat]; exact List.mem_append_right _ (List.mem_append_left _ h)) hu)
            (fun h => hAP a haA (h ▸ hu))
        have hrest := ihq (SA ++ [a])
          (by rw [← List.append_cons]; exact hA)
          (by simp)
          G2
          (fun a' ha' => by
            have ha'A : a' ∈ A := hA ▸ List.mem_append_right SA (List.mem_cons_of_mem a ha')
            have ha'a : a' ≠ a := fun h => haq2 (h ▸ ha')
            have ha'B : a' ∉ B := fun h => hBnotA a' h ha'A
            rw [hG2x a' ha'B ha'a]
            exact hGq a' (List.mem_cons_of_mem a ha'))
          (fun b hb => by
            rw [hG2B b hb]
            obtain ⟨hu, href, hrep, hdn⟩ := hGB b hb
            refine ⟨?_, ?_, ?_, ?_⟩
            · rw [withReportingUp_upstream]; exact hu
            · rw [withReportingUp_referenceUp]; exact href
            · rw [withReportingUp_reportingUp]
            · rw [withReportingUp_downstream]; exact hdn)
          (by
            apply chainShape_mono (B :: rest2) A G
            · intro x hx
              rw [List.flatten_cons] at hx
              rcases List.mem_append.mp hx with h | h
              · rw [hG2B x h]
                refine ⟨?_, ?_, ?_⟩
                · rw [withReportingUp_upstream]
                · rw [withReportingUp_referenceUp]
                · rw [withReportingUp_downstream]
              · have hxB : x ∉ B := hRnotB x h
                have hxa : x ≠ a := fun he => hRnotA x h (he ▸ haA)
                rw [hG2x x hxB hxa]
                exact ⟨rfl, rfl, rfl⟩
            · exact hGchain)
          (fun X hX x hx => by
            have hxf : x ∈ rest2.flatten := List.mem_flatten.mpr ⟨X, hX, hx⟩
            rw [hG2x x (hRnotB x hxf) (fun he => hRnotA x hxf (he ▸ haA))]
            exact hGmask0 X hX x hx)
          (fun u hu => by
            rw [hPsame u hu]
            exact hGPval u hu)
          (fun j hj => by
            have hjA : j ∈ A := hA ▸ List.mem_append_right SA (List.mem_cons_of_mem a hj)
            have hjB : j ∉ B := fun h => hBnotA j h hjA
            have hja : j ≠ a := fun h => haq2 (h ▸ hj)
            rw [hG2x j hjB hja]
            exact hGqw j (List.mem_cons_of_mem a hj))
        rw [hrest]
        refine congrArg some (cascadeNet_congr sigma (B :: rest2) _ _ A ?_ ?_ ?_)
        · intro u huA
          by_cases h1 : u ∈ a0 :: q3
          · rw [finalizeVals_mem _ _ _ _ _ h1,
              finalizeVals_mem _ _ _ _ _ (List.mem_cons_of_mem a h1),
              withValue_value, withValue_value]
            have hua : u ≠ a := fun h => haq2 (h ▸ h1)
            have huB : u ∉ B := fun h => hBnotA u h huA
            have hm : P.map (fun p => getWeight (G2 u) p * (G2 p).value)
                = P.map (fun p => getWeight (G u) p * (G p).value) := by
              apply List.map_congr_left
              intro p hp
              rw [hG2x u huB hua, hPsame p hp]
            rw [hm]
          · rw [finalizeVals_not_mem _ _ _ _ _ h1]
            by_cases h2 : u = a
            · subst h2
              rw [hG2a, finalizeVals_mem _ _ _ _ _ (List.mem_cons_self u (a0 :: q3)), hK]
            · have huB : u ∉ B := fun h => hBnotA u h huA
              rw [hG2x u huB h2, finalizeVals_not_mem _ _ _ _ _ (by simp [h1, h2])]
        · intro j hj
          rw [List.flatten_cons] at hj
          have hjB : j ∉ B := fun h => hj (List.mem_append_left _ h)
          by_cases h1 : j ∈ a0 :: q3
          · have hja : j ≠ a := fun h => haq2 (h ▸ h1)
            rw [finalizeVals_mem _ _ _ _ _ h1,
              finalizeVals_mem _ _ _ _ _ (List.mem_cons_of_mem a h1)]
            have hm : P.map (fun p => getWeight (G2 j) p * (G2 p).value)
                = P.map (fun p => getWeight (G j) p * (G p).value) := by
              apply List.map_congr_left
              intro p hp
              rw [hG2x j hjB hja, hPsame p hp]
            rw [hm, hG2x j hjB hja]
          · by_cases h2 : j = a
            · subst h2
              rw [finalizeVals_not_mem _ _ _ _ _ h1, hG2a,
                finalizeVals_mem _ _ _ _ _ (List.mem_cons_self j (a0 :: q3)), hK]
            · rw [finalizeVals_not_mem _ _ _ _ _ h1,
                finalizeVals_not_mem _ _ _ _ _ (by simp [h1, h2]), hG2x j hjB h2]
        · intro j hj
          rw [List.flatten_cons] at hj
          have hjnq : j ∉ a0 :: q3 := by
            intro h
            have hjA : j ∈ A := hA ▸ List.mem_append_right SA (List.mem_cons_of_mem a h)
            rcases List.mem_append.mp hj with hB | hR
            · exact hBnotA j hB hjA
            · exact hRnotA j hR hjA
          have hja : j ≠ a := by
            intro he
            rcases List.mem_append.mp hj with hB | hR
            · exact hBnotA j hB (he ▸ haA)
            · exact hRnotA j hR (he ▸ haA)
          rw [finalizeVals_not_mem _ _ _ _ _ hjnq,
            finalizeVals_not_mem _ _ _ _ _ (by simp [hjnq, hja])]
          rcases List.mem_append.mp hj with hB | hR
          · rw [hG2B j hB]
            rfl
          · rw [hG2x j (hRnotB j hR) hja]

theorem setInputL_mid (sigma : ℚ → ℚ) (fuel : ℕ) (net : Net) (ins outs : List ℕ)
    (xs : ℕ → ℚ) (P : List ℕ) (i : ℕ)
    (hiins : i ∈ ins) (hiP : i ∉ P) (hio : i ∉ outs) (hond : outs.Nodup)
    (hdown : (net i).downstream = outs)
    (hof : ∀ o ∈ outs, (net o).upstream = ins ∧ (net o).referenceUp = 2 ^ ins.length - 1)
    (hPo : ∀ o ∈ outs, o ∉ P)
    (hne : maskOf ins P ||| (1 <<< insIdx ins i) ≠ 2 ^ ins.length - 1) :
    setInput sigma (fuel + 1) (ffMidNet net ins outs xs P) i (xs i)
      = some (ffMidNet net ins outs xs (P ++ [i])) := by
  rw [setInput_unfold, setNode_same, ffMidNet_i net ins outs xs P i hiP hio,
    withValue_downstream, hdown]
  have hfold := ffFoldOuts_false sigma fuel ins i hiins (maskOf ins P)
    (2 ^ ins.length - 1) hne outs hond
    (setNode (ffMidNet net ins outs xs P) i ((net i).withValue (xs i)))
    (fun o ho => by
      have hoi : o ≠ i := fun h => hio (h ▸ ho)
      rw [setNode_other _ _ _ _ hoi, ffMidNet_o net ins outs xs P o (hPo o ho) ho]
      exact ⟨by rw [withReportingUp_upstream]; exact (hof o ho).1,
        by rw [withReportingUp_reportingUp],
        by rw [withReportingUp_referenceUp]; exact (hof o ho).2⟩)
  rw [hfold]
  refine congrArg some (funext fun j => ?_)
  by_cases hjo : j ∈ outs
  · have hji : j ≠ i := fun h => hio (h ▸ hjo)
    have hjP : j ∉ P := hPo j hjo
    have hjPi : j ∉ P ++ [i] := by
      intro h
      rcases List.mem_append.mp h with h | h
      · exact hjP h
      · exact hji (List.mem_singleton.mp h)
    rw [if_pos hjo, setNode_other _ _ _ _ hji, ffMidNet_o net ins outs xs P j hjP hjo,
      ffMidNet_o net ins outs xs (P ++ [i]) j hjPi hjo, maskOf_append_one]
    rfl
  · rw [if_neg hjo]
    by_cases hji : j = i
    · subst hji
      rw [setNode_same, ffMidNet_p net ins outs xs (P ++ [j]) j
        (List.mem_append_right P (List.mem_singleton_self j))]
    · rw [setNode_other _ _ _ _ hji]
      by_cases hjP : j ∈ P
      · rw [ffMidNet_p net ins outs xs P j hjP,
          ffMidNet_p net ins outs xs (P ++ [i]) j (List.mem_append_left _ hjP)]
      · rw [ffMidNet_i net ins outs xs P j hjP hjo,
          ffMidNet_i net ins outs xs (P ++ [i]) j
            (by
              intro h
              rcases List.mem_append.mp h with h | h
              · exact hjP h
              · exact hji (List.mem_singleton.mp h)) hjo]

theorem setInputL_last (sigma : ℚ → ℚ) (net : Net) (ins : List ℕ)
    (A : List ℕ) (rest : List (List ℕ)) (xs : ℕ → ℚ) (P : List ℕ) (i : ℕ)
    (hL : LayeredFF net ins (A :: rest))
    (hiins : i ∈ ins) (hiP : i ∉ P) (hPsub : ∀ p ∈ P, p ∈ ins)
    (hcov : ∀ u ∈ ins, u ∈ P ++ [i]) :
    setInput sigma (rest.length + 1 + 1) (ffMidNet net ins A xs P) i (xs i)
      = some (ffFinalNetL sigma net ins (A :: rest) xs) := by
  obtain ⟨hinsne, hchne, hnd, hdownIns, hshape, hmask0⟩ := id hL
  obtain ⟨hnd1, hndf, hdisj⟩ := List.nodup_append.mp hnd
  obtain ⟨hAne, hAnd, hfldA, hshape2⟩ := id hshape
  obtain ⟨hndA2, hndR, hdisjAR⟩ := List.nodup_append.mp
    (by rw [← List.flatten_cons]; exact hndf)
  have hiF : i ∉ (A :: rest).flatten := fun h => hdisj hiins h
  have hiA : i ∉ A := fun h => hiF (by rw [List.flatten_cons]; exact List.mem_append_left _ h)
  rw [setInput_unfold, setNode_same, ffMidNet_i net ins A xs P i hiP hiA,
    withValue_downstream, hdownIns i hiins,
    show headList (A :: rest) = A from rfl]
  have hPF : ∀ p ∈ P, p ∉ (A :: rest).flatten := fun p hp h => hdisj (hPsub p hp) h
  have hPA : ∀ p ∈ P, p ∉ A :=
    fun p hp h => hPF p hp (by rw [List.flatten_cons]; exact List.mem_append_left _ h)
  have hH1F : ∀ x ∈ (A :: rest).flatten,
      setNode (ffMidNet net ins A xs P) i ((net i).withValue (xs i)) x
        = ffMidNet net ins A xs P x := by
    intro x hx
    exact setNode_other _ _ _ _ (fun h => hiF (h ▸ hx))
  have hfire := fireLayer sigma rest (rest.length + 1) (by omega) A ins i
    (setNode (ffMidNet net ins A xs P) i ((net i).withValue (xs i)))
    hiins hndf (fun x hx hxi => hdisj hxi hx)
    (by
      apply chainShape_mono (A :: rest) ins net
      · intro x hx
        rw [hH1F x hx]
        have hxP : x ∉ P := fun h => hPF x h hx
        by_cases hxA : x ∈ A
        · rw [ffMidNet_o net ins A xs P x hxP hxA]
          exact ⟨by rw [withReportingUp_upstream], by rw [withReportingUp_referenceUp],
            by rw [withReportingUp_downstream]⟩
        · rw [ffMidNet_i net ins A xs P x hxP hxA]
          exact ⟨rfl, rfl, rfl⟩
      · exact hshape)
    (by
      intro a ha
      have haF : a ∈ (A :: rest).flatten := by
        rw [List.flatten_cons]; exact List.mem_append_left _ ha
      rw [hH1F a haF, ffMidNet_o net ins A xs P a (fun h => hPA a h ha) ha,
        withReportingUp_reportingUp, withReportingUp_referenceUp, (hfldA a ha).2.1,
        ← maskOf_append_one]
      exact maskOf_eq_ref ins (P ++ [i]) hnd1
        (by
          intro u hu
          rcases List.mem_append.mp hu with h | h
          · exact hPsub u h
          · rw [List.mem_singleton.mp h]; exact hiins)
        hcov)
    (by
      intro X hX x hx
      have hxR : x ∈ rest.flatten := List.mem_flatten.mpr ⟨X, hX, hx⟩
      have hxF : x ∈ (A :: rest).flatten := by
        rw [List.flatten_cons]; exact List.mem_append_right _ hxR
      rw [hH1F x hxF, ffMidNet_i net ins A xs P x (fun h => hPF x h hxF) (hdisjAR · hxR)]
      exact hmask0 X (List.mem_cons_of_mem A hX) x hx)
  rw [hfire]
  refine congrArg some (cascadeNet_congr sigma (A :: rest) _ _ ins ?_ ?_ ?_)
  · intro u hu
    have huF : u ∉ (A :: rest).flatten := fun h => hdisj hu h
    have hsv : (setVals net ins xs u).value = xs u := by
      unfold setVals
      rw [if_pos hu, withValue_value]
    rw [hsv]
    by_cases hui : u = i
    · subst hui
      rw [setNode_same, withValue_value]
    · rw [setNode_other _ _ _ _ hui]
      rcases List.mem_append.mp (hcov u hu) with h | h
      · rw [ffMidNet_p net ins A xs P u h, withValue_value]
      · exact absurd (List.mem_singleton.mp h) hui
  · intro j hj
    have hjA : j ∉ A := fun h => hj (by rw [List.flatten_cons]; exact List.mem_append_left _ h)
    by_cases hji : j = i
    · subst hji
      rw [setNode_same]
      unfold setVals
      rw [if_pos hiins]
    · rw [setNode_other _ _ _ _ hji]
      by_cases hjP : j ∈ P
      · rw [ffMidNet_p net ins A xs P j hjP]
        unfold setVals
        rw [if_pos (hPsub j hjP)]
      · rw [ffMidNet_i net ins A xs P j hjP hjA]
        have hjins : j ∉ ins := by
          intro h
          rcases List.mem_append.mp (hcov j h) with h2 | h2
          · exact hjP h2
          · exact hji (List.mem_singleton.mp h2)
        unfold setVals
        rw [if_neg hjins]
  · intro j hj
    have hjins : j ∉ ins := fun h => hdisj h hj
    have hsv : setVals net ins xs j = net j := by
      unfold setVals
      rw [if_neg hjins]
    rw [hH1F j hj, hsv]
    have hjP : j ∉ P := fun h => hPF j h hj
    by_cases hjA : j ∈ A
    · rw [ffMidNet_o net ins A xs P j hjP hjA]
      rfl
    · rw [ffMidNet_i net ins A xs P j hjP hjA]

theorem ffRunL (sigma : ℚ → ℚ) (net : Net) (ins A : List ℕ)
    (rest : List (List ℕ)) (xs : ℕ → ℚ) (hL : LayeredFF net ins (A :: rest)) :
    ∀ (rem P : List ℕ), rem ≠ [] → (P ++ rem).Perm ins →
    (rem.map (fun i => (i, xs i))).foldlM
        (fun acc p => setInput sigma (rest.length + 1 + 1) acc p.1 p.2)
        (ffMidNet net ins A xs P)
      = some (ffFinalNetL sigma net ins (A :: rest) xs) := by
  obtain ⟨hinsne, hchne, hnd, hdownIns, hshape, hmask0⟩ := id hL
  obtain ⟨hnd1, hndf, hdisj⟩ := List.nodup_append.mp hnd
  obtain ⟨hAne, hAnd, hfldA, hshape2⟩ := id hshape
  intro rem
  induction rem with
  | nil => intro P hne _; exact absurd rfl hne
  | cons i rem2 ih =>
    intro P _ hperm
    have hPnd : (P ++ i :: rem2).Nodup := hperm.nodup_iff.mpr hnd1
    obtain ⟨hPnd1, hPnd2, hPdisj⟩ := List.nodup_append.mp hPnd
    have hiins : i ∈ ins := hperm.subset (by simp)
    have hiP : i ∉ P := fun h => hPdisj h (List.mem_cons_self i rem2)
    have hPsub : ∀ p ∈ P, p ∈ ins := fun p hp => hperm.subset (List.mem_append_left _ hp)
    rw [List.map_cons]
    cases rem2 with
    | nil =>
      have hcov : ∀ u ∈ ins, u ∈ P ++ [i] := fun u hu => hperm.symm.subset hu
      have hstep := setInputL_last sigma net ins A rest xs P i hL hiins hiP hPsub hcov
      rw [foldlM_cons_some (fun acc p => setInput sigma (rest.length + 1 + 1) acc p.1 p.2)
          (ffMidNet net ins A xs P) (ffFinalNetL sigma net ins (A :: rest) xs)
          (i, xs i) (List.map (fun u => (u, xs u)) []) hstep,
        List.map_nil, List.foldlM_nil]
      rfl
    | cons i2 rem3 =>
      have hi2ins : i2 ∈ ins := hperm.subset (by simp)
      have hi2not : i2 ∉ P ++ [i] := by
        intro h
        rcases List.mem_append.mp h with h | h
        · exact hPdisj h (by simp)
        · exact (List.nodup_cons.mp hPnd2).1
            (by rw [← List.mem_singleton.mp h]; exact List.mem_cons_self i2 rem3)
      have hne : maskOf ins P ||| (1 <<< insIdx ins i) ≠ 2 ^ ins.length - 1 := by
        rw [← maskOf_append_one]
        exact maskOf_ne_ref ins (P ++ [i]) hnd1
          (by
            intro u hu
            rcases List.mem_append.mp hu with h | h
            · exact hPsub u h
            · rw [List.mem_singleton.mp h]; exact hiins)
          i2 hi2ins hi2not
      have hiA : i ∉ A :=
        fun h => hdisj hiins (by rw [List.flatten_cons]; exact List.mem_append_left _ h)
      have hstep := setInputL_mid sigma (rest.length + 1) net ins A xs P i
        hiins hiP hiA hAnd (hdownIns i hiins)
        (fun o ho => ⟨(hfldA o ho).1, (hfldA o ho).2.1⟩)
        (fun o ho hoP => hdisj (hPsub o hoP)
          (by rw [List.flatten_cons]; exact List.mem_append_left _ ho))
        hne
      rw [foldlM_cons_some (fun acc p => setInput sigma (rest.length + 1 + 1) acc p.1 p.2)
          (ffMidNet net ins A xs P) (ffMidNet net ins A xs (P ++ [i]))
          (i, xs i) (List.map (fun u => (u, xs u)) (i2 :: rem3)) hstep]
      exact ih (P ++ [i]) (by simp) (by rw [← List.append_cons]; exact hperm)

/-- C5 (feed-forward order independence): on any layered network of the
shape `LayerList` builds — a nonempty input layer wired through any number
of hidden layers to an output layer, all fully connected layer to layer —
presenting one sample with `feed_forward` drives the heap to the one
closed-form final state `ffFinalNetL` regardless of the order in which the
input nodes receive `set_input`; in particular any two presentation orders
leave every node with identical values.  Completion detection is
positional (the reporting bitmask over upstream indices), which is why the
result is order independent. -/
theorem claim_C5_feed_forward_order_independence
    (sigma : ℚ → ℚ) (net : Net) (ins : List ℕ) (chain : List (List ℕ))
    (xs : ℕ → ℚ) (order1 order2 : List ℕ)
    (hL : LayeredFF net ins chain)
    (h1 : order1.Perm ins) (h2 : order2.Perm ins) :
    feedForward sigma (chain.length + 1) net (order1.map (fun i => (i, xs i)))
      = some (ffFinalNetL sigma net ins chain xs)
    ∧ feedForward sigma (chain.length + 1) net (order1.map (fun i => (i, xs i)))
      = feedForward sigma (chain.length + 1) net (order2.map (fun i => (i, xs i))) := by
  cases chain with
  | nil => exact absurd rfl hL.2.1
  | cons A rest =>
    rw [show (A :: rest).length + 1 = rest.length + 1 + 1 from by rw [List.length_cons]]
    have h0 : ffMidNet net ins A xs [] = net := by
      funext j
      unfold ffMidNet
      rw [if_neg (List.not_mem_nil j)]
      by_cases hj : j ∈ A
      · rw [if_pos hj, show maskOf ins [] = 0 from rfl,
          ← hL.2.2.2.2.2 A (List.mem_cons_self A rest) j hj]
        rfl
      · rw [if_neg hj]
    have key : ∀ order : List ℕ, order.Perm ins →
        feedForward sigma (rest.length + 1 + 1) net (order.map (fun i => (i, xs i)))
          = some (ffFinalNetL sigma net ins (A :: rest) xs) := by
      intro order hp
      have hone : order ≠ [] := by
        intro h
        subst h
        exact hL.1 hp.symm.eq_nil
      have hrun := ffRunL sigma net ins A rest xs hL order [] hone
        (by rw [List.nil_append]; exact hp)
      rw [h0] at hrun
      exact hrun
    exact ⟨key order1 h1, (key order1 h1).trans (key order2 h2).symm⟩

theorem c5L_shape : LayeredFF c5NetL [0, 1] [[2], [3]] := by
  refine ⟨by decide, by decide, by decide, by decide, ?_, by decide⟩
  exact ⟨by decide, by decide, by decide, by decide, by decide, by decide, trivial⟩

theorem claim_C5_feed_forward_order_independence_witness :
    LayeredFF c5NetL [0, 1] [[2], [3]] ∧
    feedForward (fun v => v) ([[2], [3]].length + 1) c5NetL
        ([1, 0].map (fun i => (i, (fun _ => (1 : ℚ)) i)))
      = feedForward (fun v => v) ([[2], [3]].length + 1) c5NetL
        ([0, 1].map (fun i => (i, (fun _ => (1 : ℚ)) i))) :=
  ⟨c5L_shape, (claim_C5_feed_forward_order_independence (fun v => v) c5NetL [0, 1]
      [[2], [3]] (fun _ => (1 : ℚ)) [1, 0] [0, 1] c5L_shape (by decide) (by decide)).2⟩
theorem bpCascadeNet_nil (net : Net) (Q : List ℕ) :
    bpCascadeNet net Q [] = net := rfl

theorem bpCascadeNet_cons (net : Net) (Q B : List ℕ) (rest : List (List ℕ)) :
    bpCascadeNet net Q (B :: rest) = bpCascadeNet (bpFinalize net Q B) B rest := rfl

theorem bpCascadeEvents_nil (net : Net) (Q : List ℕ) :
    bpCascadeEvents net Q [] = [] := rfl

theorem bpCascadeEvents_cons (net : Net) (Q B : List ℕ) (rest : List (List ℕ)) :
    bpCascadeEvents net Q (B :: rest)
      = (B.map (fun b => Q.map (fun d =>
          (⟨d, b, 1 / 20 * (net d).delta * (net b).value⟩ : WEvent)))).flatten
        ++ bpCascadeEvents (bpFinalize net Q B) B rest := rfl

theorem bpFinalize_mem_B (net : Net) (Q B : List ℕ) (j : ℕ) (hj : j ∈ B) :
    bpFinalize net Q B j
      = ((net j).withReportingDown 0).withDelta
          (sigmoidDerivative (net j).value *
            ((Q.map (fun d => (net d).delta * (wlookup (net d).weights j).getD 0)).sum)) := by
  unfold bpFinalize
  rw [if_pos hj]

theorem bpFinalize_mem_Q (net : Net) (Q B : List ℕ) (j : ℕ) (hjB : j ∉ B) (hjQ : j ∈ Q) :
    bpFinalize net Q B j
      = (net j).withWeights
          (B.foldl (fun w k => winsert w k ((wlookup w k).getD 0
            + 1 / 20 * (net j).delta * (net k).value)) (net j).weights) := by
  unfold bpFinalize
  rw [if_neg hjB, if_pos hjQ]

theorem bpFinalize_not (net : Net) (Q B : List ℕ) (j : ℕ) (hjB : j ∉ B) (hjQ : j ∉ Q) :
    bpFinalize net Q B j = net j := by
  unfold bpFinalize
  rw [if_neg hjB, if_neg hjQ]

theorem bpFinalize_value (net : Net) (Q B : List ℕ) (j : ℕ) :
    (bpFinalize net Q B j).value = (net j).value := by
  unfold bpFinalize
  by_cases hjB : j ∈ B
  · rw [if_pos hjB]
    rfl
  · rw [if_neg hjB]
    by_cases hjQ : j ∈ Q
    · rw [if_pos hjQ]
      rfl
    · rw [if_neg hjQ]

theorem bpFinalize_upstream (net : Net) (Q B : List ℕ) (j : ℕ) :
    (bpFinalize net Q B j).upstream = (net j).upstream := by
  unfold bpFinalize
  by_cases hjB : j ∈ B
  · rw [if_pos hjB]
    rfl
  · rw [if_neg hjB]
    by_cases hjQ : j ∈ Q
    · rw [if_pos hjQ]
      rfl
    · rw [if_neg hjQ]

theorem bpFinalize_downstream (net : Net) (Q B : List ℕ) (j : ℕ) :
    (bpFinalize net Q B j).downstream = (net j).downstream := by
  unfold bpFinalize
  by_cases hjB : j ∈ B
  · rw [if_pos hjB]
    rfl
  · rw [if_neg hjB]
    by_cases hjQ : j ∈ Q
    · rw [if_pos hjQ]
      rfl
    · rw [if_neg hjQ]

theorem bpFinalize_weights_not_Q (net : Net) (Q B : List ℕ) (j : ℕ) (hjQ : j ∉ Q) :
    (bpFinalize net Q B j).weights = (net j).weights := by
  unfold bpFinalize
  by_cases hjB : j ∈ B
  · rw [if_pos hjB]
    rfl
  · rw [if_neg hjB, if_neg hjQ]

theorem bpFinalize_delta_not_B (net : Net) (Q B : List ℕ) (j : ℕ) (hjB : j ∉ B) :
    (bpFinalize net Q B j).delta = (net j).delta := by
  unfold bpFinalize
  rw [if_neg hjB]
  by_cases hjQ : j ∈ Q
  · rw [if_pos hjQ]
    rfl
  · rw [if_neg hjQ]

theorem bpCascade_value :
    ∀ (chain : List (List ℕ)) (net : Net) (Q : List ℕ) (j : ℕ),
    (bpCascadeNet net Q chain j).value = (net j).value := by
  intro chain
  induction chain with
  | nil => intro net Q j; rfl
  | cons B rest ih =>
    intro net Q j
    rw [bpCascadeNet_cons, ih, bpFinalize_value]

theorem bpCascade_upstream :
    ∀ (chain : List (List ℕ)) (net : Net) (Q : List ℕ) (j : ℕ),
    (bpCascadeNet net Q chain j).upstream = (net j).upstream := by
  intro chain
  induction chain with
  | nil => intro net Q j; rfl
  | cons B rest ih =>
    intro net Q j
    rw [bpCascadeNet_cons, ih, bpFinalize_upstream]

theorem bpCascade_downstream :
    ∀ (chain : List (List ℕ)) (net : Net) (Q : List ℕ) (j : ℕ),
    (bpCascadeNet net Q chain j).downstream = (net j).downstream := by
  intro chain
  induction chain with
  | nil => intro net Q j; rfl
  | cons B rest ih =>
    intro net Q j
    rw [bpCascadeNet_cons, ih, bpFinalize_downstream]

theorem bpCascade_untouched :
    ∀ (chain : List (List ℕ)) (net : Net) (Q : List ℕ) (j : ℕ),
    j ∉ Q → j ∉ chain.flatten → bpCascadeNet net Q chain j = net j := by
  intro chain
  induction chain with
  | nil => intro net Q j _ _; rfl
  | cons B rest ih =>
    intro net Q j hjQ hjf
    have hjB : j ∉ B := fun h => hjf (by rw [List.flatten_cons]; exact List.mem_append_left _ h)
    have hjR : j ∉ rest.flatten :=
      fun h => hjf (by rw [List.flatten_cons]; exact List.mem_append_right _ h)
    rw [bpCascadeNet_cons, ih _ _ _ hjB hjR, bpFinalize_not _ _ _ _ hjB hjQ]

theorem bpCascade_delta_off :
    ∀ (chain : List (List ℕ)) (net : Net) (Q : List ℕ) (j : ℕ),
    j ∉ chain.flatten → (bpCascadeNet net Q chain j).delta = (net j).delta := by
  intro chain
  induction chain with
  | nil => intro net Q j _; rfl
  | cons B rest ih =>
    intro net Q j hjf
    have hjB : j ∉ B := fun h => hjf (by rw [List.flatten_cons]; exact List.mem_append_left _ h)
    have hjR : j ∉ rest.flatten :=
      fun h => hjf (by rw [List.flatten_cons]; exact List.mem_append_right _ h)
    rw [bpCascadeNet_cons, ih _ _ _ hjR, bpFinalize_delta_not_B _ _ _ _ hjB]

theorem bpEvents_holder :
    ∀ (chain : List (List ℕ)) (net : Net) (Q : List ℕ) (e : WEvent),
    e ∈ bpCascadeEvents net Q chain → e.holder ∈ Q ++ chain.flatten := by
  intro chain
  induction chain with
  | nil => intro net Q e he; exact absurd he (List.not_mem_nil e)
  | cons B rest ih =>
    intro net Q e he
    rw [bpCascadeEvents_cons] at he
    rcases List.mem_append.mp he with h | h
    · obtain ⟨l, hl, hel⟩ := List.mem_flatten.mp h
      obtain ⟨b, _, rfl⟩ := List.mem_map.mp hl
      obtain ⟨d, hd, rfl⟩ := List.mem_map.mp hel
      exact List.mem_append_left _ hd
    · have h2 := ih _ _ _ h
      rw [List.flatten_cons]
      rcases List.mem_append.mp h2 with h3 | h3
      · exact List.mem_append_right _ (List.mem_append_left _ h3)
      · exact List.mem_append_right _ (List.mem_append_right _ h3)

theorem mapM_some {α β : Type} (f : α → Option β) (g : α → β) :
    ∀ l : List α, (∀ a ∈ l, f a = some (g a)) → l.mapM f = some (l.map g) := by
  intro l
  induction l with
  | nil => intro _; rfl
  | cons a l ih =>
    intro h
    rw [List.mapM_cons, h a (List.mem_cons_self a l),
      ih (fun x hx => h x (List.mem_cons_of_mem a hx))]
    rfl

theorem isSome_eq_some_getD {α : Type} (o : Option α) (d : α) (h : o.isSome = true) :
    o = some (o.getD d) := by
  cases o with
  | none => cases h
  | some v => rfl


theorem withWeights_withWeights (r : NodeRec) (a c : List (ℕ × ℚ)) :
    (r.withWeights a).withWeights c = r.withWeights c := rfl

theorem bpFoldDown_cons (sigma : ℚ → ℚ) (fl s : ℕ) (q : List ℕ) (b : ℕ)
    (H H' : Net) (tr e0 : List WEvent)
    (h : dataReadyDownstream sigma fl H b s = some (H', tr)) :
    (b :: q).foldlM (fun acc u => (dataReadyDownstream sigma fl acc.1 u s).map
        (fun p => (p.1, acc.2 ++ p.2))) (H, e0)
      = q.foldlM (fun acc u => (dataReadyDownstream sigma fl acc.1 u s).map
          (fun p => (p.1, acc.2 ++ p.2))) (H', e0 ++ tr) := by
  rw [List.foldlM_cons]
  dsimp only
  rw [h]
  rfl

theorem bpFoldExp_cons (sigma : ℚ → ℚ) (fl : ℕ) (q : List (ℕ × ℚ)) (b : ℕ × ℚ)
    (H H' : Net) (tr e0 : List WEvent)
    (h : setExpected sigma fl H b.1 b.2 = some (H', tr)) :
    (b :: q).foldlM (fun acc p => (setExpected sigma fl acc.1 p.1 p.2).map
        (fun r => (r.1, acc.2 ++ r.2))) (H, e0)
      = q.foldlM (fun acc p => (setExpected sigma fl acc.1 p.1 p.2).map
          (fun r => (r.1, acc.2 ++ r.2))) (H', e0 ++ tr) := by
  rw [List.foldlM_cons]
  dsimp only
  rw [h]
  rfl

theorem dataReadyDownstream_one_adv (sigma : ℚ → ℚ) (fuel : ℕ) (H : Net) (u b : ℕ)
    (B : List ℕ) (hb : b ∈ B) (hdown : (H u).downstream = B)
    (hne : (H u).reportingDown ||| (1 <<< insIdx B b) ≠ (H u).referenceDown) :
    dataReadyDownstream sigma (fuel + 1) H u b
      = some (setNode H u ((H u).withReportingDown
          ((H u).reportingDown ||| (1 <<< insIdx B b))), []) := by
  rw [dataReadyDownstream_succ]
  unfold dataReadyDownstreamF
  rw [checkIn_down_false (H u) B b hb hdown hne]

theorem bpFoldUps_adv (sigma : ℚ → ℚ) (fuel : ℕ) (B : List ℕ) (b : ℕ) (hb : b ∈ B)
    (M R : ℕ) (hne : M ||| (1 <<< insIdx B b) ≠ R) :
    ∀ (us : List ℕ), us.Nodup →
    ∀ (H : Net) (e0 : List WEvent),
    (∀ u ∈ us, (H u).downstream = B ∧ (H u).reportingDown = M ∧ (H u).referenceDown = R) →
    us.foldlM (fun acc u => (dataReadyDownstream sigma (fuel + 1) acc.1 u b).map
        (fun p => (p.1, acc.2 ++ p.2))) (H, e0)
      = some (fun j => if j ∈ us then
            (H j).withReportingDown (M ||| (1 <<< insIdx B b)) else H j, e0) := by
  intro us
  induction us with
  | nil =>
    intro _ H e0 _
    simp only [List.foldlM_nil]
    refine congrArg some ?_
    refine Prod.ext (funext fun j => by simp) rfl
  | cons u us ih =>
    intro hnd H e0 hH
    obtain ⟨hdown, hrep, href⟩ := hH u (List.mem_cons_self u us)
    have hstep := dataReadyDownstream_one_adv sigma fuel H u b B hb hdown
      (by rw [hrep, href]; exact hne)
    rw [hrep] at hstep
    rw [bpFoldDown_cons sigma (fuel + 1) b us u H _ [] e0 hstep, List.append_nil]
    have hnus : u ∉ us := (List.nodup_cons.mp hnd).1
    rw [ih (List.nodup_cons.mp hnd).2 _ e0 (fun u' hu' => by
      have hne2 : u' ≠ u := fun h => hnus (h ▸ hu')
      rw [setNode_other _ _ _ _ hne2]
      exact hH u' (List.mem_cons_of_mem u hu'))]
    refine congrArg some (Prod.ext (funext fun j => ?_) rfl)
    dsimp only
    by_cases hj : j = u
    · subst hj
      rw [if_neg hnus, setNode_same, if_pos (List.mem_cons_self j us)]
    · by_cases hjus : j ∈ us
      · rw [if_pos hjus, if_pos (List.mem_cons_of_mem u hjus), setNode_other _ _ _ _ hj]
      · rw [if_neg hjus, if_neg (by simp [hj, hjus]), setNode_other _ _ _ _ hj]

theorem calculateDeltaHidden_spec (net : Net) (b : ℕ) (Q : List ℕ)
    (hdown : (net b).downstream = Q)
    (hpres : ∀ d ∈ Q, (wlookup (net d).weights b).isSome = true) :
    calculateDeltaHidden net b
      = some ((net b).withDelta
          (sigmoidDerivative (net b).value *
            ((Q.map (fun d => (net d).delta * (wlookup (net d).weights b).getD 0)).sum))) := by
  unfold calculateDeltaHidden
  dsimp only
  rw [hdown, mapM_some _ (fun d => (net d).delta * (wlookup (net d).weights b).getD 0) Q
    (fun d hd => by rw [isSome_eq_some_getD _ 0 (hpres d hd)]; rfl), ← hdown]
  rfl

theorem adjustWeights_some (r : NodeRec) (b : ℕ) (adj : ℚ)
    (hpres : (wlookup r.weights b).isSome = true) :
    adjustWeights r b adj
      = some (r.withWeights (winsert r.weights b ((wlookup r.weights b).getD 0 + adj))) := by
  unfold adjustWeights
  rw [isSome_eq_some_getD _ 0 hpres]
  rfl

theorem updFold_cons (b : ℕ) (q : List ℕ) (d : ℕ) (H : Net) (r : NodeRec) (e0 : List WEvent)
    (h : adjustWeights (H d) b (1 / 20 * (H d).delta * (H b).value) = some r) :
    (d :: q).foldlM
      (fun acc d =>
        (adjustWeights (acc.1 d) b (1 / 20 * (acc.1 d).delta * (acc.1 b).value)).map
          (fun r => (setNode acc.1 d r,
            acc.2 ++ [⟨d, b, 1 / 20 * (acc.1 d).delta * (acc.1 b).value⟩])))
      (H, e0)
    = q.foldlM
      (fun acc d =>
        (adjustWeights (acc.1 d) b (1 / 20 * (acc.1 d).delta * (acc.1 b).value)).map
          (fun r => (setNode acc.1 d r,
            acc.2 ++ [⟨d, b, 1 / 20 * (acc.1 d).delta * (acc.1 b).value⟩])))
      (setNode H d r, e0 ++ [⟨d, b, 1 / 20 * (H d).delta * (H b).value⟩]) := by
  rw [List.foldlM_cons]
  dsimp only
  rw [h]
  rfl

theorem updateWeights_fold (b : ℕ) :
    ∀ q : List ℕ, q.Nodup → b ∉ q →
    ∀ (H : Net) (e0 : List WEvent),
    (∀ d ∈ q, (wlookup (H d).weights b).isSome = true) →
    q.foldlM
      (fun acc d =>
        (adjustWeights (acc.1 d) b (1 / 20 * (acc.1 d).delta * (acc.1 b).value)).map
          (fun r => (setNode acc.1 d r,
            acc.2 ++ [⟨d, b, 1 / 20 * (acc.1 d).delta * (acc.1 b).value⟩])))
      (H, e0)
    = some (fun j => if j ∈ q then
          (H j).withWeights (winsert (H j).weights b
            ((wlookup (H j).weights b).getD 0 + 1 / 20 * (H j).delta * (H b).value))
        else H j,
      e0 ++ q.map (fun d =>
        (⟨d, b, 1 / 20 * (H d).delta * (H b).value⟩ : WEvent))) := by
  intro q
  induction q with
  | nil =>
    intro _ _ H e0 _
    simp only [List.foldlM_nil, List.map_nil, List.append_nil]
    refine congrArg some (Prod.ext (funext fun j => by simp) rfl)
  | cons d q ih =>
    intro hnd hbq H e0 hpres
    have hbd : b ≠ d := fun h => hbq (h ▸ List.mem_cons_self d q)
    have hdq : d ∉ q := (List.nodup_cons.mp hnd).1
    have hstep := adjustWeights_some (H d) b (1 / 20 * (H d).delta * (H b).value)
      (hpres d (List.mem_cons_self d q))
    rw [updFold_cons b q d H _ e0 hstep]
    have hih := ih (List.nodup_cons.mp hnd).2 (fun h => hbq (List.mem_cons_of_mem d h))
      (setNode H d ((H d).withWeights (winsert (H d).weights b
        ((wlookup (H d).weights b).getD 0 + 1 / 20 * (H d).delta * (H b).value))))
      (e0 ++ ([⟨d, b, 1 / 20 * (H d).delta * (H b).value⟩] : List WEvent))
      (fun d' hd' => by
        have hne2 : d' ≠ d := fun h => hdq (h ▸ hd')
        rw [setNode_other _ _ _ _ hne2]
        exact hpres d' (List.mem_cons_of_mem d hd'))
    rw [hih]
    refine congrArg some (Prod.ext (funext fun j => ?_) ?_)
    · dsimp only
      by_cases hj : j = d
      · subst hj
        rw [if_neg hdq, setNode_same, if_pos (List.mem_cons_self j q)]
      · rw [setNode_other _ _ _ _ hj]
        by_cases hjq : j ∈ q
        · rw [if_pos hjq, if_pos (List.mem_cons_of_mem d hjq),
            setNode_other _ _ _ _ hbd]
        · rw [if_neg hjq, if_neg (by simp [hj, hjq])]
    · dsimp only
      rw [List.append_assoc, List.singleton_append]
      refine congrArg (fun t => e0 ++ t) ?_
      rw [List.map_cons]
      refine congrArg (fun t => _ :: t) ?_
      apply List.map_congr_left
      intro d' hd'
      have hne2 : d' ≠ d := fun h => hdq (h ▸ hd')
      rw [setNode_other _ _ _ _ hne2, setNode_other _ _ _ _ hbd]

theorem updateWeights_spec (G : Net) (b : ℕ) (Q : List ℕ)
    (hdown : (G b).downstream = Q) (hbQ : b ∉ Q) (hQnd : Q.Nodup)
    (hpres : ∀ d ∈ Q, (wlookup (G d).weights b).isSome = true) :
    updateWeights G b
      = some (fun j => if j ∈ Q then
            (G j).withWeights (winsert (G j).weights b
              ((wlookup (G j).weights b).getD 0 + 1 / 20 * (G j).delta * (G b).value))
          else G j,
        Q.map (fun d => (⟨d, b, 1 / 20 * (G d).delta * (G b).value⟩ : WEvent))) := by
  unfold updateWeights
  dsimp only
  rw [hdown]
  have h := updateWeights_fold b Q hQnd hbQ G [] hpres
  rw [List.nil_append] at h
  exact h

theorem bpChainShape_mono :
    ∀ (chain : List (List ℕ)) (Q : List ℕ) (net1 net2 : Net),
    (∀ x ∈ chain.flatten, (net2 x).downstream = (net1 x).downstream ∧
      (net2 x).referenceDown = (net1 x).referenceDown ∧
      (net2 x).upstream = (net1 x).upstream) →
    (∀ x k, (wlookup (net1 x).weights k).isSome = true →
      (wlookup (net2 x).weights k).isSome = true) →
    bpChainShape net1 Q chain → bpChainShape net2 Q chain := by
  intro chain
  induction chain with
  | nil => intro Q net1 net2 _ _ _; trivial
  | cons B rest ih =>
    intro Q net1 net2 hf hw h
    obtain ⟨hne, hnd, hfields, htail⟩ := h
    refine ⟨hne, hnd, ?_, ?_⟩
    · intro b hb
      have hx := hf b (by simp [hb])
      obtain ⟨h1, h2, h3, h4⟩ := hfields b hb
      exact ⟨hx.1.trans h1, hx.2.1.trans h2, hx.2.2.trans h3,
        fun d hd => hw d b (h4 d hd)⟩
    · exact ih B net1 net2
        (fun x hx => hf x (by rw [List.flatten_cons]; exact List.mem_append_right B hx)) hw htail

theorem bpCascade_agree :
    ∀ (chain : List (List ℕ)) (net1 net2 : Net) (Q : List ℕ),
    (∀ j ∈ Q, net1 j = net2 j) → (∀ j ∈ chain.flatten, net1 j = net2 j) →
    bpCascadeEvents net1 Q chain = bpCascadeEvents net2 Q chain
    ∧ ∀ j, (j ∈ Q ∨ j ∈ chain.flatten) →
        bpCascadeNet net1 Q chain j = bpCascadeNet net2 Q chain j := by
  intro chain
  induction chain with
  | nil =>
    intro net1 net2 Q hQ _
    refine ⟨rfl, ?_⟩
    intro j hj
    rcases hj with h | h
    · exact hQ j h
    · exact absurd h (by simp)
  | cons B rest ih =>
    intro net1 net2 Q hQ hf
    have hB : ∀ j ∈ B, net1 j = net2 j :=
      fun j hj => hf j (by rw [List.flatten_cons]; exact List.mem_append_left _ hj)
    have hR : ∀ j ∈ rest.flatten, net1 j = net2 j :=
      fun j hj => hf j (by rw [List.flatten_cons]; exact List.mem_append_right _ hj)
    have hfin : ∀ j, (j ∈ B ∨ j ∈ Q ∨ j ∈ rest.flatten) →
        bpFinalize net1 Q B j = bpFinalize net2 Q B j := by
      intro j hj
      by_cases hjB : j ∈ B
      · rw [bpFinalize_mem_B _ _ _ _ hjB, bpFinalize_mem_B _ _ _ _ hjB, hB j hjB]
        have hm : Q.map (fun d => (net1 d).delta * (wlookup (net1 d).weights j).getD 0)
            = Q.map (fun d => (net2 d).delta * (wlookup (net2 d).weights j).getD 0) := by
          apply List.map_congr_left
          intro d hd
          rw [hQ d hd]
        rw [hm]
      · by_cases hjQ : j ∈ Q
        · rw [bpFinalize_mem_Q _ _ _ _ hjB hjQ, bpFinalize_mem_Q _ _ _ _ hjB hjQ, hQ j hjQ]
          have hm : B.foldl (fun w k => winsert w k ((wlookup w k).getD 0
                + 1 / 20 * (net2 j).delta * (net1 k).value)) (net2 j).weights
              = B.foldl (fun w k => winsert w k ((wlookup w k).getD 0
                + 1 / 20 * (net2 j).delta * (net2 k).value)) (net2 j).weights := by
            apply List.foldl_ext
            intro w k hk
            rw [hB k hk]
          rw [hm]
        · rw [bpFinalize_not _ _ _ _ hjB hjQ, bpFinalize_not _ _ _ _ hjB hjQ]
          rcases hj with h | h | h
          · exact absurd h hjB
          · exact absurd h hjQ
          · exact hR j h
    have hrec := ih (bpFinalize net1 Q B) (bpFinalize net2 Q B) B
      (fun j hj => hfin j (Or.inl hj))
      (fun j hj => hfin j (Or.inr (Or.inr hj)))
    refine ⟨?_, ?_⟩
    · rw [bpCascadeEvents_cons, bpCascadeEvents_cons, hrec.1]
      refine congrArg (fun t => t ++ _) ?_
      refine congrArg List.flatten ?_
      apply List.map_congr_left
      intro b hb
      apply List.map_congr_left
      intro d hd
      rw [hQ d hd, hB b hb]
    · intro j hj
      rw [bpCascadeNet_cons, bpCascadeNet_cons]
      by_cases hjB : j ∈ B
      · exact hrec.2 j (Or.inl hjB)
      · by_cases hjR : j ∈ rest.flatten
        · exact hrec.2 j (Or.inr hjR)
        · rw [bpCascade_untouched rest _ B j hjB hjR,
            bpCascade_untouched rest _ B j hjB hjR]
          rcases hj with h | h
          · exact hfin j (Or.inr (Or.inl h))
          · rw [List.flatten_cons] at h
            rcases List.mem_append.mp h with h2 | h2
            · exact absurd h2 hjB
            · exact absurd h2 hjR

theorem bpCascade_congr :
    ∀ (chain : List (List ℕ)) (net1 net2 : Net) (Q : List ℕ),
    (∀ d ∈ Q, net1 d = net2 d) →
    (∀ j, j ∉ chain.flatten → net1 j = net2 j) →
    (∀ j ∈ chain.flatten,
      ((net1 j).withReportingDown 0).withDelta 0
        = ((net2 j).withReportingDown 0).withDelta 0) →
    bpCascadeNet net1 Q chain = bpCascadeNet net2 Q chain
    ∧ bpCascadeEvents net1 Q chain = bpCascadeEvents net2 Q chain := by
  intro chain
  induction chain with
  | nil =>
    intro net1 net2 Q _ hoff _
    exact ⟨funext fun j => hoff j (by simp), rfl⟩
  | cons B rest ih =>
    intro net1 net2 Q hQ hoff hon
    have hval : ∀ j ∈ (B :: rest).flatten, (net1 j).value = (net2 j).value := by
      intro j hj
      have h := congrArg NodeRec.value (hon j hj)
      simpa using h
    have hwts : ∀ j ∈ (B :: rest).flatten, (net1 j).weights = (net2 j).weights := by
      intro j hj
      have h := congrArg NodeRec.weights (hon j hj)
      simpa using h
    have hBf : ∀ b ∈ B, b ∈ (B :: rest).flatten :=
      fun b hb => by rw [List.flatten_cons]; exact List.mem_append_left _ hb
    have hfinB : ∀ j ∈ B, bpFinalize net1 Q B j = bpFinalize net2 Q B j := by
      intro j hj
      rw [bpFinalize_mem_B _ _ _ _ hj, bpFinalize_mem_B _ _ _ _ hj]
      have hm : Q.map (fun d => (net1 d).delta * (wlookup (net1 d).weights j).getD 0)
          = Q.map (fun d => (net2 d).delta * (wlookup (net2 d).weights j).getD 0) := by
        apply List.map_congr_left
        intro d hd
        rw [hQ d hd]
      rw [hm, hval j (hBf j hj)]
      have h := hon j (hBf j hj)
      calc ((net1 j).withReportingDown 0).withDelta
              (sigmoidDerivative (net2 j).value *
                ((Q.map (fun d => (net2 d).delta * (wlookup (net2 d).weights j).getD 0)).sum))
          = (((net1 j).withReportingDown 0).withDelta 0).withDelta
              (sigmoidDerivative (net2 j).value *
                ((Q.map (fun d => (net2 d).delta * (wlookup (net2 d).weights j).getD 0)).sum)) := rfl
        _ = (((net2 j).withReportingDown 0).withDelta 0).withDelta
              (sigmoidDerivative (net2 j).value *
                ((Q.map (fun d => (net2 d).delta * (wlookup (net2 d).weights j).getD 0)).sum)) := by rw [h]
        _ = ((net2 j).withReportingDown 0).withDelta
              (sigmoidDerivative (net2 j).value *
                ((Q.map (fun d => (net2 d).delta * (wlookup (net2 d).weights j).getD 0)).sum)) := rfl
    have hfin : ∀ j, j ∉ rest.flatten → bpFinalize net1 Q B j = bpFinalize net2 Q B j := by
      intro j hj
      by_cases hjB : j ∈ B
      · exact hfinB j hjB
      · by_cases hjQ : j ∈ Q
        · rw [bpFinalize_mem_Q _ _ _ _ hjB hjQ, bpFinalize_mem_Q _ _ _ _ hjB hjQ, hQ j hjQ]
          have hm : B.foldl (fun w k => winsert w k ((wlookup w k).getD 0
                + 1 / 20 * (net2 j).delta * (net1 k).value)) (net2 j).weights
              = B.foldl (fun w k => winsert w k ((wlookup w k).getD 0
                + 1 / 20 * (net2 j).delta * (net2 k).value)) (net2 j).weights := by
            apply List.foldl_ext
            intro w k hk
            rw [hval k (hBf k hk)]
          rw [hm]
        · rw [bpFinalize_not _ _ _ _ hjB hjQ, bpFinalize_not _ _ _ _ hjB hjQ]
          exact hoff j (by simp [hjB, hj])
    have hrec := ih (bpFinalize net1 Q B) (bpFinalize net2 Q B) B hfinB hfin
      (fun j hj => by
        by_cases hjB : j ∈ B
        · rw [hfinB j hjB]
        · by_cases hjQ : j ∈ Q
          · rw [bpFinalize_mem_Q _ _ _ _ hjB hjQ, bpFinalize_mem_Q _ _ _ _ hjB hjQ, hQ j hjQ]
            have hm : B.foldl (fun w k => winsert w k ((wlookup w k).getD 0
                  + 1 / 20 * (net2 j).delta * (net1 k).value)) (net2 j).weights
                = B.foldl (fun w k => winsert w k ((wlookup w k).getD 0
                  + 1 / 20 * (net2 j).delta * (net2 k).value)) (net2 j).weights := by
              apply List.foldl_ext
              intro w k hk
              rw [hval k (hBf k hk)]
            rw [hm]
          · rw [bpFinalize_not _ _ _ _ hjB hjQ, bpFinalize_not _ _ _ _ hjB hjQ]
            exact hon j (by rw [List.flatten_cons]; exact List.mem_append_right _ hj))
    refine ⟨?_, ?_⟩
    · rw [bpCascadeNet_cons, bpCascadeNet_cons]
      exact hrec.1
    · rw [bpCascadeEvents_cons, bpCascadeEvents_cons, hrec.2]
      refine congrArg (fun t => t ++ _) ?_
      refine congrArg List.flatten ?_
      apply List.map_congr_left
      intro b hb
      apply List.map_congr_left
      intro d hd
      rw [hQ d hd, hval b (hBf b hb)]

theorem dataReadyDownstream_one_cascade (sigma : ℚ → ℚ) (fuel : ℕ) (G : Net) (b s : ℕ)
    (Q U : List ℕ)
    (hs : s ∈ Q) (hdown : (G b).downstream = Q)
    (hmask : (G b).reportingDown ||| (1 <<< insIdx Q s) = (G b).referenceDown)
    (hup : (G b).upstream = U) (hbQ : b ∉ Q)
    (hpres : ∀ d ∈ Q, (wlookup (G d).weights b).isSome = true) :
    dataReadyDownstream sigma (fuel + 1) G b s
      = (U.foldlM (fun acc u => (dataReadyDownstream sigma fuel acc.1 u b).map
            (fun p => (p.1, acc.2 ++ p.2)))
          (setNode G b (((G b).withReportingDown 0).withDelta
            (sigmoidDerivative (G b).value *
              ((Q.map (fun d => (G d).delta * (wlookup (G d).weights b).getD 0)).sum))),
           ([] : List WEvent))).bind
        (fun p => (updateWeights p.1 b).map (fun q2 => (q2.1, p.2 ++ q2.2))) := by
  rw [dataReadyDownstream_succ]
  unfold dataReadyDownstreamF
  rw [checkIn_down_true (G b) Q s hs hdown hmask]
  dsimp only
  have hcd : calculateDeltaHidden (setNode G b ((G b).withReportingDown 0)) b
      = some (((G b).withReportingDown 0).withDelta
          (sigmoidDerivative (G b).value *
            ((Q.map (fun d => (G d).delta * (wlookup (G d).weights b).getD 0)).sum))) := by
    have h2 := calculateDeltaHidden_spec (setNode G b ((G b).withReportingDown 0)) b Q
      (by rw [setNode_same, withReportingDown_downstream, hdown])
      (fun d hd => by
        rw [setNode_other _ _ _ _ (fun (h : d = b) => hbQ (h ▸ hd))]
        exact hpres d hd)
    rw [setNode_same] at h2
    have hm : Q.map (fun d => ((setNode G b ((G b).withReportingDown 0)) d).delta *
          (wlookup ((setNode G b ((G b).withReportingDown 0)) d).weights b).getD 0)
        = Q.map (fun d => (G d).delta * (wlookup (G d).weights b).getD 0) := by
      apply List.map_congr_left
      intro d hd
      rw [setNode_other _ _ _ _ (fun (h : d = b) => hbQ (h ▸ hd))]
    rw [hm, withReportingDown_value] at h2
    exact h2
  rw [hcd]
  dsimp only
  rw [setNode_setNode, setNode_same, withDelta_upstream, withReportingDown_upstream, hup]
  cases hF : U.foldlM (fun acc u => (dataReadyDownstream sigma fuel acc.1 u b).map
      (fun p => (p.1, acc.2 ++ p.2)))
      (setNode G b (((G b).withReportingDown 0).withDelta
        (sigmoidDerivative (G b).value *
          ((Q.map (fun d => (G d).delta * (wlookup (G d).weights b).getD 0)).sum))),
       ([] : List WEvent)) with
  | none => rfl
  | some p =>
    obtain ⟨net3, tr⟩ := p
    rw [Option.some_bind]
    dsimp only
    cases hU : updateWeights net3 b with
    | none => rfl
    | some q2 =>
      obtain ⟨net4, tr2⟩ := q2
      rfl

theorem bpFoldLast (sigma : ℚ → ℚ) (fuel : ℕ) (Q : List ℕ) (s : ℕ)
    (hs : s ∈ Q) (hQnd : Q.Nodup) :
    ∀ us : List ℕ, us.Nodup → (∀ u ∈ us, u ∉ Q) →
    ∀ (H : Net) (e0 : List WEvent),
    (∀ u ∈ us, (H u).downstream = Q ∧ (H u).upstream = [] ∧
      (H u).reportingDown ||| (1 <<< insIdx Q s) = (H u).referenceDown ∧
      (∀ d ∈ Q, (wlookup (H d).weights u).isSome = true)) →
    us.foldlM (fun acc u => (dataReadyDownstream sigma (fuel + 1) acc.1 u s).map
        (fun p => (p.1, acc.2 ++ p.2))) (H, e0)
      = some (bpFinalize H Q us,
          e0 ++ (us.map (fun u => Q.map (fun d =>
            (⟨d, u, 1 / 20 * (H d).delta * (H u).value⟩ : WEvent)))).flatten) := by
  intro us
  induction us with
  | nil =>
    intro _ _ H e0 _
    simp only [List.foldlM_nil, List.map_nil, List.flatten_nil, List.append_nil]
    refine congrArg some (Prod.ext (funext fun j => ?_) rfl)
    show H j = bpFinalize H Q [] j
    unfold bpFinalize
    rw [if_neg (List.not_mem_nil j)]
    by_cases hjQ : j ∈ Q
    · rw [if_pos hjQ]
      rfl
    · rw [if_neg hjQ]
  | cons u us ih =>
    intro hnd hdisj H e0 hH
    obtain ⟨hdown, hup, hmask, hpres⟩ := hH u (List.mem_cons_self u us)
    have huQ : u ∉ Q := hdisj u (List.mem_cons_self u us)
    have hunus : u ∉ us := (List.nodup_cons.mp hnd).1
    have hone := dataReadyDownstream_one_cascade sigma fuel H u s Q [] hs hdown hmask hup
      huQ hpres
    rw [List.foldlM_nil] at hone
    have hGpu : ∀ d ∈ Q, (setNode H u (((H u).withReportingDown 0).withDelta
        (sigmoidDerivative (H u).value *
          ((Q.map (fun d => (H d).delta * (wlookup (H d).weights u).getD 0)).sum))) d)
        = H d := fun d hd => setNode_other _ _ _ _ (fun h => huQ (h ▸ hd))
    have hUspec := updateWeights_spec
      (setNode H u (((H u).withReportingDown 0).withDelta
        (sigmoidDerivative (H u).value *
          ((Q.map (fun d => (H d).delta * (wlookup (H d).weights u).getD 0)).sum))))
      u Q
      (by rw [setNode_same, withDelta_downstream, withReportingDown_downstream, hdown])
      huQ hQnd
      (fun d hd => by rw [hGpu d hd]; exact hpres d hd)
    have hstep : dataReadyDownstream sigma (fuel + 1) H u s
        = some (fun j => if j ∈ Q then
              (H j).withWeights (winsert (H j).weights u
                ((wlookup (H j).weights u).getD 0 + 1 / 20 * (H j).delta * (H u).value))
            else setNode H u (((H u).withReportingDown 0).withDelta
              (sigmoidDerivative (H u).value *
                ((Q.map (fun d => (H d).delta * (wlookup (H d).weights u).getD 0)).sum))) j,
          [] ++ Q.map (fun d =>
            (⟨d, u, 1 / 20 * (H d).delta * (H u).value⟩ : WEvent))) := by
      rw [hone]
      show (updateWeights (setNode H u (((H u).withReportingDown 0).withDelta
          (sigmoidDerivative (H u).value *
            ((Q.map (fun d => (H d).delta * (wlookup (H d).weights u).getD 0)).sum)))) u).map
          (fun q2 => (q2.1, [] ++ q2.2)) = _
      rw [hUspec]
      refine congrArg some (Prod.ext (funext fun j => ?_) ?_)
      · dsimp only
        by_cases hjQ : j ∈ Q
        · rw [if_pos hjQ, if_pos hjQ, hGpu j hjQ, setNode_same, withDelta_value,
            withReportingDown_value]
        · rw [if_neg hjQ, if_neg hjQ]
      · dsimp only
        refine congrArg (fun t => [] ++ t) ?_
        apply List.map_congr_left
        intro d hd
        rw [hGpu d hd, setNode_same, withDelta_value, withReportingDown_value]
    rw [bpFoldDown_cons sigma (fuel + 1) s us u H _ _ e0 hstep]
    set G2 : Net := fun j => if j ∈ Q then
        (H j).withWeights (winsert (H j).weights u
          ((wlookup (H j).weights u).getD 0 + 1 / 20 * (H j).delta * (H u).value))
      else setNode H u (((H u).withReportingDown 0).withDelta
        (sigmoidDerivative (H u).value *
          ((Q.map (fun d => (H d).delta * (wlookup (H d).weights u).getD 0)).sum))) j
      with hG2
    have hG2Q : ∀ d ∈ Q, G2 d = (H d).withWeights (winsert (H d).weights u
        ((wlookup (H d).weights u).getD 0 + 1 / 20 * (H d).delta * (H u).value)) := by
      intro d hd
      rw [hG2]
      dsimp only
      rw [if_pos hd]
    have hG2u : G2 u = ((H u).withReportingDown 0).withDelta
        (sigmoidDerivative (H u).value *
          ((Q.map (fun d => (H d).delta * (wlookup (H d).weights u).getD 0)).sum)) := by
      rw [hG2]
      dsimp only
      rw [if_neg huQ, setNode_same]
    have hG2x : ∀ j, j ∉ Q → j ≠ u → G2 j = H j := by
      intro j hjQ hju
      rw [hG2]
      dsimp only
      rw [if_neg hjQ, setNode_other _ _ _ _ hju]
    have hrec := ih (List.nodup_cons.mp hnd).2
      (fun x hx => hdisj x (List.mem_cons_of_mem u hx)) G2
      (e0 ++ ([] ++ Q.map (fun d =>
        (⟨d, u, 1 / 20 * (H d).delta * (H u).value⟩ : WEvent))))
      (fun x hx => by
        have hxQ : x ∉ Q := hdisj x (List.mem_cons_of_mem u hx)
        have hxu : x ≠ u := fun h => hunus (h ▸ hx)
        rw [hG2x x hxQ hxu]
        obtain ⟨h1, h2, h3, h4⟩ := hH x (List.mem_cons_of_mem u hx)
        refine ⟨h1, h2, h3, fun d hd => ?_⟩
        rw [hG2Q d hd, withWeights_weights, wlookup_winsert_other _ _ _ _ hxu]
        exact h4 d hd)
    rw [hrec]
    refine congrArg some (Prod.ext (funext fun j => ?_) ?_)
    · dsimp only
      by_cases hjus : j ∈ us
      · have hjQ : j ∉ Q := hdisj j (List.mem_cons_of_mem u hjus)
        have hju : j ≠ u := fun h => hunus (h ▸ hjus)
        rw [bpFinalize_mem_B _ _ _ _ hjus,
          bpFinalize_mem_B _ _ _ _ (List.mem_cons_of_mem u hjus), hG2x j hjQ hju]
        have hm : Q.map (fun d => (G2 d).delta * (wlookup (G2 d).weights j).getD 0)
            = Q.map (fun d => (H d).delta * (wlookup (H d).weights j).getD 0) := by
          apply List.map_congr_left
          intro d hd
          rw [hG2Q d hd, withWeights_delta, withWeights_weights,
            wlookup_winsert_other _ _ _ _ hju]
        rw [hm]
      · by_cases hju : j = u
        · subst hju
          rw [bpFinalize_not _ _ _ _ hjus huQ, hG2u,
            bpFinalize_mem_B _ _ _ _ (List.mem_cons_self j us)]
        · by_cases hjQ : j ∈ Q
          · rw [bpFinalize_mem_Q _ _ _ _ hjus hjQ,
              bpFinalize_mem_Q _ _ _ _ (by simp [hjus, hju]) hjQ, hG2Q j hjQ,
              withWeights_weights, withWeights_delta, List.foldl_cons]
            have hm : us.foldl (fun w k => winsert w k ((wlookup w k).getD 0
                  + 1 / 20 * (H j).delta * (G2 k).value))
                (winsert (H j).weights u ((wlookup (H j).weights u).getD 0
                  + 1 / 20 * (H j).delta * (H u).value))
                = us.foldl (fun w k => winsert w k ((wlookup w k).getD 0
                  + 1 / 20 * (H j).delta * (H k).value))
                (winsert (H j).weights u ((wlookup (H j).weights u).getD 0
                  + 1 / 20 * (H j).delta * (H u).value)) := by
              apply List.foldl_ext
              intro w k hk
              rw [hG2x k (hdisj k (List.mem_cons_of_mem u hk))
                (fun h => hunus (h ▸ hk))]
            rw [hm]
            rfl
          · rw [bpFinalize_not _ _ _ _ hjus hjQ,
              bpFinalize_not _ _ _ _ (by simp [hjus, hju]) hjQ, hG2x j hjQ hju]
    · dsimp only
      rw [List.map_cons, List.flatten_cons, List.nil_append, List.append_assoc]
      refine congrArg (fun t => e0 ++ (Q.map _ ++ t)) ?_
      refine congrArg List.flatten ?_
      apply List.map_congr_left
      intro x hx
      apply List.map_congr_left
      intro d hd
      have hxQ : x ∉ Q := hdisj x (List.mem_cons_of_mem u hx)
      have hxu : x ≠ u := fun h => hunus (h ▸ hx)
      rw [hG2Q d hd, withWeights_delta, hG2x x hxQ hxu]

theorem winsert_isSome_pres (w : List (ℕ × ℚ)) (i : ℕ) (v : ℚ) (k : ℕ)
    (h : (wlookup w k).isSome = true) : (wlookup (winsert w i v) k).isSome = true := by
  by_cases hk : k = i
  · subst hk
    rw [wlookup_winsert_self]
    rfl
  · rw [wlookup_winsert_other _ _ _ _ hk]
    exact h

theorem fireBack (sigma : ℚ → ℚ) :
    ∀ (rest : List (List ℕ)) (fuel : ℕ), rest.length ≤ fuel →
    ∀ (B Q : List ℕ) (s : ℕ) (H : Net) (e0 : List WEvent),
    s ∈ Q → Q.Nodup →
    ((B :: rest).flatten).Nodup →
    (∀ x ∈ (B :: rest).flatten, x ∉ Q) →
    bpChainShape H Q (B :: rest) →
    (∀ b ∈ B, (H b).reportingDown ||| (1 <<< insIdx Q s) = (H b).referenceDown) →
    (∀ X ∈ rest, ∀ x ∈ X, (H x).reportingDown = 0) →
    ∃ tr,
      B.foldlM (fun acc u => (dataReadyDownstream sigma (fuel + 1) acc.1 u s).map
          (fun p => (p.1, acc.2 ++ p.2))) (H, e0)
        = some (bpCascadeNet H Q (B :: rest), e0 ++ tr)
      ∧ tr.Perm (bpCascadeEvents H Q (B :: rest)) := by
  intro rest
  induction rest with
  | nil =>
    intro fuel _ B Q s H e0 hs hQnd hnd hdisjQ hshape hmask _
    obtain ⟨hBne, hBnd, hfldB, -⟩ := hshape
    refine ⟨(B.map (fun u => Q.map (fun d =>
      (⟨d, u, 1 / 20 * (H d).delta * (H u).value⟩ : WEvent)))).flatten, ?_, ?_⟩
    · exact bpFoldLast sigma fuel Q s hs hQnd B hBnd
        (fun u hu => hdisjQ u (by simp [hu])) H e0
        (fun u hu => ⟨(hfldB u hu).1, (hfldB u hu).2.2.1, hmask u hu,
          (hfldB u hu).2.2.2⟩)
    · rw [bpCascadeEvents_cons, bpCascadeEvents_nil, List.append_nil]
  | cons B2 rest2 ih =>
    intro fuel hfuel B Q s H e0 hs hQnd hnd hdisjQ hshape hmask hmask0
    obtain ⟨hBne, hBnd, hfldB, hshapeB⟩ := hshape
    have hBfacts := hshapeB
    obtain ⟨hB2ne, hB2nd, hfldB2, hshape2⟩ := hBfacts
    obtain ⟨f', rfl⟩ : ∃ f', fuel = f' + 1 := ⟨fuel - 1, by simp at hfuel; omega⟩
    have hflat : ((B :: B2 :: rest2).flatten) = B ++ (B2 ++ rest2.flatten) := by
      simp [List.flatten_cons]
    rw [hflat] at hnd
    obtain ⟨hBnd2, hndBR, hdisjB⟩ := List.nodup_append.mp hnd
    obtain ⟨hB2nd2, hndR, hdisjB2⟩ := List.nodup_append.mp hndBR
    have hB2notB : ∀ x ∈ B2, x ∉ B := fun x hx hb => hdisjB hb (List.mem_append_left _ hx)
    have hRnotB : ∀ x ∈ rest2.flatten, x ∉ B :=
      fun x hx hb => hdisjB hb (List.mem_append_right _ hx)
    have hRnotB2 : ∀ x ∈ rest2.flatten, x ∉ B2 := fun x hx hb => hdisjB2 hb hx
    have hBQ : ∀ b ∈ B, b ∉ Q :=
      fun b hb => hdisjQ b (by rw [hflat]; exact List.mem_append_left _ hb)
    have hB2Q : ∀ x ∈ B2, x ∉ Q :=
      fun x hx => hdisjQ x (by rw [hflat]; exact List.mem_append_right _ (List.mem_append_left _ hx))
    have hRQ : ∀ x ∈ rest2.flatten, x ∉ Q :=
      fun x hx => hdisjQ x (by rw [hflat]; exact List.mem_append_right _ (List.mem_append_right _ hx))
    suffices hinner : ∀ (q SA : List ℕ), B = SA ++ q → q ≠ [] →
        ∀ (G : Net) (e0 : List WEvent),
        (∀ b ∈ q, (G b).downstream = Q ∧
          (G b).reportingDown ||| (1 <<< insIdx Q s) = (G b).referenceDown ∧
          (G b).upstream = B2 ∧
          (∀ d ∈ Q, (wlookup (G d).weights b).isSome = true)) →
        (∀ x ∈ B2, (G x).downstream = B ∧ (G x).referenceDown = 2 ^ B.length - 1 ∧
          (G x).reportingDown = maskOf B SA ∧ (G x).upstream = headList rest2) →
        bpChainShape G B (B2 :: rest2) →
        (∀ X ∈ rest2, ∀ x ∈ X, (G x).reportingDown = 0) →
        ∃ tr,
          q.foldlM (fun acc u => (dataReadyDownstream sigma ((f' + 1) + 1) acc.1 u s).map
              (fun p => (p.1, acc.2 ++ p.2))) (G, e0)
            = some (bpCascadeNet (bpFinalize G Q q) B (B2 :: rest2), e0 ++ tr)
          ∧ tr.Perm ((q.map (fun b => Q.map (fun d =>
                (⟨d, b, 1 / 20 * (G d).delta * (G b).value⟩ : WEvent)))).flatten
              ++ bpCascadeEvents (bpFinalize G Q q) B (B2 :: rest2)) by
      have happ := hinner B [] rfl hBne H e0
        (fun b hb => ⟨(hfldB b hb).1, hmask b hb, (hfldB b hb).2.2.1, (hfldB b hb).2.2.2⟩)
        (fun x hx => ⟨(hfldB2 x hx).1, (hfldB2 x hx).2.1,
          (hmask0 B2 (List.mem_cons_self B2 rest2) x hx).trans rfl, (hfldB2 x hx).2.2.1⟩)
        hshapeB
        (fun X hX x hx => hmask0 X (List.mem_cons_of_mem B2 hX) x hx)
      exact happ
    intro q
    induction q with
    | nil => intro _ _ hq; exact absurd rfl hq
    | cons b q2 ihq =>
      intro SA hB _ G e0 hGq hGB2 hGchain hGmask0
      have hbB : b ∈ B := hB ▸ List.mem_append_right SA (List.mem_cons_self b q2)
      obtain ⟨hdownb, hmaskb, hupb, hpresb⟩ := hGq b (List.mem_cons_self b q2)
      have hbQ2 : b ∉ Q := hBQ b hbB
      have hbB2 : b ∉ B2 := fun h => hB2notB b h hbB
      have hnodupB := hBnd
      rw [hB] at hnodupB
      have hbSA : b ∉ SA := by
        intro h
        have h2 := List.nodup_append.mp hnodupB
        exact h2.2.2 h (List.mem_cons_self b q2)
      have hbq2 : b ∉ q2 := by
        have h2 := List.nodup_append.mp hnodupB
        exact (List.nodup_cons.mp h2.2.1).1
      have hone := dataReadyDownstream_one_cascade sigma (f' + 1) G b s Q B2
        hs hdownb hmaskb hupb hbQ2 hpresb
      set K := ((G b).withReportingDown 0).withDelta
        (sigmoidDerivative (G b).value *
          ((Q.map (fun d => (G d).delta * (wlookup (G d).weights b).getD 0)).sum)) with hK
      cases q2 with
      | nil =>
        -- b is the last member of B : the whole deeper chain fires, then b updates
        have hBeq : B = SA ++ [b] := hB
        have hdeep := ih f' (by simp at hfuel; omega) B2 B b (setNode G b K) []
          hbB hBnd
          (by rw [List.flatten_cons]; exact hndBR)
          (by
            intro x hx
            rw [List.flatten_cons] at hx
            rcases List.mem_append.mp hx with h | h
            · exact hB2notB x h
            · exact hRnotB x h)
          (by
            apply bpChainShape_mono (B2 :: rest2) B G
            · intro x hx
              have hxb : x ≠ b := by
                rw [List.flatten_cons] at hx
                rcases List.mem_append.mp hx with h | h
                · exact fun he => hB2notB x h (he ▸ hbB)
                · exact fun he => hRnotB x h (he ▸ hbB)
              rw [setNode_other _ _ _ _ hxb]
              exact ⟨rfl, rfl, rfl⟩
            · intro x k hk
              by_cases hxb : x = b
              · subst hxb
                rw [setNode_same, hK, withDelta_weights, withReportingDown_weights]
                exact hk
              · rw [setNode_other _ _ _ _ hxb]
                exact hk
            · exact hGchain)
          (by
            intro x hx
            have hxb : x ≠ b := fun h => hB2notB x hx (h ▸ hbB)
            rw [setNode_other _ _ _ _ hxb]
            obtain ⟨-, href, hrep, -⟩ := hGB2 x hx
            rw [hrep, href, ← maskOf_append_one, ← hBeq]
            exact maskOf_eq_ref B B hBnd (fun u hu => hu) (fun u hu => hu))
          (by
            intro X hX x hx
            have hxb : x ≠ b := fun h =>
              hRnotB x (List.mem_flatten.mpr ⟨X, hX, hx⟩) (h ▸ hbB)
            rw [setNode_other _ _ _ _ hxb]
            exact hGmask0 X hX x hx)
        obtain ⟨trD, hdeep1, hdeepP⟩ := hdeep
        have huntouched : ∀ d ∈ Q, bpCascadeNet (setNode G b K) B (B2 :: rest2) d = G d := by
          intro d hd
          rw [bpCascade_untouched (B2 :: rest2) _ B d (fun h => hBQ d h hd)
            (by
              rw [List.flatten_cons]
              intro h
              rcases List.mem_append.mp h with h2 | h2
              · exact hB2Q d h2 hd
              · exact hRQ d h2 hd),
            setNode_other _ _ _ _ (fun (h : d = b) => hbQ2 (h ▸ hd))]
        have hU := updateWeights_spec (bpCascadeNet (setNode G b K) B (B2 :: rest2)) b Q
          (by rw [bpCascade_downstream, setNode_same, hK, withDelta_downstream,
            withReportingDown_downstream, hdownb])
          hbQ2 hQnd
          (fun d hd => by rw [huntouched d hd]; exact hpresb d hd)
        have hval3 : (bpCascadeNet (setNode G b K) B (B2 :: rest2) b).value = (G b).value := by
          rw [bpCascade_value, setNode_same, hK, withDelta_value, withReportingDown_value]
        have hfa : dataReadyDownstream sigma ((f' + 1) + 1) G b s
            = some ((fun j => if j ∈ Q then
                  (G j).withWeights (winsert (G j).weights b
                    ((wlookup (G j).weights b).getD 0 + 1 / 20 * (G j).delta * (G b).value))
                else bpCascadeNet (setNode G b K) B (B2 :: rest2) j),
              ([] ++ trD) ++ Q.map (fun d =>
                (⟨d, b, 1 / 20 * (G d).delta * (G b).value⟩ : WEvent))) := by
          rw [hone, hdeep1]
          show (updateWeights (bpCascadeNet (setNode G b K) B (B2 :: rest2)) b).map
              (fun q2 => (q2.1, ([] ++ trD) ++ q2.2)) = _
          rw [hU]
          refine congrArg some (Prod.ext (funext fun j => ?_) ?_)
          · dsimp only
            by_cases hjQ : j ∈ Q
            · rw [if_pos hjQ, if_pos hjQ, huntouched j hjQ, hval3]
            · rw [if_neg hjQ, if_neg hjQ]
          · dsimp only
            refine congrArg (fun t => ([] ++ trD) ++ t) ?_
            apply List.map_congr_left
            intro d hd
            rw [huntouched d hd, hval3]
        refine ⟨([] ++ trD) ++ Q.map (fun d =>
          (⟨d, b, 1 / 20 * (G d).delta * (G b).value⟩ : WEvent)), ?_, ?_⟩
        · rw [bpFoldDown_cons sigma ((f' + 1) + 1) s [] b G _ _ e0 hfa, List.foldlM_nil]
          refine congrArg some (Prod.ext ?_ rfl)
          funext j
          have hagree := bpCascade_agree (B2 :: rest2) (setNode G b K)
            (bpFinalize G Q [b]) B
            (fun x hx => by
              by_cases hxb : x = b
              · subst hxb
                rw [setNode_same, bpFinalize_mem_B _ _ _ _ (List.mem_singleton_self x), hK]
              · rw [setNode_other _ _ _ _ hxb,
                  bpFinalize_not _ _ _ _ (by simp [hxb]) (hBQ x hx)]
            )
            (fun x hx => by
              have hxb : x ≠ b := by
                rw [List.flatten_cons] at hx
                rcases List.mem_append.mp hx with h | h
                · exact fun he => hB2notB x h (he ▸ hbB)
                · exact fun he => hRnotB x h (he ▸ hbB)
              have hxQ : x ∉ Q := by
                rw [List.flatten_cons] at hx
                rcases List.mem_append.mp hx with h | h
                · exact hB2Q x h
                · exact hRQ x h
              rw [setNode_other _ _ _ _ hxb,
                bpFinalize_not _ _ _ _ (by simp [hxb]) hxQ])
          dsimp only
          by_cases hjQ : j ∈ Q
          · rw [if_pos hjQ]
            rw [bpCascade_untouched (B2 :: rest2) _ B j (fun h => hBQ j h hjQ)
              (by
                rw [List.flatten_cons]
                intro h
                rcases List.mem_append.mp h with h2 | h2
                · exact hB2Q j h2 hjQ
                · exact hRQ j h2 hjQ),
              bpFinalize_mem_Q _ _ _ _ (by
                simp only [List.mem_singleton]
                exact fun h => hbQ2 (h ▸ hjQ)) hjQ]
            rfl
          · rw [if_neg hjQ]
            by_cases hjreg : j ∈ B ∨ j ∈ (B2 :: rest2).flatten
            · exact hagree.2 j hjreg
            · push_neg at hjreg
              rw [bpCascade_untouched (B2 :: rest2) _ B j hjreg.1 hjreg.2,
                bpCascade_untouched (B2 :: rest2) _ B j hjreg.1 hjreg.2,
                setNode_other _ _ _ _ (fun (h : j = b) => hjreg.1 (h ▸ hbB)),
                bpFinalize_not _ _ _ _ (by
                  simp only [List.mem_singleton]
                  exact fun h => hjreg.1 (h ▸ hbB)) hjQ]
        · have hagree := bpCascade_agree (B2 :: rest2) (setNode G b K)
            (bpFinalize G Q [b]) B
            (fun x hx => by
              by_cases hxb : x = b
              · subst hxb
                rw [setNode_same, bpFinalize_mem_B _ _ _ _ (List.mem_singleton_self x), hK]
              · rw [setNode_other _ _ _ _ hxb,
                  bpFinalize_not _ _ _ _ (by simp [hxb]) (hBQ x hx)])
            (fun x hx => by
              have hxb : x ≠ b := by
                rw [List.flatten_cons] at hx
                rcases List.mem_append.mp hx with h | h
                · exact fun he => hB2notB x h (he ▸ hbB)
                · exact fun he => hRnotB x h (he ▸ hbB)
              have hxQ : x ∉ Q := by
                rw [List.flatten_cons] at hx
                rcases List.mem_append.mp hx with h | h
                · exact hB2Q x h
                · exact hRQ x h
              rw [setNode_other _ _ _ _ hxb,
                bpFinalize_not _ _ _ _ (by simp [hxb]) hxQ])
          rw [List.map_cons, List.map_nil, List.flatten_cons, List.flatten_nil,
            List.append_nil, List.nil_append]
          refine List.Perm.trans (List.perm_append_comm) ?_
          refine List.Perm.append_left _ ?_
          rw [← hagree.1]
          exact hdeepP
      | cons b2 q3 =>
        -- b is not the last member of B : only the masks of B2 advance, then b updates
        have hb2B : b2 ∈ B := hB ▸ List.mem_append_right SA
          (List.mem_cons_of_mem b (List.mem_cons_self b2 q3))
        have hb2n : b2 ∉ SA ++ [b] := by
          intro h
          rcases List.mem_append.mp h with h | h
          · have h2 := List.nodup_append.mp hnodupB
            exact h2.2.2 h (List.mem_cons_of_mem b (List.mem_cons_self b2 q3))
          · exact hbq2 ((List.mem_singleton.mp h) ▸ List.mem_cons_self b2 q3)
        have hpart := bpFoldUps_adv sigma f' B b hbB (maskOf B SA) (2 ^ B.length - 1)
          (by
            rw [← maskOf_append_one]
            exact maskOf_ne_ref B (SA ++ [b]) hBnd
              (by
                intro u hu
                rcases List.mem_append.mp hu with h | h
                · exact hB ▸ List.mem_append_left _ h
                · rw [List.mem_singleton.mp h]; exact hbB)
              b2 hb2B hb2n)
          B2 hB2nd (setNode G b K) []
          (by
            intro x hx
            have hxb : x ≠ b := fun h => hB2notB x hx (h ▸ hbB)
            rw [setNode_other _ _ _ _ hxb]
            obtain ⟨hd2, href, hrep, -⟩ := hGB2 x hx
            exact ⟨hd2, hrep, href⟩)
        set AdvH : Net := fun j => if j ∈ B2 then
            ((setNode G b K j).withReportingDown (maskOf B SA ||| (1 <<< insIdx B b)))
          else setNode G b K j with hAdvH
        have hAdvQ : ∀ d ∈ Q, AdvH d = G d := by
          intro d hd
          rw [hAdvH]
          dsimp only
          rw [if_neg (fun h => hB2Q d h hd),
            setNode_other _ _ _ _ (fun (h : d = b) => hbQ2 (h ▸ hd))]
        have hAdvb : AdvH b = K := by
          rw [hAdvH]
          dsimp only
          rw [if_neg hbB2, setNode_same]
        have hAdvB2 : ∀ x ∈ B2, AdvH x
            = (G x).withReportingDown (maskOf B (SA ++ [b])) := by
          intro x hx
          rw [hAdvH]
          dsimp only
          rw [if_pos hx, setNode_other _ _ _ _ (fun (h : x = b) => hB2notB x hx (h ▸ hbB)),
            maskOf_append_one]
        have hAdvx : ∀ j, j ∉ B2 → j ≠ b → AdvH j = G j := by
          intro j hjB2 hjb
          rw [hAdvH]
          dsimp only
          rw [if_neg hjB2, setNode_other _ _ _ _ hjb]
        have hU := updateWeights_spec AdvH b Q
          (by rw [hAdvb, hK, withDelta_downstream, withReportingDown_downstream, hdownb])
          hbQ2 hQnd
          (fun d hd => by rw [hAdvQ d hd]; exact hpresb d hd)
        have hvalb : (AdvH b).value = (G b).value := by
          rw [hAdvb, hK, withDelta_value, withReportingDown_value]
        have hfa : dataReadyDownstream sigma ((f' + 1) + 1) G b s
            = some ((fun j => if j ∈ Q then
                  (G j).withWeights (winsert (G j).weights b
                    ((wlookup (G j).weights b).getD 0 + 1 / 20 * (G j).delta * (G b).value))
                else AdvH j),
              [] ++ Q.map (fun d =>
                (⟨d, b, 1 / 20 * (G d).delta * (G b).value⟩ : WEvent))) := by
          rw [hone, hpart]
          show (updateWeights AdvH b).map (fun q2 => (q2.1, ([] : List WEvent) ++ q2.2)) = _
          rw [hU]
          refine congrArg some (Prod.ext (funext fun j => ?_) ?_)
          · dsimp only
            by_cases hjQ : j ∈ Q
            · rw [if_pos hjQ, if_pos hjQ, hAdvQ j hjQ, hvalb]
            · rw [if_neg hjQ, if_neg hjQ]
          · dsimp only
            refine congrArg (fun t => ([] : List WEvent) ++ t) ?_
            apply List.map_congr_left
            intro d hd
            rw [hAdvQ d hd, hvalb]
        set G2 : Net := fun j => if j ∈ Q then
            (G j).withWeights (winsert (G j).weights b
              ((wlookup (G j).weights b).getD 0 + 1 / 20 * (G j).delta * (G b).value))
          else AdvH j with hG2
        have hG2Q : ∀ d ∈ Q, G2 d = (G d).withWeights (winsert (G d).weights b
            ((wlookup (G d).weights b).getD 0 + 1 / 20 * (G d).delta * (G b).value)) := by
          intro d hd
          rw [hG2]
          dsimp only
          rw [if_pos hd]
        have hG2b : G2 b = K := by
          rw [hG2]
          dsimp only
          rw [if_neg hbQ2, hAdvb]
        have hG2B2 : ∀ x ∈ B2, G2 x = (G x).withReportingDown (maskOf B (SA ++ [b])) := by
          intro x hx
          rw [hG2]
          dsimp only
          rw [if_neg (fun h => hB2Q x hx h), hAdvB2 x hx]
        have hG2x : ∀ j, j ∉ Q → j ∉ B2 → j ≠ b → G2 j = G j := by
          intro j hjQ hjB2 hjb
          rw [hG2]
          dsimp only
          rw [if_neg hjQ, hAdvx j hjB2 hjb]
        rw [bpFoldDown_cons sigma ((f' + 1) + 1) s (b2 :: q3) b G _ _ e0 hfa]
        have hq3B : ∀ x ∈ b2 :: q3, x ∈ B := fun x hx =>
          hB ▸ List.mem_append_right SA (List.mem_cons_of_mem b hx)
        have hq3b : ∀ x ∈ b2 :: q3, x ≠ b := fun x hx h => hbq2 (h ▸ hx)
        have hrest := ihq (SA ++ [b])
          (by rw [← List.append_cons]; exact hB)
          (by simp)
          G2
          (e0 ++ ([] ++ Q.map (fun d =>
            (⟨d, b, 1 / 20 * (G d).delta * (G b).value⟩ : WEvent))))
          (fun b' hb' => by
            have hb'B : b' ∈ B := hq3B b' hb'
            have hb'b : b' ≠ b := hq3b b' hb'
            have hb'Q : b' ∉ Q := hBQ b' hb'B
            have hb'B2 : b' ∉ B2 := fun h => hB2notB b' h hb'B
            obtain ⟨h1, h2, h3, h4⟩ := hGq b' (List.mem_cons_of_mem b hb')
            rw [hG2x b' hb'Q hb'B2 hb'b]
            refine ⟨h1, h2, h3, fun d hd => ?_⟩
            rw [hG2Q d hd, withWeights_weights]
            exact winsert_isSome_pres _ _ _ _ (h4 d hd))
          (fun x hx => by
            rw [hG2B2 x hx]
            obtain ⟨h1, h2, -, h4⟩ := hGB2 x hx
            refine ⟨?_, ?_, ?_, ?_⟩
            · rw [withReportingDown_downstream]; exact h1
            · rw [withReportingDown_referenceDown]; exact h2
            · rw [withReportingDown_reportingDown]
            · rw [withReportingDown_upstream]; exact h4)
          (by
            apply bpChainShape_mono (B2 :: rest2) B G
            · intro x hx
              rw [List.flatten_cons] at hx
              rcases List.mem_append.mp hx with h | h
              · rw [hG2B2 x h]
                refine ⟨?_, ?_, ?_⟩
                · rw [withReportingDown_downstream]
                · rw [withReportingDown_referenceDown]
                · rw [withReportingDown_upstream]
              · have hxB2 : x ∉ B2 := hRnotB2 x h
                have hxb : x ≠ b := fun he => hRnotB x h (he ▸ hbB)
                have hxQ : x ∉ Q := hRQ x h
                rw [hG2x x hxQ hxB2 hxb]
                exact ⟨rfl, rfl, rfl⟩
            · intro x k hk
              by_cases hxQ : x ∈ Q
              · rw [hG2Q x hxQ, withWeights_weights]
                exact winsert_isSome_pres _ _ _ _ hk
              · by_cases hxB2 : x ∈ B2
                · rw [hG2B2 x hxB2, withReportingDown_weights]
                  exact hk
                · by_cases hxb : x = b
                  · subst hxb
                    rw [hG2b, hK, withDelta_weights, withReportingDown_weights]
                    exact hk
                  · rw [hG2x x hxQ hxB2 hxb]
                    exact hk
            · exact hGchain)
          (fun X hX x hx => by
            have hxf : x ∈ rest2.flatten := List.mem_flatten.mpr ⟨X, hX, hx⟩
            rw [hG2x x (hRQ x hxf) (hRnotB2 x hxf) (fun he => hRnotB x hxf (he ▸ hbB))]
            exact hGmask0 X hX x hx)
        obtain ⟨tr2, hfold2, hperm2⟩ := hrest
        have hcongr := bpCascade_congr (B2 :: rest2) (bpFinalize G2 Q (b2 :: q3))
          (bpFinalize G Q (b :: b2 :: q3)) B
          (fun d hd => by
            by_cases hdb : d = b
            · subst hdb
              rw [bpFinalize_not _ _ _ _ (by simp [hbq2]) hbQ2, hG2b,
                bpFinalize_mem_B _ _ _ _ (List.mem_cons_self d (b2 :: q3)), hK]
            · by_cases hdq : d ∈ b2 :: q3
              · rw [bpFinalize_mem_B _ _ _ _ hdq,
                  bpFinalize_mem_B _ _ _ _ (List.mem_cons_of_mem b hdq),
                  hG2x d (hBQ d hd) (fun h => hB2notB d h hd) hdb]
                have hm : Q.map (fun dq => (G2 dq).delta * (wlookup (G2 dq).weights d).getD 0)
                    = Q.map (fun dq => (G dq).delta * (wlookup (G dq).weights d).getD 0) := by
                  apply List.map_congr_left
                  intro dq hdq2
                  rw [hG2Q dq hdq2, withWeights_delta, withWeights_weights,
                    wlookup_winsert_other _ _ _ _ hdb]
                rw [hm]
              · have hdSA : d ∉ b :: b2 :: q3 := by
                  intro h
                  rcases List.mem_cons.mp h with h2 | h2
                  · exact hdb h2
                  · exact hdq h2
                rw [bpFinalize_not _ _ _ _ hdq (hBQ d hd),
                  bpFinalize_not _ _ _ _ hdSA (hBQ d hd),
                  hG2x d (hBQ d hd) (fun h => hB2notB d h hd) hdb])
          (fun j hj => by
            by_cases hjB : j ∈ B
            · by_cases hjb : j = b
              · subst hjb
                rw [bpFinalize_not _ _ _ _ (by simp [hbq2]) hbQ2, hG2b,
                  bpFinalize_mem_B _ _ _ _ (List.mem_cons_self j (b2 :: q3)), hK]
              · by_cases hjq : j ∈ b2 :: q3
                · rw [bpFinalize_mem_B _ _ _ _ hjq,
                    bpFinalize_mem_B _ _ _ _ (List.mem_cons_of_mem b hjq),
                    hG2x j (hBQ j hjB) (fun h => hB2notB j h hjB) hjb]
                  have hm : Q.map (fun dq => (G2 dq).delta * (wlookup (G2 dq).weights j).getD 0)
                      = Q.map (fun dq => (G dq).delta * (wlookup (G dq).weights j).getD 0) := by
                    apply List.map_congr_left
                    intro dq hdq2
                    rw [hG2Q dq hdq2, withWeights_delta, withWeights_weights,
                      wlookup_winsert_other _ _ _ _ hjb]
                  rw [hm]
                · have hjSA : j ∉ b :: b2 :: q3 := by
                    intro h
                    rcases List.mem_cons.mp h with h2 | h2
                    · exact hjb h2
                    · exact hjq h2
                  rw [bpFinalize_not _ _ _ _ hjq (hBQ j hjB),
                    bpFinalize_not _ _ _ _ hjSA (hBQ j hjB),
                    hG2x j (hBQ j hjB) (fun h => hB2notB j h hjB) hjb]
            · by_cases hjQ : j ∈ Q
              · have hjq : j ∉ b2 :: q3 := fun h => hjB (hq3B j h)
                have hjbq : j ∉ b :: b2 :: q3 := by
                  intro h
                  rcases List.mem_cons.mp h with h2 | h2
                  · exact hbQ2 (h2 ▸ hjQ)
                  · exact hjq h2
                rw [bpFinalize_mem_Q _ _ _ _ hjq hjQ,
                  bpFinalize_mem_Q _ _ _ _ hjbq hjQ, hG2Q j hjQ,
                  withWeights_delta, withWeights_weights, withWeights_withWeights]
                conv_rhs => rw [List.foldl_cons]
                have hm : (b2 :: q3).foldl (fun w k => winsert w k ((wlookup w k).getD 0
                      + 1 / 20 * (G j).delta * (G2 k).value))
                    (winsert (G j).weights b ((wlookup (G j).weights b).getD 0
                      + 1 / 20 * (G j).delta * (G b).value))
                    = (b2 :: q3).foldl (fun w k => winsert w k ((wlookup w k).getD 0
                      + 1 / 20 * (G j).delta * (G k).value))
                    (winsert (G j).weights b ((wlookup (G j).weights b).getD 0
                      + 1 / 20 * (G j).delta * (G b).value)) := by
                  apply List.foldl_ext
                  intro w k hk
                  rw [hG2x k (hBQ k (hq3B k hk)) (fun h => hB2notB k h (hq3B k hk))
                    (hq3b k hk)]
                rw [hm]
              · have hjB2 : j ∉ B2 := fun h => hj
                  (by rw [List.flatten_cons]; exact List.mem_append_left _ h)
                have hjb : j ≠ b := fun h => hjB (h ▸ hbB)
                have hjq : j ∉ b2 :: q3 := fun h => hjB (hq3B j h)
                have hjbq : j ∉ b :: b2 :: q3 := by
                  intro h
                  rcases List.mem_cons.mp h with h2 | h2
                  · exact hjb h2
                  · exact hjq h2
                rw [bpFinalize_not _ _ _ _ hjq hjQ, bpFinalize_not _ _ _ _ hjbq hjQ,
                  hG2x j hjQ hjB2 hjb])
          (fun j hj => by
            rw [List.flatten_cons] at hj
            have hjq : j ∉ b2 :: q3 := by
              intro h
              have hjB : j ∈ B := hq3B j h
              rcases List.mem_append.mp hj with h2 | h2
              · exact hB2notB j h2 hjB
              · exact hRnotB j h2 hjB
            have hjbq : j ∉ b :: b2 :: q3 := by
              intro h
              rcases List.mem_cons.mp h with h2 | h2
              · subst h2
                rcases List.mem_append.mp hj with h3 | h3
                · exact hB2notB j h3 hbB
                · exact hRnotB j h3 hbB
              · exact hjq h2
            have hjQ : j ∉ Q := by
              rcases List.mem_append.mp hj with h2 | h2
              · exact hB2Q j h2
              · exact hRQ j h2
            rw [bpFinalize_not _ _ _ _ hjq hjQ, bpFinalize_not _ _ _ _ hjbq hjQ]
            rcases List.mem_append.mp hj with h2 | h2
            · rw [hG2B2 j h2]
              rfl
            · have hjb : j ≠ b := fun h => hRnotB j h2 (h ▸ hbB)
              rw [hG2x j hjQ (hRnotB2 j h2) hjb])
        refine ⟨([] ++ Q.map (fun d =>
          (⟨d, b, 1 / 20 * (G d).delta * (G b).value⟩ : WEvent))) ++ tr2, ?_, ?_⟩
        · rw [hfold2, hcongr.1, List.append_assoc]
        · rw [List.nil_append, List.map_cons, List.flatten_cons]
          have hblock : (b2 :: q3).map (fun b' => Q.map (fun d =>
                (⟨d, b', 1 / 20 * (G2 d).delta * (G2 b').value⟩ : WEvent)))
              = (b2 :: q3).map (fun b' => Q.map (fun d =>
                (⟨d, b', 1 / 20 * (G d).delta * (G b').value⟩ : WEvent))) := by
            apply List.map_congr_left
            intro b' hb'
            apply List.map_congr_left
            intro d hd
            rw [hG2Q d hd, withWeights_delta,
              hG2x b' (hBQ b' (hq3B b' hb')) (fun h => hB2notB b' h (hq3B b' hb'))
                (hq3b b' hb')]
          rw [List.append_assoc]
          refine List.Perm.append_left _ ?_
          rw [← hblock, ← hcongr.2]
          exact hperm2

theorem setExpected_unfold (sigma : ℚ → ℚ) (fuel : ℕ) (net : Net) (o : ℕ) (t : ℚ) :
    setExpected sigma fuel net o t
      = ((setNode net o (calculateDeltaOutput (net o) t)) o).upstream.foldlM
          (fun acc u => (dataReadyDownstream sigma fuel acc.1 u o).map
            (fun p => (p.1, acc.2 ++ p.2)))
          (setNode net o (calculateDeltaOutput (net o) t), ([] : List WEvent)) := rfl

theorem bpMidNet_q (net : Net) (outs B1 : List ℕ) (ts : ℕ → ℚ) (SQ : List ℕ) (j : ℕ)
    (hj : j ∈ SQ) :
    bpMidNet net outs B1 ts SQ j = (net j).withDelta (bpDelta net ts j) := by
  unfold bpMidNet
  rw [if_pos hj]

theorem bpMidNet_b (net : Net) (outs B1 : List ℕ) (ts : ℕ → ℚ) (SQ : List ℕ) (j : ℕ)
    (hjS : j ∉ SQ) (hjB : j ∈ B1) :
    bpMidNet net outs B1 ts SQ j = (net j).withReportingDown (maskOf outs SQ) := by
  unfold bpMidNet
  rw [if_neg hjS, if_pos hjB]

theorem bpMidNet_x (net : Net) (outs B1 : List ℕ) (ts : ℕ → ℚ) (SQ : List ℕ) (j : ℕ)
    (hjS : j ∉ SQ) (hjB : j ∉ B1) :
    bpMidNet net outs B1 ts SQ j = net j := by
  unfold bpMidNet
  rw [if_neg hjS, if_neg hjB]

theorem setExpectedL_mid (sigma : ℚ → ℚ) (fuel : ℕ) (net : Net) (outs B1 : List ℕ)
    (ts : ℕ → ℚ) (SQ : List ℕ) (o : ℕ)
    (hoouts : o ∈ outs) (hoSQ : o ∉ SQ) (hoB1 : o ∉ B1) (hB1nd : B1.Nodup)
    (hup : (net o).upstream = B1)
    (hof : ∀ x ∈ B1, (net x).downstream = outs ∧ (net x).referenceDown = 2 ^ outs.length - 1)
    (hSQb : ∀ x ∈ B1, x ∉ SQ)
    (hne : maskOf outs SQ ||| (1 <<< insIdx outs o) ≠ 2 ^ outs.length - 1) :
    setExpected sigma (fuel + 1) (bpMidNet net outs B1 ts SQ) o (ts o)
      = some (bpMidNet net outs B1 ts (SQ ++ [o]), []) := by
  rw [setExpected_unfold, setNode_same, bpMidNet_x net outs B1 ts SQ o hoSQ hoB1]
  rw [show calculateDeltaOutput (net o) (ts o) = (net o).withDelta (bpDelta net ts o) from rfl,
    withDelta_upstream, hup]
  have hfold := bpFoldUps_adv sigma fuel outs o hoouts (maskOf outs SQ)
    (2 ^ outs.length - 1) hne B1 hB1nd
    (setNode (bpMidNet net outs B1 ts SQ) o ((net o).withDelta (bpDelta net ts o)))
    []
    (fun x hx => by
      have hxo : x ≠ o := fun h => hoB1 (h ▸ hx)
      rw [setNode_other _ _ _ _ hxo, bpMidNet_b net outs B1 ts SQ x (hSQb x hx) hx]
      exact ⟨by rw [withReportingDown_downstream]; exact (hof x hx).1,
        by rw [withReportingDown_reportingDown],
        by rw [withReportingDown_referenceDown]; exact (hof x hx).2⟩)
  rw [hfold]
  refine congrArg some (Prod.ext (funext fun j => ?_) rfl)
  dsimp only
  by_cases hjB : j ∈ B1
  · have hjo : j ≠ o := fun h => hoB1 (h ▸ hjB)
    have hjS : j ∉ SQ := hSQb j hjB
    have hjSo : j ∉ SQ ++ [o] := by
      intro h
      rcases List.mem_append.mp h with h | h
      · exact hjS h
      · exact hjo (List.mem_singleton.mp h)
    rw [if_pos hjB, setNode_other _ _ _ _ hjo, bpMidNet_b net outs B1 ts SQ j hjS hjB,
      bpMidNet_b net outs B1 ts (SQ ++ [o]) j hjSo hjB, maskOf_append_one]
    rfl
  · rw [if_neg hjB]
    by_cases hjo : j = o
    · subst hjo
      rw [setNode_same, bpMidNet_q net outs B1 ts (SQ ++ [j]) j
        (List.mem_append_right SQ (List.mem_singleton_self j))]
    · rw [setNode_other _ _ _ _ hjo]
      by_cases hjS : j ∈ SQ
      · rw [bpMidNet_q net outs B1 ts SQ j hjS,
          bpMidNet_q net outs B1 ts (SQ ++ [o]) j (List.mem_append_left _ hjS)]
      · rw [bpMidNet_x net outs B1 ts SQ j hjS hjB,
          bpMidNet_x net outs B1 ts (SQ ++ [o]) j
            (by
              intro h
              rcases List.mem_append.mp h with h | h
              · exact hjS h
              · exact hjo (List.mem_singleton.mp h)) hjB]

theorem setExpectedL_last (sigma : ℚ → ℚ) (net : Net) (outs B1 : List ℕ)
    (rest1 : List (List ℕ)) (ts : ℕ → ℚ) (SQ : List ℕ) (o : ℕ)
    (hL : LayeredBP net outs (B1 :: rest1))
    (hoouts : o ∈ outs) (hoSQ : o ∉ SQ) (hSQsub : ∀ p ∈ SQ, p ∈ outs)
    (hcov : ∀ u ∈ outs, u ∈ SQ ++ [o]) :
    ∃ tr, setExpected sigma (rest1.length + 1 + 1) (bpMidNet net outs B1 ts SQ) o (ts o)
        = some (bpFinalNetL net outs (B1 :: rest1) ts, tr)
      ∧ tr.Perm (bpCascadeEvents (setDeltasOut net outs ts) outs (B1 :: rest1)) := by
  obtain ⟨houtne, hchne, hnd, hupOuts, hshape, hmask0⟩ := id hL
  obtain ⟨hnd1, hndf, hdisj⟩ := List.nodup_append.mp hnd
  obtain ⟨hB1ne, hB1nd, hfldB1, hshape2⟩ := id hshape
  have hFnotO : ∀ x ∈ (B1 :: rest1).flatten, x ∉ outs := fun x hx ho => hdisj ho hx
  have hoF : o ∉ (B1 :: rest1).flatten := fun h => hdisj hoouts h
  have hoB1 : o ∉ B1 :=
    fun h => hoF (by rw [List.flatten_cons]; exact List.mem_append_left _ h)
  have hSQF : ∀ p ∈ SQ, p ∉ (B1 :: rest1).flatten := fun p hp h => hdisj (hSQsub p hp) h
  have hH1F : ∀ x ∈ (B1 :: rest1).flatten,
      setNode (bpMidNet net outs B1 ts SQ) o ((net o).withDelta (bpDelta net ts o)) x
        = bpMidNet net outs B1 ts SQ x := by
    intro x hx
    exact setNode_other _ _ _ _ (fun h => hoF (h ▸ hx))
  rw [setExpected_unfold, setNode_same, bpMidNet_x net outs B1 ts SQ o hoSQ hoB1,
    show calculateDeltaOutput (net o) (ts o) = (net o).withDelta (bpDelta net ts o) from rfl,
    withDelta_upstream, hupOuts o hoouts, show headList (B1 :: rest1) = B1 from rfl]
  have hfire := fireBack sigma rest1 (rest1.length + 1) (by omega) B1 outs o
    (setNode (bpMidNet net outs B1 ts SQ) o ((net o).withDelta (bpDelta net ts o)))
    [] hoouts hnd1 hndf hFnotO
    (by
      apply bpChainShape_mono (B1 :: rest1) outs net
      · intro x hx
        rw [hH1F x hx]
        have hxS : x ∉ SQ := fun h => hSQF x h hx
        by_cases hxB : x ∈ B1
        · rw [bpMidNet_b net outs B1 ts SQ x hxS hxB]
          exact ⟨by rw [withReportingDown_downstream], by rw [withReportingDown_referenceDown],
            by rw [withReportingDown_upstream]⟩
        · rw [bpMidNet_x net outs B1 ts SQ x hxS hxB]
          exact ⟨rfl, rfl, rfl⟩
      · intro x k hk
        by_cases hxo : x = o
        · subst hxo
          rw [setNode_same, withDelta_weights]
          exact hk
        · rw [setNode_other _ _ _ _ hxo]
          unfold bpMidNet
          by_cases hxS : x ∈ SQ
          · rw [if_pos hxS, withDelta_weights]
            exact hk
          · rw [if_neg hxS]
            by_cases hxB : x ∈ B1
            · rw [if_pos hxB, withReportingDown_weights]
              exact hk
            · rw [if_neg hxB]
              exact hk
      · exact hshape)
    (by
      intro x hx
      have hxF : x ∈ (B1 :: rest1).flatten := by
        rw [List.flatten_cons]; exact List.mem_append_left _ hx
      rw [hH1F x hxF, bpMidNet_b net outs B1 ts SQ x (fun h => hSQF x h hxF) hx,
        withReportingDown_reportingDown, withReportingDown_referenceDown,
        (hfldB1 x hx).2.1, ← maskOf_append_one]
      exact maskOf_eq_ref outs (SQ ++ [o]) hnd1
        (by
          intro u hu
          rcases List.mem_append.mp hu with h | h
          · exact hSQsub u h
          · rw [List.mem_singleton.mp h]; exact hoouts)
        hcov)
    (by
      intro X hX x hx
      have hxR : x ∈ rest1.flatten := List.mem_flatten.mpr ⟨X, hX, hx⟩
      have hxF : x ∈ (B1 :: rest1).flatten := by
        rw [List.flatten_cons]; exact List.mem_append_right _ hxR
      rw [hH1F x hxF, bpMidNet_x net outs B1 ts SQ x (fun h => hSQF x h hxF)
        (fun h => (List.nodup_append.mp (by rw [← List.flatten_cons]; exact hndf)).2.2 h hxR)]
      exact hmask0 X (List.mem_cons_of_mem B1 hX) x hx)
  obtain ⟨trD, hfold, hPerm⟩ := hfire
  have hcongr := bpCascade_congr (B1 :: rest1)
    (setNode (bpMidNet net outs B1 ts SQ) o ((net o).withDelta (bpDelta net ts o)))
    (setDeltasOut net outs ts) outs
    (fun d hd => by
      by_cases hdo : d = o
      · subst hdo
        rw [setNode_same]
        unfold setDeltasOut
        rw [if_pos hd]
      · rw [setNode_other _ _ _ _ hdo]
        rcases List.mem_append.mp (hcov d hd) with h | h
        · rw [bpMidNet_q net outs B1 ts SQ d h]
          unfold setDeltasOut
          rw [if_pos hd]
        · exact absurd (List.mem_singleton.mp h) hdo)
    (fun j hj => by
      by_cases hjo : j ∈ outs
      · by_cases hdo : j = o
        · subst hdo
          rw [setNode_same]
          unfold setDeltasOut
          rw [if_pos hjo]
        · rw [setNode_other _ _ _ _ hdo]
          rcases List.mem_append.mp (hcov j hjo) with h | h
          · rw [bpMidNet_q net outs B1 ts SQ j h]
            unfold setDeltasOut
            rw [if_pos hjo]
          · exact absurd (List.mem_singleton.mp h) hdo
      · have hjS : j ∉ SQ := fun h => hjo (hSQsub j h)
        have hjB : j ∉ B1 :=
          fun h => hj (by rw [List.flatten_cons]; exact List.mem_append_left _ h)
        have hjo2 : j ≠ o := fun h => hjo (h ▸ hoouts)
        rw [setNode_other _ _ _ _ hjo2, bpMidNet_x net outs B1 ts SQ j hjS hjB]
        unfold setDeltasOut
        rw [if_neg hjo])
    (fun j hj => by
      have hjouts : j ∉ outs := fun h => hdisj h hj
      have hjS : j ∉ SQ := fun h => hjouts (hSQsub j h)
      have hjo2 : j ≠ o := fun h => hjouts (h ▸ hoouts)
      have hsv : setDeltasOut net outs ts j = net j := by
        unfold setDeltasOut
        rw [if_neg hjouts]
      rw [hH1F j hj, hsv]
      by_cases hjB : j ∈ B1
      · rw [bpMidNet_b net outs B1 ts SQ j hjS hjB]
        rfl
      · rw [bpMidNet_x net outs B1 ts SQ j hjS hjB])
  refine ⟨trD, ?_, ?_⟩
  · rw [hfold, List.nil_append, hcongr.1]
    rfl
  · rw [← hcongr.2]
    exact hPerm

theorem bpRunL (sigma : ℚ → ℚ) (net : Net) (outs B1 : List ℕ) (rest1 : List (List ℕ))
    (ts : ℕ → ℚ) (hL : LayeredBP net outs (B1 :: rest1)) :
    ∀ (rem SQ : List ℕ), rem ≠ [] → (SQ ++ rem).Perm outs →
    ∀ e0 : List WEvent,
    ∃ tr, (rem.map (fun o => (o, ts o))).foldlM
        (fun acc p => (setExpected sigma (rest1.length + 1 + 1) acc.1 p.1 p.2).map
          (fun r => (r.1, acc.2 ++ r.2)))
        (bpMidNet net outs B1 ts SQ, e0)
      = some (bpFinalNetL net outs (B1 :: rest1) ts, e0 ++ tr)
      ∧ tr.Perm (bpCascadeEvents (setDeltasOut net outs ts) outs (B1 :: rest1)) := by
  obtain ⟨houtne, hchne, hnd, hupOuts, hshape, hmask0⟩ := id hL
  obtain ⟨hnd1, hndf, hdisj⟩ := List.nodup_append.mp hnd
  obtain ⟨hB1ne, hB1nd, hfldB1, hshape2⟩ := id hshape
  intro rem
  induction rem with
  | nil => intro SQ hne _; exact absurd rfl hne
  | cons o rem2 ih =>
    intro SQ _ hperm e0
    have hPnd : (SQ ++ o :: rem2).Nodup := hperm.nodup_iff.mpr hnd1
    obtain ⟨hPnd1, hPnd2, hPdisj⟩ := List.nodup_append.mp hPnd
    have hoouts : o ∈ outs := hperm.subset (by simp)
    have hoSQ : o ∉ SQ := fun h => hPdisj h (List.mem_cons_self o rem2)
    have hSQsub : ∀ p ∈ SQ, p ∈ outs := fun p hp => hperm.subset (List.mem_append_left _ hp)
    rw [List.map_cons]
    cases rem2 with
    | nil =>
      have hcov : ∀ u ∈ outs, u ∈ SQ ++ [o] := fun u hu => hperm.symm.subset hu
      obtain ⟨trD, hstep, hstepP⟩ := setExpectedL_last sigma net outs B1 rest1 ts SQ o hL
        hoouts hoSQ hSQsub hcov
      refine ⟨trD, ?_, hstepP⟩
      rw [bpFoldExp_cons sigma (rest1.length + 1 + 1) (List.map (fun u => (u, ts u)) [])
        (o, ts o) _ _ _ e0 hstep, List.map_nil, List.foldlM_nil]
      rfl
    | cons o2 rem3 =>
      have ho2outs : o2 ∈ outs := hperm.subset (by simp)
      have ho2not : o2 ∉ SQ ++ [o] := by
        intro h
        rcases List.mem_append.mp h with h | h
        · exact hPdisj h (by simp)
        · exact (List.nodup_cons.mp hPnd2).1
            (by rw [← List.mem_singleton.mp h]; exact List.mem_cons_self o2 rem3)
      have hne : maskOf outs SQ ||| (1 <<< insIdx outs o) ≠ 2 ^ outs.length - 1 := by
        rw [← maskOf_append_one]
        exact maskOf_ne_ref outs (SQ ++ [o]) hnd1
          (by
            intro u hu
            rcases List.mem_append.mp hu with h | h
            · exact hSQsub u h
            · rw [List.mem_singleton.mp h]; exact hoouts)
          o2 ho2outs ho2not
      have hoB1 : o ∉ B1 :=
        fun h => hdisj hoouts (by rw [List.flatten_cons]; exact List.mem_append_left _ h)
      have hstep := setExpectedL_mid sigma (rest1.length + 1) net outs B1 ts SQ o
        hoouts hoSQ hoB1 hB1nd (hupOuts o hoouts)
        (fun x hx => ⟨(hfldB1 x hx).1, (hfldB1 x hx).2.1⟩)
        (fun x hx hxS => hdisj (hSQsub x hxS)
          (by rw [List.flatten_cons]; exact List.mem_append_left _ hx))
        hne
      rw [bpFoldExp_cons sigma (rest1.length + 1 + 1)
        (List.map (fun u => (u, ts u)) (o2 :: rem3)) (o, ts o) _ _ _ e0 hstep,
        List.append_nil]
      exact ih (SQ ++ [o]) (by simp) (by rw [← List.append_cons]; exact hperm) e0

theorem countP_flatten {α : Type} (p : α → Bool) :
    ∀ L : List (List α), (L.flatten).countP p = (L.map (fun l => l.countP p)).sum := by
  intro L
  induction L with
  | nil => rfl
  | cons l L ih =>
    rw [List.flatten_cons, List.countP_append, List.map_cons, List.sum_cons, ih]

theorem countP_evts_holder_ne (j i b : ℕ) (g : ℕ → ℚ) :
    ∀ Q : List ℕ, j ∉ Q →
    (Q.map (fun d => (⟨d, b, g d⟩ : WEvent))).countP
      (fun e => decide (e.holder = j) && decide (e.key = i)) = 0 := by
  intro Q hj
  rw [List.countP_eq_zero]
  intro e he
  obtain ⟨d, hd, rfl⟩ := List.mem_map.mp he
  simp only [Bool.and_eq_true, decide_eq_true_eq]
  exact fun h => hj (h.1 ▸ hd)

theorem countP_evts_ne (j i b : ℕ) (hbi : b ≠ i) (g : ℕ → ℚ) (Q : List ℕ) :
    (Q.map (fun d => (⟨d, b, g d⟩ : WEvent))).countP
      (fun e => decide (e.holder = j) && decide (e.key = i)) = 0 := by
  rw [List.countP_eq_zero]
  intro e he
  obtain ⟨d, hd, rfl⟩ := List.mem_map.mp he
  simp only [Bool.and_eq_true, decide_eq_true_eq]
  exact fun h => hbi h.2

theorem countP_evts_eq (j i : ℕ) (g : ℕ → ℚ) :
    ∀ Q : List ℕ, Q.Nodup → j ∈ Q →
    (Q.map (fun d => (⟨d, i, g d⟩ : WEvent))).countP
      (fun e => decide (e.holder = j) && decide (e.key = i)) = 1 := by
  intro Q
  induction Q with
  | nil => intro _ hj; exact absurd hj (List.not_mem_nil j)
  | cons d Q ih =>
    intro hnd hj
    rw [List.map_cons, List.countP_cons]
    by_cases hdj : d = j
    · subst hdj
      have hjQ : d ∉ Q := (List.nodup_cons.mp hnd).1
      rw [countP_evts_holder_ne d i i g Q hjQ]
      simp
    · have hjQ : j ∈ Q := by
        rcases List.mem_cons.mp hj with h | h
        · exact absurd h.symm hdj
        · exact h
      rw [ih (List.nodup_cons.mp hnd).2 hjQ]
      simp [hdj]

theorem foldl_winsert_isSome_pres (f : List (ℕ × ℚ) → ℕ → ℚ) :
    ∀ (S : List ℕ) (w : List (ℕ × ℚ)) (k : ℕ), (wlookup w k).isSome = true →
    (wlookup (S.foldl (fun w b => winsert w b (f w b)) w) k).isSome = true := by
  intro S
  induction S with
  | nil => intro w k h; exact h
  | cons a S ih =>
    intro w k h
    rw [List.foldl_cons]
    exact ih _ k (winsert_isSome_pres w a (f w a) k h)

theorem bpEdge_master :
    ∀ (chain : List (List ℕ)) (G : Net) (Q : List ℕ),
    (Q ++ chain.flatten).Nodup →
    bpChainShape G Q chain →
    (∀ q ∈ Q, (G q).upstream = headList chain) →
    ∀ j i : ℕ, j ∈ Q ++ chain.flatten → i ∈ (G j).upstream →
      (bpCascadeEvents G Q chain).countP
          (fun e => decide (e.holder = j) && decide (e.key = i)) = 1
      ∧ (⟨j, i, 1 / 20 * ((bpCascadeNet G Q chain) j).delta * (G i).value⟩ : WEvent)
          ∈ bpCascadeEvents G Q chain
      ∧ wlookup ((bpCascadeNet G Q chain j).weights) i
          = some ((wlookup (G j).weights i).getD 0
            + 1 / 20 * ((bpCascadeNet G Q chain) j).delta * (G i).value) := by
  intro chain
  induction chain with
  | nil =>
    intro G Q _ _ hup j i hj hi
    simp only [List.flatten_nil, List.append_nil] at hj
    rw [hup j hj] at hi
    exact absurd hi (List.not_mem_nil i)
  | cons B rest ih =>
    intro G Q hnd hshape hup j i hj hi
    obtain ⟨hBne, hBnd, hfld, htail⟩ := id hshape
    obtain ⟨hndQ, hndf, hdisj⟩ := List.nodup_append.mp hnd
    obtain ⟨hndB, hndR, hdisjBR⟩ := List.nodup_append.mp
      (by rw [← List.flatten_cons]; exact hndf)
    have hQnotF : ∀ x ∈ (B :: rest).flatten, x ∉ Q := fun x hx hq => hdisj hq hx
    by_cases hjQ : j ∈ Q
    · have hiB : i ∈ B := by
        have h2 := hi
        rw [hup j hjQ] at h2
        exact h2
      have hjB : j ∉ B :=
        fun h => hQnotF j (by rw [List.flatten_cons]; exact List.mem_append_left _ h) hjQ
      have hjR : j ∉ rest.flatten :=
        fun h => hQnotF j (by rw [List.flatten_cons]; exact List.mem_append_right _ h) hjQ
      have hdelta : (bpCascadeNet G Q (B :: rest) j).delta = (G j).delta :=
        bpCascade_delta_off (B :: rest) G Q j
          (by
            rw [List.flatten_cons]
            intro h
            rcases List.mem_append.mp h with h2 | h2
            · exact hjB h2
            · exact hjR h2)
      have huntouched : bpCascadeNet G Q (B :: rest) j = bpFinalize G Q B j := by
        rw [bpCascadeNet_cons]
        exact bpCascade_untouched rest _ B j hjB hjR
      refine ⟨?_, ?_, ?_⟩
      · rw [bpCascadeEvents_cons, List.countP_append]
        have hblock : ((B.map (fun b => Q.map (fun d =>
              (⟨d, b, 1 / 20 * (G d).delta * (G b).value⟩ : WEvent)))).flatten).countP
            (fun e => decide (e.holder = j) && decide (e.key = i)) = 1 := by
          rw [countP_flatten, List.map_map]
          exact sum_map_one_of_nodup i _
            (countP_evts_eq j i (fun d => 1 / 20 * (G d).delta * (G i).value) Q hndQ hjQ)
            (fun b hb => countP_evts_ne j i b hb (fun d => 1 / 20 * (G d).delta * (G b).value) Q)
            B hndB hiB
        have hdeep : (bpCascadeEvents (bpFinalize G Q B) B rest).countP
            (fun e => decide (e.holder = j) && decide (e.key = i)) = 0 := by
          rw [List.countP_eq_zero]
          intro e he
          have hh := bpEvents_holder rest _ B e he
          have hhj : e.holder ≠ j := by
            intro hEq
            rcases List.mem_append.mp hh with h2 | h2
            · exact hjB (hEq ▸ h2)
            · exact hjR (hEq ▸ h2)
          simp only [Bool.and_eq_true, decide_eq_true_eq]
          exact fun h => hhj h.1
        rw [hblock, hdeep]
      · rw [hdelta, bpCascadeEvents_cons]
        refine List.mem_append_left _ ?_
        refine List.mem_flatten.mpr ⟨Q.map (fun d =>
          (⟨d, i, 1 / 20 * (G d).delta * (G i).value⟩ : WEvent)), ?_, ?_⟩
        · exact List.mem_map.mpr ⟨i, hiB, rfl⟩
        · exact List.mem_map.mpr ⟨j, hjQ, rfl⟩
      · rw [huntouched, bpFinalize_mem_Q _ _ _ _ hjB hjQ, withWeights_weights,
          withWeights_delta]
        exact wlookup_foldWinsert_mem (fun k => 1 / 20 * (G j).delta * (G k).value)
          B hBnd (G j).weights i hiB
    · have hjf : j ∈ B ++ rest.flatten := by
        rcases List.mem_append.mp hj with h | h
        · exact absurd h hjQ
        · rw [List.flatten_cons] at h
          exact h
      have hjQw : (bpFinalize G Q B j).weights = (G j).weights :=
        bpFinalize_weights_not_Q G Q B j hjQ
      have hshape2 : bpChainShape (bpFinalize G Q B) B rest := by
        apply bpChainShape_mono rest B G
        · intro x hx
          have hxB : x ∉ B := fun h => hdisjBR h hx
          have hxQ : x ∉ Q :=
            hQnotF x (by rw [List.flatten_cons]; exact List.mem_append_right _ hx)
          rw [bpFinalize_not _ _ _ _ hxB hxQ]
          exact ⟨rfl, rfl, rfl⟩
        · intro x k hk
          by_cases hxB : x ∈ B
          · rw [bpFinalize_mem_B _ _ _ _ hxB, withDelta_weights, withReportingDown_weights]
            exact hk
          · by_cases hxQ : x ∈ Q
            · rw [bpFinalize_mem_Q _ _ _ _ hxB hxQ, withWeights_weights]
              exact foldl_winsert_isSome_pres _ B (G x).weights k hk
            · rw [bpFinalize_not _ _ _ _ hxB hxQ]
              exact hk
        · exact htail
      have hup2 : ∀ b ∈ B, (bpFinalize G Q B b).upstream = headList rest := by
        intro b hb
        rw [bpFinalize_upstream]
        exact (hfld b hb).2.2.1
      have hi2 : i ∈ (bpFinalize G Q B j).upstream := by
        rw [bpFinalize_upstream]
        exact hi
      have hrec := ih (bpFinalize G Q B) B
        (by rw [← List.flatten_cons]; exact hndf)
        hshape2 hup2 j i hjf hi2
      refine ⟨?_, ?_, ?_⟩
      · rw [bpCascadeEvents_cons, List.countP_append]
        have hblock : ((B.map (fun b => Q.map (fun d =>
              (⟨d, b, 1 / 20 * (G d).delta * (G b).value⟩ : WEvent)))).flatten).countP
            (fun e => decide (e.holder = j) && decide (e.key = i)) = 0 := by
          rw [List.countP_eq_zero]
          intro e he
          obtain ⟨l, hl, hel⟩ := List.mem_flatten.mp he
          obtain ⟨b, -, rfl⟩ := List.mem_map.mp hl
          obtain ⟨d, hd, rfl⟩ := List.mem_map.mp hel
          simp only [Bool.and_eq_true, decide_eq_true_eq]
          exact fun h => hjQ (h.1 ▸ hd)
        rw [hblock, hrec.1]
      · have h2 := hrec.2.1
        rw [bpFinalize_value, ← bpCascadeNet_cons] at h2
        rw [bpCascadeEvents_cons]
        exact List.mem_append_right _ h2
      · have h2 := hrec.2.2
        rw [bpFinalize_value, hjQw, ← bpCascadeNet_cons] at h2
        exact h2

theorem setDeltasOut_upstream (net : Net) (outs : List ℕ) (ts : ℕ → ℚ) (j : ℕ) :
    (setDeltasOut net outs ts j).upstream = (net j).upstream := by
  unfold setDeltasOut
  by_cases hj : j ∈ outs
  · rw [if_pos hj]
    rfl
  · rw [if_neg hj]

theorem setDeltasOut_value (net : Net) (outs : List ℕ) (ts : ℕ → ℚ) (j : ℕ) :
    (setDeltasOut net outs ts j).value = (net j).value := by
  unfold setDeltasOut
  by_cases hj : j ∈ outs
  · rw [if_pos hj]
    rfl
  · rw [if_neg hj]

theorem setDeltasOut_weights (net : Net) (outs : List ℕ) (ts : ℕ → ℚ) (j : ℕ) :
    (setDeltasOut net outs ts j).weights = (net j).weights := by
  unfold setDeltasOut
  by_cases hj : j ∈ outs
  · rw [if_pos hj]
    rfl
  · rw [if_neg hj]

/-- C2 (weight update exactly once): on any layered network of the shape
`LayerList` builds — output layer, any number of hidden layers, input
layer, fully wired with stored weights on every edge — one backward
presentation (`back_propagate`: one `set_expected` per output node, in
output order) succeeds with no `KeyError`, drives the heap to the one
closed-form final state `bpFinalNetL`, and the recorded trace of
`adjust_weights` calls updates every edge exactly once: for every node
`j` and every upstream neighbor `i` of `j`, exactly one event with
holder `j` and key `i` occurs — issued by node `i`'s update step with
adjustment `0.05 * delta_j * value_i`, where `delta_j` is `j`'s delta as
finalized in this backward pass and `value_i` is `i`'s forward value —
and the weight `j` stores for `i` ends at its old value plus exactly
that adjustment. -/
theorem claim_C2_weight_update_exactly_once
    (sigma : ℚ → ℚ) (net : Net) (outs : List ℕ) (layers : List (List ℕ))
    (ts : ℕ → ℚ) (hL : LayeredBP net outs layers) :
    ∃ tr : List WEvent,
      backPropagate sigma (layers.length + 1) net (outs.map (fun o => (o, ts o)))
        = some (bpFinalNetL net outs layers ts, tr)
      ∧ ∀ j i : ℕ, j ∈ outs ++ layers.flatten → i ∈ (net j).upstream →
          tr.countP (fun e => decide (e.holder = j) && decide (e.key = i)) = 1
          ∧ (⟨j, i, 1 / 20 * ((bpFinalNetL net outs layers ts) j).delta
                * (net i).value⟩ : WEvent) ∈ tr
          ∧ wlookup ((bpFinalNetL net outs layers ts j).weights) i
              = some ((wlookup (net j).weights i).getD 0
                + 1 / 20 * ((bpFinalNetL net outs layers ts) j).delta * (net i).value) := by
  cases layers with
  | nil => exact absurd rfl hL.2.1
  | cons B1 rest1 =>
    obtain ⟨houtne, hchne, hnd, hupOuts, hshape, hmask0⟩ := id hL
    obtain ⟨hnd1, hndf, hdisj⟩ := List.nodup_append.mp hnd
    have h0 : bpMidNet net outs B1 ts [] = net := by
      funext j
      unfold bpMidNet
      rw [if_neg (List.not_mem_nil j)]
      by_cases hj : j ∈ B1
      · rw [if_pos hj, show maskOf outs [] = 0 from rfl,
          ← hmask0 B1 (List.mem_cons_self B1 rest1) j hj]
        rfl
      · rw [if_neg hj]
    have hrun := bpRunL sigma net outs B1 rest1 ts hL outs [] houtne
      (by rw [List.nil_append]) []
    rw [h0] at hrun
    obtain ⟨tr, hfold, hPerm⟩ := hrun
    rw [List.nil_append] at hfold
    have hshapeD : bpChainShape (setDeltasOut net outs ts) outs (B1 :: rest1) := by
      apply bpChainShape_mono (B1 :: rest1) outs net
      · intro x hx
        unfold setDeltasOut
        by_cases hxo : x ∈ outs
        · rw [if_pos hxo]
          exact ⟨rfl, rfl, rfl⟩
        · rw [if_neg hxo]
          exact ⟨rfl, rfl, rfl⟩
      · intro x k hk
        rw [setDeltasOut_weights]
        exact hk
      · exact hshape
    have hupD : ∀ q ∈ outs, (setDeltasOut net outs ts q).upstream
        = headList (B1 :: rest1) := by
      intro q hq
      rw [setDeltasOut_upstream]
      exact hupOuts q hq
    have hndD : (outs ++ (B1 :: rest1).flatten).Nodup := hnd
    refine ⟨tr, ?_, ?_⟩
    · rw [show (B1 :: rest1).length + 1 = rest1.length + 1 + 1 from by rw [List.length_cons]]
      exact hfold
    · intro j i hj hi
      have hiD : i ∈ (setDeltasOut net outs ts j).upstream := by
        rw [setDeltasOut_upstream]
        exact hi
      have hmaster := bpEdge_master (B1 :: rest1) (setDeltasOut net outs ts) outs
        hndD hshapeD hupD j i hj hiD
      refine ⟨?_, ?_, ?_⟩
      · rw [hPerm.countP_eq]
        exact hmaster.1
      · have h2 := hmaster.2.1
        rw [setDeltasOut_value] at h2
        exact (hPerm.mem_iff).mpr h2
      · have h2 := hmaster.2.2
        rw [setDeltasOut_value, setDeltasOut_weights] at h2
        exact h2

theorem c2L_shape : LayeredBP c2NetL [3] [[2], [0, 1]] := by
  refine ⟨by decide, by decide, by decide, by decide, ?_, by decide⟩
  exact ⟨by decide, by decide, by decide, by decide, by decide, by decide, trivial⟩

theorem claim_C2_weight_update_exactly_once_witness :
    LayeredBP c2NetL [3] [[2], [0, 1]] ∧
    (∃ tr : List WEvent,
      backPropagate (fun v => v) ([[2], [0, 1]].length + 1) c2NetL
          ([3].map (fun o => (o, (fun _ => (1 : ℚ)) o)))
        = some (bpFinalNetL c2NetL [3] [[2], [0, 1]] (fun _ => (1 : ℚ)), tr)
      ∧ ∀ j i : ℕ, j ∈ [3] ++ [[2], [0, 1]].flatten → i ∈ (c2NetL j).upstream →
          tr.countP (fun e => decide (e.holder = j) && decide (e.key = i)) = 1
          ∧ (⟨j, i, 1 / 20 * ((bpFinalNetL c2NetL [3] [[2], [0, 1]] (fun _ => (1 : ℚ))) j).delta
                * (c2NetL i).value⟩ : WEvent) ∈ tr
          ∧ wlookup ((bpFinalNetL c2NetL [3] [[2], [0, 1]] (fun _ => (1 : ℚ)) j).weights) i
              = some ((wlookup (c2NetL j).weights i).getD 0
                + 1 / 20 * ((bpFinalNetL c2NetL [3] [[2], [0, 1]] (fun _ => (1 : ℚ))) j).delta
                  * (c2NetL i).value)) :=
  ⟨c2L_shape, claim_C2_weight_update_exactly_once (fun v => v) c2NetL [3] [[2], [0, 1]]
    (fun _ => (1 : ℚ)) c2L_shape⟩
